import Mathlib

/-!
# The elevator master (`Master.go`)

A shallow embedding of the network master of the elevator fleet: the
dispatcher `findMostSuitable`, the redistribution of the jobs of a lost
elevator, the queue numbering, the light mirroring, the message handler and
the two connection transitions of `main`.

Conventions of the embedding.

* Go `int` is `Int`.  The floors, directions and run entries handled here are
  tiny, so neither 64-bit wrap-around nor the detour through `float64` in
  `int(Abs(float64(..)))` changes a value (it is exact below `2^53`).
* A run-time panic (index out of range) is the outer `none` of an `Option`.
* `*net.TCPConn` is `Option TCPConn`, `nil` being `none`.
* An `ElevatorMap` is an association list.  A `range` over a Go map visits the
  entries in an unspecified order: a function that ranges over a map it is
  handed (`findMostSuitable`) receives the entries in the order of the visit,
  and a function that ranges over the global `emap` takes the order of each
  visit as an argument (a function from the stored map to a rearrangement).
* `SendMessage` belongs to the network package; a call of it is recorded in
  the list of actions the embedded function returns, as is each call of the
  dispatcher.
-/

namespace Master

/-! ## Data types (package `datatypes`, seen through their uses in `Master.go`) -/

/-- Modelled from the spec: the constant `N_FLOORS` of package `datatypes`,
which `Master.go` imports.  The spec fixes it at 4 and the run
vectors built in `main` are `[4]int`. -/
def N_FLOORS : Nat := 4

/-- Modelled from the spec: direction constant `UP = +1` of package `datatypes`. -/
def UP : Int := 1

/-- Modelled from the spec: direction constant `DOWN = -1` of package `datatypes`. -/
def DOWN : Int := -1

/-- Modelled from the spec: direction constant `STOP = 0` of package `datatypes`. -/
def STOP : Int := 0

/-- Modelled from the spec: the event-type constants of package `datatypes`
that `Master.go` names; `OTHER` stands for any further constant of the package. -/
inductive EventType where
  | BUTTON_CALL_UP
  | BUTTON_CALL_DOWN
  | JOB_DONE
  | TURN_ON_UP_LIGHT
  | TURN_ON_DOWN_LIGHT
  | TURN_OFF_LIGHTS
  | OTHER (code : Nat)
deriving DecidableEq, Repr

open EventType

/-- The Go struct `Event{EventType, Floor}`. -/
structure Event where
  EventType : EventType
  Floor : Int
deriving DecidableEq, Repr

/-- A TCP session: the identity of the session object and the IP part of its
remote address (the text before the first `:` of `RemoteAddr().String()`). -/
structure TCPConn where
  sess : Nat
  ip : Nat
deriving DecidableEq, Repr

/-- A run vector, the Go array type `[4]int`. -/
structure Runs where
  cells : List Int
  size_eq : cells.length = 4
deriving DecidableEq, Repr

/-- The indexing `a[i]` with a Go `int` index; `none` is the index-out-of-range panic. -/
def Runs.get? (a : Runs) (i : Int) : Option Int :=
  if 0 ≤ i then a.cells[i.toNat]? else none

/-- The array literal `[4]int{0, 0, 0, 0}`. -/
def Runs.zero : Runs := ⟨[0, 0, 0, 0], rfl⟩

/-- The Go struct `ElevatorStruct{Uprun, Downrun, Current_floor, Dir, Conn}`. -/
structure ElevatorStruct where
  Uprun : Runs
  Downrun : Runs
  Current_floor : Int
  Dir : Int
  Conn : Option TCPConn
deriving DecidableEq, Repr

/-- The Go map type `ElevatorMap`, keyed by the IP part of the remote address. -/
abbrev ElevatorMap := List (Nat × ElevatorStruct)

/-! ## `findMostSuitable` -/

/-- The local variables of `findMostSuitable` that live across the iterations
of its loop (`tempDist` is written before it is read in every iteration). -/
structure Best where
  bestDist : Int
  bestElev : Option TCPConn
  maxFloor : Int
deriving DecidableEq, Repr

/-- How one pass through the loop body ends. -/
inductive Flow where
  | next (s : Best)
  | returnNil
  | panicked
deriving DecidableEq, Repr

/-- The loop `for j := N_FLOORS - 1; j >= 0; j-- { if Uprun[j] > 0 { maxFloor = j; break } }`;
the last argument is `j + 1`, the result the value of `maxFloor` after the loop. -/
def scanUp (Uprun : Runs) (maxFloor : Int) : Nat → Option Int
  | 0 => some maxFloor
  | j + 1 =>
    match Uprun.get? (j : Int) with
    | none => none
    | some v => if v > 0 then some (j : Int) else scanUp Uprun maxFloor j

/-- The loop `for j := 0; j < N_FLOORS; j++ { if Downrun[j] > 0 { maxFloor = j; break } }`;
the arguments are the number of iterations left and `j`. -/
def scanDown (Downrun : Runs) (maxFloor : Int) : Nat → Nat → Option Int
  | 0, _ => some maxFloor
  | k + 1, j =>
    match Downrun.get? (j : Int) with
    | none => none
    | some v => if v > 0 then some (j : Int) else scanDown Downrun maxFloor k (j + 1)

/-- The body of the loop of `findMostSuitable` for one elevator. -/
def examine (dir EventFloor : Int) (s : Best) (elevator : ElevatorStruct) : Flow :=
  match elevator.Uprun.get? EventFloor, elevator.Downrun.get? EventFloor with
  | some u, some d =>
    if (u > 0 ∧ dir = UP) ∨ (d > 0 ∧ dir = DOWN) then
      Flow.returnNil
    else if (dir = elevator.Dir ∧ dir * elevator.Current_floor < dir * EventFloor)
        ∨ elevator.Dir = STOP then
      let tempDist : Int := ((elevator.Current_floor - EventFloor).natAbs : Int)
      if tempDist < s.bestDist ∨ (tempDist = s.bestDist ∧ elevator.Dir = STOP) then
        Flow.next { s with bestDist := tempDist, bestElev := elevator.Conn }
      else
        Flow.next s
    else
      let scanned : Option Int :=
        if elevator.Dir = UP then scanUp elevator.Uprun s.maxFloor N_FLOORS
        else if elevator.Dir = DOWN then scanDown elevator.Downrun s.maxFloor N_FLOORS 0
        else some s.maxFloor
      match scanned with
      | none => Flow.panicked
      | some maxFloor =>
        let tempDist : Int :=
          ((maxFloor - elevator.Current_floor).natAbs : Int) + ((maxFloor - EventFloor).natAbs : Int)
        if tempDist < s.bestDist then
          Flow.next { bestDist := tempDist, bestElev := elevator.Conn, maxFloor := maxFloor }
        else
          Flow.next { s with maxFloor := maxFloor }
  | _, _ => Flow.panicked

/-- The loop `for _, elevator := range emapCopy` over the elevators in the order of the visit. -/
def rangeLoop (dir EventFloor : Int) : Best → List ElevatorStruct → Flow
  | s, [] => Flow.next s
  | s, elevator :: rest =>
    match examine dir EventFloor s elevator with
    | Flow.next s' => rangeLoop dir EventFloor s' rest
    | Flow.returnNil => Flow.returnNil
    | Flow.panicked => Flow.panicked

/-- The state of the locals when the loop is entered:
`bestDist := 99999`, `bestElev = nil`, `maxFloor := -1`. -/
def Best.init : Best := { bestDist := 99999, bestElev := none, maxFloor := -1 }

/-- The function `findMostSuitable(buttonEvent, emapCopy)`; `emapCopy` lists the
entries in the order the `range` visits them.  The outer `none` is a panic, `some none`
the result `nil`. -/
def findMostSuitable (buttonEvent : Event) (emapCopy : ElevatorMap) : Option (Option TCPConn) :=
  let EventFloor := buttonEvent.Floor
  if buttonEvent.EventType = BUTTON_CALL_UP then
    match rangeLoop UP EventFloor Best.init (emapCopy.map Prod.snd) with
    | Flow.next s => some s.bestElev
    | Flow.returnNil => some none
    | Flow.panicked => none
  else if buttonEvent.EventType = BUTTON_CALL_DOWN then
    match rangeLoop DOWN EventFloor Best.init (emapCopy.map Prod.snd) with
    | Flow.next s => some s.bestElev
    | Flow.returnNil => some none
    | Flow.panicked => none
  else
    some none

/-! ## Messages, actions and the imported names -/

/-- What `SendMessage` is handed as its second argument: an `Event`, an `int`
(a queue number) or an `ElevatorMap`. -/
inductive Value where
  | event (e : Event)
  | int (n : Int)
  | elevatorMap (m : ElevatorMap)
deriving DecidableEq, Repr

/-- An observable action of the master: a call `findMostSuitable(e, emap)`, with
the entries of `emap` in the order its loop visits them, or a call
`SendMessage(conn, v)`. -/
inductive Action where
  | dispatch (e : Event) (visited : ElevatorMap)
  | send (conn : Option TCPConn) (v : Value)
deriving DecidableEq, Repr

/-- The Go struct `Message{Sender, Msg}` of the network package: the session the
message came from and its payload bytes. -/
structure Message where
  Sender : TCPConn
  Msg : List Nat
deriving DecidableEq, Repr

/-- The names `Master.go` takes from the packages `datatypes` and `encoder`,
which it imports: the run state `CALL`, the four message tags and
the three decoders. -/
structure Imports where
  CALL : Int
  HANDSHAKE : Int
  EVENT : Int
  ELEV_INFO : Int
  BACKUP : Int
  DecodeEvent : List Nat → Event
  DecodeElevatorStruct : List Nat → ElevatorStruct
  DecodeElevatorMap : List Nat → ElevatorMap

/-- The order in which each `range` over a map visits its entries during one
transition: `dispatch e` for the loop of the call `findMostSuitable(e, emap)`,
`lights` for the light loops (`handleMessages`, `sendLights`), `backups` for the
broadcast after `ELEV_INFO`, `queue` for `RemakeQueue`, `stored` for the loop of
`checkForBackup` over `backup` and `orphan addr e` for the dispatch of `e` on
behalf of the backup entry `addr`. -/
structure Visits where
  dispatch : Event → ElevatorMap → ElevatorMap
  lights : ElevatorMap → ElevatorMap
  backups : ElevatorMap → ElevatorMap
  queue : ElevatorMap → ElevatorMap
  stored : ElevatorMap → ElevatorMap
  orphan : Nat → Event → ElevatorMap → ElevatorMap

/-- Every visit goes through each entry of the map exactly once. -/
def Visits.Valid (V : Visits) : Prop :=
  (∀ e m, (V.dispatch e m).Perm m) ∧ (∀ m, (V.lights m).Perm m) ∧ (∀ m, (V.backups m).Perm m)
    ∧ (∀ m, (V.queue m).Perm m) ∧ (∀ m, (V.stored m).Perm m) ∧ (∀ a e m, (V.orphan a e m).Perm m)

/-- The visits that follow the stored order. -/
def Visits.stable : Visits :=
  { dispatch := fun _ m => m, lights := id, backups := id, queue := id, stored := id,
    orphan := fun _ _ m => m }

/-! ## Operations on the Go map -/

/-- The zero value of `ElevatorStruct`. -/
def ElevatorStruct.zero : ElevatorStruct := ⟨Runs.zero, Runs.zero, 0, 0, none⟩

/-- The comma-ok index `v, ok := emap[addr]`. -/
def mapFind (emap : ElevatorMap) (addr : Nat) : Option ElevatorStruct :=
  (emap.find? (fun p => p.1 = addr)).map Prod.snd

/-- The index expression `emap[addr]`: the zero value when the key is absent. -/
def mapIndex (emap : ElevatorMap) (addr : Nat) : ElevatorStruct :=
  (mapFind emap addr).getD ElevatorStruct.zero

/-- The statement `delete(emap, addr)`. -/
def mapDelete (emap : ElevatorMap) (addr : Nat) : ElevatorMap :=
  emap.filter (fun p => p.1 ≠ addr)

/-- The assignment `emap[addr] = v`. -/
def mapAssign (emap : ElevatorMap) (addr : Nat) (v : ElevatorStruct) : ElevatorMap :=
  mapDelete emap addr ++ [(addr, v)]

/-! ## The globals and the locals of `main` -/

/-- The globals `emap`, `backup`, `receivedBackup` and the locals `DistributeBU`,
`BUelev` of `main`. -/
structure State where
  emap : ElevatorMap
  backup : ElevatorMap
  receivedBackup : Bool
  DistributeBU : Bool
  BUelev : ElevatorStruct
deriving DecidableEq, Repr

/-- The state `main` starts in. -/
def State.init : State :=
  { emap := [], backup := [], receivedBackup := false, DistributeBU := false,
    BUelev := ElevatorStruct.zero }

/-! ## `DistributeJobs`, `RemakeQueue`, `sendLights`, `checkForBackup` -/

/-- One dispatch of `DistributeJobs`: `SendMessage(findMostSuitable(job, emap), job)`. -/
def redispatch (visit : Event → ElevatorMap → ElevatorMap) (emap : ElevatorMap) (job : Event) :
    Option (List Action) :=
  match findMostSuitable job (visit job emap) with
  | none => none
  | some conn => some [Action.dispatch job (visit job emap), Action.send conn (Value.event job)]

/-- The loop `for i := 0; i < N_FLOORS; i++` of `DistributeJobs`; the last two
arguments are the number of iterations left and `i`. -/
def distributeFrom (I : Imports) (visit : Event → ElevatorMap → ElevatorMap) (emap : ElevatorMap)
    (elev : ElevatorStruct) : Nat → Nat → Option (List Action)
  | 0, _ => some []
  | k + 1, i =>
    match elev.Uprun.get? (i : Int), elev.Downrun.get? (i : Int) with
    | some u, some d =>
      match (if u = I.CALL then redispatch visit emap ⟨BUTTON_CALL_UP, (i : Int)⟩ else some []) with
      | none => none
      | some ups =>
        match (if d = I.CALL then redispatch visit emap ⟨BUTTON_CALL_DOWN, (i : Int)⟩ else some []) with
        | none => none
        | some downs =>
          match distributeFrom I visit emap elev k (i + 1) with
          | none => none
          | some rest => some (ups ++ downs ++ rest)
    | _, _ => none

/-- The function `DistributeJobs(elev)`, reading the global `emap`. -/
def DistributeJobs (I : Imports) (visit : Event → ElevatorMap → ElevatorMap) (emap : ElevatorMap)
    (elev : ElevatorStruct) : Option (List Action) :=
  distributeFrom I visit emap elev N_FLOORS 0

/-- The loop of `RemakeQueue` from the value `i` of its counter on. -/
def remakeFrom : Int → ElevatorMap → List Action
  | _, [] => []
  | i, (_, elev) :: rest => Action.send elev.Conn (Value.int i) :: remakeFrom (i + 1) rest

/-- The function `RemakeQueue()`, reading the global `emap`. -/
def RemakeQueue (visit : ElevatorMap → ElevatorMap) (emap : ElevatorMap) : List Action :=
  remakeFrom 1 (visit emap)

/-- The inner loop `for i := 0; i < N_FLOORS; i++` of `sendLights` for one elevator;
the last two arguments are the number of iterations left and `i`. -/
def lightsFrom (I : Imports) (newConn : Option TCPConn) (elev : ElevatorStruct) :
    Nat → Nat → Option (List Action)
  | 0, _ => some []
  | k + 1, i =>
    match elev.Uprun.get? (i : Int), elev.Downrun.get? (i : Int) with
    | some u, some d =>
      match lightsFrom I newConn elev k (i + 1) with
      | none => none
      | some rest =>
        some ((if u = I.CALL then [Action.send newConn (Value.event ⟨TURN_ON_UP_LIGHT, (i : Int)⟩)] else [])
          ++ (if d = I.CALL then [Action.send newConn (Value.event ⟨TURN_ON_DOWN_LIGHT, (i : Int)⟩)] else [])
          ++ rest)
    | _, _ => none

/-- The outer loop `for _, elev := range emap` of `sendLights`. -/
def lightsOver (I : Imports) (newConn : Option TCPConn) : ElevatorMap → Option (List Action)
  | [] => some []
  | (_, elev) :: rest =>
    match lightsFrom I newConn elev N_FLOORS 0 with
    | none => none
    | some here =>
      match lightsOver I newConn rest with
      | none => none
      | some later => some (here ++ later)

/-- The function `sendLights(newConn)`, reading the global `emap`. -/
def sendLights (I : Imports) (visit : ElevatorMap → ElevatorMap) (emap : ElevatorMap)
    (newConn : Option TCPConn) : Option (List Action) :=
  lightsOver I newConn (visit emap)

/-- The loop `for addr, elev := range backup` of `checkForBackup`. -/
def reconcileOver (I : Imports) (V : Visits) (emap : ElevatorMap) : ElevatorMap → Option (List Action)
  | [] => some []
  | (addr, elev) :: rest =>
    match (if (mapFind emap addr).isSome then some [] else DistributeJobs I (V.orphan addr) emap elev) with
    | none => none
    | some here =>
      match reconcileOver I V emap rest with
      | none => none
      | some later => some (here ++ later)

/-- The function `checkForBackup()` once its sleep is over; it changes no variable. -/
def checkForBackup (I : Imports) (V : Visits) (st : State) : Option (List Action) :=
  if st.receivedBackup then reconcileOver I V st.emap (V.stored st.backup) else some []

/-! ## `handleMessages` -/

/-- The conversion `strconv.Atoi(string(b))` of one payload byte, its error dropped:
the digit's value for `'0'..'9'`, and 0 otherwise. -/
def atoiByte (b : Nat) : Int :=
  if 48 ≤ b ∧ b ≤ 57 then ((b - 48 : Nat) : Int) else 0

/-- The fan-out `for _, elevator := range emap` that tells every elevator to turn
on the button light of a hall call. -/
def lightOn (e : Event) : ElevatorMap → List Action
  | [] => []
  | (_, elevator) :: rest =>
    (if e.EventType = BUTTON_CALL_UP then
        [Action.send elevator.Conn (Value.event ⟨TURN_ON_UP_LIGHT, e.Floor⟩)]
      else if e.EventType = BUTTON_CALL_DOWN then
        [Action.send elevator.Conn (Value.event ⟨TURN_ON_DOWN_LIGHT, e.Floor⟩)]
      else []) ++ lightOn e rest

/-- The fan-out `for _, elevator := range emap` after `JOB_DONE`. -/
def lightsOff (e : Event) : ElevatorMap → List Action
  | [] => []
  | (_, elevator) :: rest =>
    Action.send elevator.Conn (Value.event ⟨TURN_OFF_LIGHTS, e.Floor⟩) :: lightsOff e rest

/-- The broadcast `for _, elev := range emap { SendMessage(elev.Conn, emap) }`. -/
def sendBackups (emap : ElevatorMap) : ElevatorMap → List Action
  | [] => []
  | (_, elev) :: rest => Action.send elev.Conn (Value.elevatorMap emap) :: sendBackups emap rest

/-- The `case EVENT` of `handleMessages` for the decoded event `e`. -/
def handleEvent (V : Visits) (st : State) (e : Event) : Option (List Action) :=
  match
    (if e.EventType = BUTTON_CALL_UP ∨ e.EventType = BUTTON_CALL_DOWN then
      match findMostSuitable e (V.dispatch e st.emap) with
      | none => none
      | some none => some [Action.dispatch e (V.dispatch e st.emap)]
      | some (some mostSuitable) =>
        some (Action.dispatch e (V.dispatch e st.emap)
          :: Action.send (some mostSuitable) (Value.event e) :: lightOn e (V.lights st.emap))
    else some []) with
  | none => none
  | some calls =>
    some (calls ++ (if e.EventType = JOB_DONE then lightsOff e (V.lights st.emap) else []))

/-- One iteration of the loop of `handleMessages`, for the message `m` taken from
the channel. -/
def handleMessage (I : Imports) (V : Visits) (st : State) (m : Message) :
    Option (State × List Action) :=
  match m.Msg with
  | [] => none
  | b :: body =>
    let msgType := atoiByte b
    if msgType = I.HANDSHAKE then
      some (st, [])
    else if msgType = I.EVENT then
      match handleEvent V st (I.DecodeEvent body) with
      | none => none
      | some acts => some (st, acts)
    else if msgType = I.ELEV_INFO then
      let estruct := { I.DecodeElevatorStruct body with Conn := some m.Sender }
      let addr := m.Sender.ip
      let emap := mapAssign st.emap addr estruct
      some ({ st with emap := emap }, sendBackups emap (V.backups emap))
    else if msgType = I.BACKUP then
      if !st.receivedBackup then
        some ({ st with backup := I.DecodeElevatorMap body, receivedBackup := true }, [])
      else
        some (st, [])
    else
      some (st, [])

/-- The loop of `handleMessages` over the messages that arrive on the channel, in
order; a panic ends the process. -/
def handleMessages (I : Imports) (V : Visits) : State → List Message → Option (State × List Action)
  | st, [] => some (st, [])
  | st, m :: rest =>
    match handleMessage I V st m with
    | none => none
    | some (st', acts) =>
      match handleMessages I V st' rest with
      | none => none
      | some (st'', later) => some (st'', acts ++ later)

/-! ## The two connection transitions of `main` -/

/-- The `case newConn := <-newconnChan` of the loop of `main`. -/
def newConnection (I : Imports) (V : Visits) (st : State) (newConn : TCPConn) :
    Option (State × List Action) :=
  let addr := newConn.ip
  let emap := mapAssign st.emap addr ⟨Runs.zero, Runs.zero, 0, 0, some newConn⟩
  match sendLights I V.lights emap (some newConn) with
  | none => none
  | some lights =>
    let sent := Action.send (some newConn) (Value.int (emap.length : Int)) :: lights
    if st.DistributeBU then
      match DistributeJobs I V.dispatch emap st.BUelev with
      | none => none
      | some jobs => some ({ st with emap := emap, DistributeBU := false }, sent ++ jobs)
    else
      some ({ st with emap := emap }, sent)

/-- The `case lostConn := <-lostConnChan` of the loop of `main`. -/
def lostConnection (I : Imports) (V : Visits) (st : State) (lostConn : TCPConn) :
    Option (State × List Action) :=
  let addr := lostConn.ip
  let elev := mapIndex st.emap addr
  let emap := mapDelete st.emap addr
  if emap.length = 0 then
    some ({ st with emap := emap, DistributeBU := true, BUelev := elev }, [])
  else
    match DistributeJobs I V.dispatch emap elev with
    | none => none
    | some jobs => some ({ st with emap := emap }, jobs ++ RemakeQueue V.queue emap)

/-! ## The words of the specification -/

/-- A hall call: an event of type `BUTTON_CALL_UP` or `BUTTON_CALL_DOWN`. -/
def IsHallCall (e : Event) : Prop :=
  e.EventType = BUTTON_CALL_UP ∨ e.EventType = BUTTON_CALL_DOWN

instance (e : Event) : Decidable (IsHallCall e) :=
  inferInstanceAs (Decidable (e.EventType = BUTTON_CALL_UP ∨ e.EventType = BUTTON_CALL_DOWN))

/-- The direction a hall call asks for: `+1` for an up call, `-1` otherwise. -/
def wantedDir (e : Event) : Int :=
  if e.EventType = BUTTON_CALL_UP then 1 else -1

/-- The event is a hall call and `dir` is the value the dispatcher gives its local
`dir` for it. -/
def Asks (e : Event) (dir : Int) : Prop :=
  (e.EventType = BUTTON_CALL_UP ∧ dir = UP) ∨ (e.EventType = BUTTON_CALL_DOWN ∧ dir = DOWN)

/-- A floor in `[0, N_FLOORS - 1]`. -/
def FloorInRange (f : Int) : Prop := 0 ≤ f ∧ f < (N_FLOORS : Int)

instance (f : Int) : Decidable (FloorInRange f) :=
  inferInstanceAs (Decidable (0 ≤ f ∧ f < (N_FLOORS : Int)))

/-- The run vector has a pending run (an entry `> 0`) at floor `f`. -/
def Pending (r : Runs) (f : Int) : Prop := 0 < (r.get? f).getD 0

instance (r : Runs) (f : Int) : Decidable (Pending r f) :=
  inferInstanceAs (Decidable (0 < (r.get? f).getD 0))

/-- The elevator has a pending run at the target floor in the requested direction. -/
def AlreadyAssigned (e : Event) (x : ElevatorStruct) : Prop :=
  (e.EventType = BUTTON_CALL_UP ∧ Pending x.Uprun e.Floor)
    ∨ (e.EventType = BUTTON_CALL_DOWN ∧ Pending x.Downrun e.Floor)

instance (e : Event) (x : ElevatorStruct) : Decidable (AlreadyAssigned e x) :=
  inferInstanceAs (Decidable ((e.EventType = BUTTON_CALL_UP ∧ Pending x.Uprun e.Floor)
    ∨ (e.EventType = BUTTON_CALL_DOWN ∧ Pending x.Downrun e.Floor)))

/-- The elevator is idle, or is moving in the requested direction and has not
yet passed the target. -/
def IdleOrApproaching (e : Event) (x : ElevatorStruct) : Prop :=
  x.Dir = STOP ∨ (x.Dir = wantedDir e
    ∧ ((wantedDir e = 1 ∧ x.Current_floor < e.Floor) ∨ (wantedDir e = -1 ∧ e.Floor < x.Current_floor)))

instance (e : Event) (x : ElevatorStruct) : Decidable (IdleOrApproaching e x) :=
  inferInstanceAs (Decidable (x.Dir = STOP ∨ (x.Dir = wantedDir e
    ∧ ((wantedDir e = 1 ∧ x.Current_floor < e.Floor) ∨ (wantedDir e = -1 ∧ e.Floor < x.Current_floor)))))

/-- The floor `m` is the highest floor having `Uprun > 0`. -/
def IsHighestUp (x : ElevatorStruct) (m : Int) : Prop :=
  Pending x.Uprun m ∧ ∀ j, Pending x.Uprun j → j ≤ m

/-- The floor `m` is the lowest floor having `Downrun > 0`. -/
def IsLowestDown (x : ElevatorStruct) (m : Int) : Prop :=
  Pending x.Downrun m ∧ ∀ j, Pending x.Downrun j → m ≤ j

/-- The cost of an elevator for a hall call, in the words of the specification:
`|current_floor - target|` for an elevator that is idle or approaching, and
`|m - current_floor| + |m - target|` otherwise, `m` being the turn-around floor. -/
def IsCost (e : Event) (x : ElevatorStruct) (c : Int) : Prop :=
  (IdleOrApproaching e x ∧ c = |x.Current_floor - e.Floor|)
    ∨ (¬ IdleOrApproaching e x ∧ ∃ m,
        ((x.Dir = UP ∧ IsHighestUp x m) ∨ (x.Dir = DOWN ∧ IsLowestDown x m))
          ∧ c = |m - x.Current_floor| + |m - e.Floor|)

/-- The elevator has a pending run in its own direction of travel. -/
def HasRunAhead (x : ElevatorStruct) : Prop :=
  (x.Dir = UP ∧ ∃ j, Pending x.Uprun j) ∨ (x.Dir = DOWN ∧ ∃ j, Pending x.Downrun j)

/-- The preconditions of the minimum-cost claim on one elevator of the fleet. -/
def WellFormed (e : Event) (x : ElevatorStruct) : Prop :=
  FloorInRange x.Current_floor ∧ (x.Dir = UP ∨ x.Dir = DOWN ∨ x.Dir = STOP)
    ∧ ¬ AlreadyAssigned e x ∧ (¬ IdleOrApproaching e x → HasRunAhead x)

/-! ## What one pass of the dispatcher's loop computes -/

/-- The guard of the early `return nil` in the loop body. -/
def Suppressed (dir EventFloor : Int) (x : ElevatorStruct) : Prop :=
  (0 < (x.Uprun.get? EventFloor).getD 0 ∧ dir = UP)
    ∨ (0 < (x.Downrun.get? EventFloor).getD 0 ∧ dir = DOWN)

instance (dir EventFloor : Int) (x : ElevatorStruct) : Decidable (Suppressed dir EventFloor x) :=
  inferInstanceAs (Decidable ((0 < (x.Uprun.get? EventFloor).getD 0 ∧ dir = UP)
    ∨ (0 < (x.Downrun.get? EventFloor).getD 0 ∧ dir = DOWN)))

/-- The guard of the first branch of the loop body. -/
def Toward (dir EventFloor : Int) (x : ElevatorStruct) : Prop :=
  (dir = x.Dir ∧ dir * x.Current_floor < dir * EventFloor) ∨ x.Dir = STOP

instance (dir EventFloor : Int) (x : ElevatorStruct) : Decidable (Toward dir EventFloor x) :=
  inferInstanceAs (Decidable ((dir = x.Dir ∧ dir * x.Current_floor < dir * EventFloor) ∨ x.Dir = STOP))

/-- The value of `maxFloor` after the scans of the second branch. -/
def turnFloor (x : ElevatorStruct) (maxFloor : Int) : Int :=
  if x.Dir = UP then (scanUp x.Uprun maxFloor N_FLOORS).getD maxFloor
  else if x.Dir = DOWN then (scanDown x.Downrun maxFloor N_FLOORS 0).getD maxFloor
  else maxFloor

/-- The value of `tempDist` the loop body computes for `x` when it is entered with `maxFloor`. -/
def costAt (dir EventFloor : Int) (x : ElevatorStruct) (maxFloor : Int) : Int :=
  if Toward dir EventFloor x then
    ((x.Current_floor - EventFloor).natAbs : Int)
  else
    ((turnFloor x maxFloor - x.Current_floor).natAbs : Int)
      + ((turnFloor x maxFloor - EventFloor).natAbs : Int)

/-- The value of `maxFloor` the loop body leaves for `x` when it is entered with `maxFloor`. -/
def floorAt (dir EventFloor : Int) (x : ElevatorStruct) (maxFloor : Int) : Int :=
  if Toward dir EventFloor x then maxFloor else turnFloor x maxFloor

/-- The elevators of a visit, each with the cost the loop computes for it. -/
def costed (dir EventFloor : Int) : Int → List ElevatorStruct → List (ElevatorStruct × Int)
  | _, [] => []
  | maxFloor, x :: rest =>
    (x, costAt dir EventFloor x maxFloor) :: costed dir EventFloor (floorAt dir EventFloor x maxFloor) rest

/-- What the locals `bestDist` and `bestElev` hold after the loop went from the
state `s` through elevators with the computed costs `cs`: either no elevator
replaced the entry state, or they hold the cost and connection of a champion. -/
def Champion (s : Best) (cs : List (ElevatorStruct × Int)) (s' : Best) : Prop :=
  (s'.bestDist = s.bestDist ∧ s'.bestElev = s.bestElev
      ∧ ∀ q ∈ cs, s.bestDist ≤ q.2 ∧ (q.1.Dir = STOP → s.bestDist < q.2))
    ∨ (∃ p ∈ cs, s'.bestElev = p.1.Conn ∧ s'.bestDist = p.2 ∧ p.2 ≤ s.bestDist
        ∧ (∀ q ∈ cs, p.2 ≤ q.2)
        ∧ (p.1.Dir ≠ STOP → p.2 < s.bestDist ∧ ∀ q ∈ cs, q.1.Dir = STOP → p.2 < q.2))

/-! ## Reading a list of actions -/

/-- The events the dispatcher was called with, in order. -/
def dispatched : List Action → List Event
  | [] => []
  | Action.dispatch e _ :: rest => e :: dispatched rest
  | Action.send _ _ :: rest => dispatched rest

/-- The queue numbers sent, in order, each with the connection it went to. -/
def intsSent : List Action → List (Option TCPConn × Int)
  | [] => []
  | Action.send conn (Value.int n) :: rest => (conn, n) :: intsSent rest
  | _ :: rest => intsSent rest

/-- The synthetic events `DistributeJobs` builds for a snapshot, floor by floor;
the last two arguments are the number of floors left and the floor `i`. -/
def jobsFrom (I : Imports) (elev : ElevatorStruct) : Nat → Nat → List Event
  | 0, _ => []
  | k + 1, i =>
    (if elev.Uprun.get? (i : Int) = some I.CALL then [⟨BUTTON_CALL_UP, (i : Int)⟩] else [])
      ++ (if elev.Downrun.get? (i : Int) = some I.CALL then [⟨BUTTON_CALL_DOWN, (i : Int)⟩] else [])
      ++ jobsFrom I elev k (i + 1)

/-- The actions of dispatching the given jobs one after the other. -/
def redispatched (visit : Event → ElevatorMap → ElevatorMap) (emap : ElevatorMap) :
    List Event → List Action
  | [] => []
  | job :: rest =>
    Action.dispatch job (visit job emap)
      :: Action.send ((findMostSuitable job (visit job emap)).getD none) (Value.event job)
      :: redispatched visit emap rest

/-- One possible choice of the imported names: `CALL = 1`, the tags 0 to 3 and
decoders that read the floor or the keys off the payload bytes. -/
def Imports.sample : Imports :=
  { CALL := 1, HANDSHAKE := 0, EVENT := 1, ELEV_INFO := 2, BACKUP := 3,
    DecodeEvent := fun body =>
      ⟨if body.head? = some 0 then BUTTON_CALL_UP else BUTTON_CALL_DOWN, ((body.getD 1 0 : Nat) : Int)⟩,
    DecodeElevatorStruct := fun body =>
      ⟨Runs.zero, Runs.zero, ((body.getD 0 0 : Nat) : Int), 0, none⟩,
    DecodeElevatorMap := fun body => body.map (fun b => (b, ElevatorStruct.zero)) }

/-- The four message tags are pairwise different, as the `case` constants of one
`switch` must be. -/
def Imports.TagsDistinct (I : Imports) : Prop :=
  I.HANDSHAKE ≠ I.EVENT ∧ I.HANDSHAKE ≠ I.ELEV_INFO ∧ I.HANDSHAKE ≠ I.BACKUP
    ∧ I.EVENT ≠ I.ELEV_INFO ∧ I.EVENT ≠ I.BACKUP ∧ I.ELEV_INFO ≠ I.BACKUP

/-- The message goes to the `case BACKUP` of `handleMessages`: its payload is not
empty and its first byte reads as the tag `BACKUP`. -/
def isBackup (I : Imports) (m : Message) : Bool :=
  match m.Msg with
  | [] => false
  | b :: _ => decide (atoiByte b = I.BACKUP)

instance (I : Imports) : Decidable I.TagsDistinct :=
  inferInstanceAs (Decidable (I.HANDSHAKE ≠ I.EVENT ∧ I.HANDSHAKE ≠ I.ELEV_INFO
    ∧ I.HANDSHAKE ≠ I.BACKUP ∧ I.EVENT ≠ I.ELEV_INFO ∧ I.EVENT ≠ I.BACKUP
    ∧ I.ELEV_INFO ≠ I.BACKUP))

/-- The light messages `sendLights` sends for one elevator, floor by floor; the
last two arguments are the number of floors left and the floor `i`. -/
def lampsFrom (I : Imports) (newConn : Option TCPConn) (elev : ElevatorStruct) : Nat → Nat → List Action
  | 0, _ => []
  | k + 1, i =>
    (if elev.Uprun.get? (i : Int) = some I.CALL then
        [Action.send newConn (Value.event ⟨TURN_ON_UP_LIGHT, (i : Int)⟩)] else [])
      ++ (if elev.Downrun.get? (i : Int) = some I.CALL then
        [Action.send newConn (Value.event ⟨TURN_ON_DOWN_LIGHT, (i : Int)⟩)] else [])
      ++ lampsFrom I newConn elev k (i + 1)

/-- The light messages `sendLights` sends for the elevators of a visit. -/
def lampsOver (I : Imports) (newConn : Option TCPConn) : ElevatorMap → List Action
  | [] => []
  | (_, elev) :: rest => lampsFrom I newConn elev N_FLOORS 0 ++ lampsOver I newConn rest

/-- A handshake, a first backup, a snapshot of the peer 2 and a second backup. -/
def msgsDemo : List Message :=
  [⟨⟨1, 1⟩, [48]⟩, ⟨⟨1, 1⟩, [51, 7, 8]⟩, ⟨⟨2, 2⟩, [50, 2]⟩, ⟨⟨2, 2⟩, [51, 9]⟩]

/-- The state `handleMessages` reaches from the initial state through `msgsDemo`. -/
def stateAfterDemo : State :=
  ⟨[(2, ⟨Runs.zero, Runs.zero, 2, 0, some ⟨2, 2⟩⟩)],
    [(7, ElevatorStruct.zero), (8, ElevatorStruct.zero)], true, false, ElevatorStruct.zero⟩

/-- A registry in which two elevators hold an up call at floor 1. -/
def stateTwoCalls : State :=
  { State.init with
    emap := [(1, ⟨⟨[0, 1, 0, 0], rfl⟩, Runs.zero, 1, STOP, some ⟨1, 1⟩⟩),
             (2, ⟨⟨[0, 1, 0, 0], rfl⟩, Runs.zero, 3, STOP, some ⟨2, 2⟩⟩)] }

/-- Scenario S4: A idle at floor 1, B idle at floor 3 with an up call at floor 2. -/
def stateS4 : State :=
  { State.init with
    emap := [(1, ⟨Runs.zero, Runs.zero, 1, STOP, some ⟨1, 1⟩⟩),
             (2, ⟨⟨[0, 0, 1, 0], rfl⟩, Runs.zero, 3, STOP, some ⟨2, 2⟩⟩)] }

/-- Scenario S6: a fleet of one peer with an up call at floor 0. -/
def stateS6 : State :=
  { State.init with emap := [(1, ⟨⟨[1, 0, 0, 0], rfl⟩, Runs.zero, 0, STOP, some ⟨1, 1⟩⟩)] }

/-- The calls `SendMessage(conn, v)` among the actions, in order. -/
def sendsOf : List Action → List (Option TCPConn × Value)
  | [] => []
  | Action.send conn v :: rest => (conn, v) :: sendsOf rest
  | Action.dispatch _ _ :: rest => sendsOf rest

/-- The light-on event of a hall call: `TURN_ON_UP_LIGHT` at its floor for an up
call, `TURN_ON_DOWN_LIGHT` at its floor for a down call. -/
def lightFor (e : Event) : Event :=
  ⟨if e.EventType = BUTTON_CALL_UP then TURN_ON_UP_LIGHT else TURN_ON_DOWN_LIGHT, e.Floor⟩

/-- The actions of the `case EVENT` for a hall call `e`, given what the dispatcher
returned for it. -/
def hallCallActs (V : Visits) (st : State) (e : Event) : Option TCPConn → List Action
  | none => [Action.dispatch e (V.dispatch e st.emap)]
  | some c =>
    Action.dispatch e (V.dispatch e st.emap)
      :: Action.send (some c) (Value.event e) :: lightOn e (V.lights st.emap)

/-- The orders among the actions: the hall-call events sent, in order, each with
the connection it went to. -/
def ordersSent : List Action → List (Option TCPConn × Event)
  | [] => []
  | Action.send conn (Value.event e) :: rest =>
    if IsHallCall e then (conn, e) :: ordersSent rest else ordersSent rest
  | _ :: rest => ordersSent rest

/-- The synthetic events `checkForBackup` has the dispatcher called with, each
with the key of the backup entry it stems from, in the order of the visit of
`backup`: the jobs of every entry whose key is not in the live registry. -/
def orphanJobs (I : Imports) (emap : ElevatorMap) : ElevatorMap → List (Nat × Event)
  | [] => []
  | (addr, elev) :: rest =>
    (if (mapFind emap addr).isSome then []
      else (jobsFrom I elev N_FLOORS 0).map (fun job => (addr, job)))
      ++ orphanJobs I emap rest

/-- The actions of `checkForBackup` over the entries of the backup in the order
of the visit. -/
def reconciled (I : Imports) (V : Visits) (emap : ElevatorMap) : ElevatorMap → List Action
  | [] => []
  | (addr, elev) :: rest =>
    (if (mapFind emap addr).isSome then []
      else redispatched (V.orphan addr) emap (jobsFrom I elev N_FLOORS 0))
      ++ reconciled I V emap rest

/-- A master with the peers 1 and 2 connected that received a backup naming the
peers 1 and 7, the peer 7 with a down call at floor 1. -/
def stateS5 : State :=
  { State.init with
    emap := [(1, ⟨Runs.zero, Runs.zero, 0, STOP, some ⟨1, 1⟩⟩),
             (2, ⟨Runs.zero, Runs.zero, 3, STOP, some ⟨2, 2⟩⟩)]
    backup := [(1, ⟨⟨[0, 1, 0, 0], rfl⟩, Runs.zero, 0, STOP, none⟩),
               (7, ⟨Runs.zero, ⟨[0, 1, 0, 0], rfl⟩, 2, STOP, none⟩)]
    receivedBackup := true }

/-- What the transport delivers to the master: a new connection, a lost
connection or an inbound message. -/
inductive Input where
  | newConn (c : TCPConn)
  | lostConn (c : TCPConn)
  | message (m : Message)

/-- The variables of the master together with the sessions that are open: those
reported as new and not yet reported as lost. -/
structure System where
  st : State
  sessions : List TCPConn

/-- One transition of the master: the `case` of `main` for a connection event, or
one iteration of `handleMessages` for a message. -/
def step (I : Imports) (V : Visits) (sys : System) : Input → Option System
  | Input.newConn c =>
    match newConnection I V sys.st c with
    | none => none
    | some r => some ⟨r.1, c :: sys.sessions⟩
  | Input.lostConn c =>
    match lostConnection I V sys.st c with
    | none => none
    | some r => some ⟨r.1, sys.sessions.filter (fun x => decide (x ≠ c))⟩
  | Input.message m =>
    match handleMessage I V sys.st m with
    | none => none
    | some r => some ⟨r.1, sys.sessions⟩

/-- The transitions for a sequence of inputs, each with the orders of its visits;
a panic ends the process. -/
def run (I : Imports) : System → List (Visits × Input) → Option System
  | sys, [] => some sys
  | sys, (V, i) :: rest =>
    match step I V sys i with
    | none => none
    | some sys' => run I sys' rest

/-- The message goes to the `case ELEV_INFO` at the earliest: its payload is not
empty and its first byte reads as the tag `ELEV_INFO`. -/
def isElevInfo (I : Imports) (m : Message) : Bool :=
  match m.Msg with
  | [] => false
  | b :: _ => decide (atoiByte b = I.ELEV_INFO)

/-- Every `ELEV_INFO` message of the sequence comes from a session that is open
when the message is handled, the first argument listing the sessions open at
the start. -/
def Admissible (I : Imports) : List TCPConn → List (Visits × Input) → Prop
  | _, [] => True
  | sessions, (_, Input.newConn c) :: rest => Admissible I (c :: sessions) rest
  | sessions, (_, Input.lostConn c) :: rest =>
    Admissible I (sessions.filter (fun x => decide (x ≠ c))) rest
  | sessions, (_, Input.message m) :: rest =>
    (isElevInfo I m = true → m.Sender ∈ sessions) ∧ Admissible I sessions rest

/-- The registry has at most one entry per IP, and the `Conn` of every entry is
an open session whose remote IP is the key of the entry. -/
def Tracks (emap : ElevatorMap) (sessions : List TCPConn) : Prop :=
  (emap.map Prod.fst).Nodup
    ∧ ∀ p ∈ emap, ∃ c, p.2.Conn = some c ∧ c ∈ sessions ∧ c.ip = p.1

/-- Two sessions from the IP 1 connect, the first sends a snapshot and is lost,
then the second sends a snapshot. -/
def inputsDemo : List (Visits × Input) :=
  [(Visits.stable, Input.newConn ⟨1, 1⟩), (Visits.stable, Input.newConn ⟨2, 1⟩),
   (Visits.stable, Input.message ⟨⟨1, 1⟩, [50, 2]⟩), (Visits.stable, Input.lostConn ⟨1, 1⟩),
   (Visits.stable, Input.message ⟨⟨2, 1⟩, [50, 3]⟩)]

/-- What a piece of code does with the guard and the registry: `<-emapGuard`,
`emapGuard <- true`, and a statement or call that reads or writes `emap`. -/
inductive GuardOp where
  | take
  | give
  | touch
deriving DecidableEq, Repr

/-- Every read or write of `emap` in the sequence comes after a `take` with no
`give` in between; the first argument tells whether the guard is held at the start. -/
def guarded : Bool → List GuardOp → Bool
  | _, [] => true
  | _, GuardOp.take :: rest => guarded true rest
  | _, GuardOp.give :: rest => guarded false rest
  | held, GuardOp.touch :: rest => held && guarded held rest

/-- The reads of `emap` by `DistributeJobs(elev)`: one call `findMostSuitable(job, emap)`
for each job of the snapshot. -/
def guardOpsDistribute (I : Imports) (elev : ElevatorStruct) : List GuardOp :=
  (jobsFrom I elev N_FLOORS 0).map (fun _ => GuardOp.touch)

/-- The `case EVENT` of `handleMessages`: the call `findMostSuitable(e, emap)` and,
on an assignment, the loop over `emap` for the lights; the loop over `emap` after
`JOB_DONE`.  The case neither takes nor gives the guard. -/
def guardOpsEvent (V : Visits) (st : State) (e : Event) : List GuardOp :=
  (if e.EventType = BUTTON_CALL_UP ∨ e.EventType = BUTTON_CALL_DOWN then
      GuardOp.touch ::
        (match findMostSuitable e (V.dispatch e st.emap) with
          | some (some _) => [GuardOp.touch]
          | _ => [])
    else [])
    ++ (if e.EventType = JOB_DONE then [GuardOp.touch] else [])

/-- One iteration of the loop of `handleMessages`: nothing for `HANDSHAKE` and
`BACKUP`; for `ELEV_INFO` the guard is taken, `emap[addr]` is written and read,
`emap` is ranged over and sent, and the guard is given back. -/
def guardOpsMessage (I : Imports) (V : Visits) (st : State) (m : Message) : List GuardOp :=
  match m.Msg with
  | [] => []
  | b :: body =>
    let msgType := atoiByte b
    if msgType = I.HANDSHAKE then []
    else if msgType = I.EVENT then guardOpsEvent V st (I.DecodeEvent body)
    else if msgType = I.ELEV_INFO then
      [GuardOp.take, GuardOp.touch, GuardOp.touch, GuardOp.touch, GuardOp.give]
    else []

/-- The loop of `checkForBackup` over `backup`: the lookup `emap[addr]` and, for a
missing key, `DistributeJobs(elev)`. -/
def guardOpsReconcile (I : Imports) (emap : ElevatorMap) : ElevatorMap → List GuardOp
  | [] => []
  | (addr, elev) :: rest =>
    GuardOp.touch
      :: (if (mapFind emap addr).isSome then [] else guardOpsDistribute I elev)
      ++ guardOpsReconcile I emap rest

/-- The function `checkForBackup`: with a backup received, the guard is taken
around the loop. -/
def guardOpsCheckForBackup (I : Imports) (V : Visits) (st : State) : List GuardOp :=
  if st.receivedBackup then
    GuardOp.take :: guardOpsReconcile I st.emap (V.stored st.backup) ++ [GuardOp.give]
  else []

/-- The `case newConn` of `main`: between taking and giving the guard, the store
`emap[addr] = ..`, `len(emap)` twice, `sendLights` and, under `DistributeBU`,
`DistributeJobs(BUelev)`. -/
def guardOpsNewConnection (I : Imports) (st : State) : List GuardOp :=
  [GuardOp.take, GuardOp.touch, GuardOp.touch, GuardOp.touch, GuardOp.touch]
    ++ (if st.DistributeBU then guardOpsDistribute I st.BUelev else [])
    ++ [GuardOp.give]

/-- The `case lostConn` of `main`: between taking and giving the guard, the read
`emap[addr]`, the `delete`, `len(emap)` twice and, with peers left,
`DistributeJobs(elev)` and `RemakeQueue()`. -/
def guardOpsLostConnection (I : Imports) (st : State) (lostConn : TCPConn) : List GuardOp :=
  [GuardOp.take, GuardOp.touch, GuardOp.touch, GuardOp.touch, GuardOp.touch]
    ++ (if (mapDelete st.emap lostConn.ip).length = 0 then []
        else guardOpsDistribute I (mapIndex st.emap lostConn.ip) ++ [GuardOp.touch])
    ++ [GuardOp.give]

/-- A registry in which A, at floor 0 going up, and B, idle at floor 3, both hold
an up call at floor 2. -/
def stateHeading : State :=
  { State.init with
    emap := [(1, ⟨⟨[0, 0, 1, 0], rfl⟩, Runs.zero, 0, UP, some ⟨1, 1⟩⟩),
             (2, ⟨⟨[0, 0, 1, 0], rfl⟩, Runs.zero, 3, STOP, some ⟨2, 2⟩⟩)] }

/-- A master that received a backup naming the peer 7 with an up call at floor 0
and to which nobody has connected. -/
def stateAlone : State :=
  { State.init with
    backup := [(7, ⟨⟨[1, 0, 0, 0], rfl⟩, Runs.zero, 0, STOP, none⟩)]
    receivedBackup := true }

/-! ## Fleets and calls of the scenarios -/

/-- Scenario S2: elevator A at floor 0 going up with a pending up run at floor 2,
elevator B idle at floor 3. -/
def fleetS2 : ElevatorMap :=
  [(1, ⟨⟨[0, 0, 1, 0], rfl⟩, Runs.zero, 0, UP, some ⟨1, 1⟩⟩),
   (2, ⟨Runs.zero, Runs.zero, 3, STOP, some ⟨2, 2⟩⟩)]

/-- Scenario S3 with a second, idle elevator: A at floor 2 going down with a
pending down run at floor 0, B idle at floor 0. -/
def fleetS3 : ElevatorMap :=
  [(1, ⟨Runs.zero, ⟨[1, 0, 0, 0], rfl⟩, 2, DOWN, some ⟨1, 1⟩⟩),
   (2, ⟨Runs.zero, Runs.zero, 0, STOP, some ⟨2, 2⟩⟩)]

/-- A fleet with a moving elevator nearer to floor 2 than the idle one: A at
floor 1 going up, B idle at floor 0. -/
def fleetNear : ElevatorMap :=
  [(1, ⟨Runs.zero, Runs.zero, 1, UP, some ⟨1, 1⟩⟩),
   (2, ⟨Runs.zero, Runs.zero, 0, STOP, some ⟨2, 2⟩⟩)]

/-- A fleet whose elevator A, at floor 3, reports the direction DOWN without any
pending down run; B is idle at floor 0. -/
def fleetAdrift : ElevatorMap :=
  [(1, ⟨Runs.zero, Runs.zero, 3, DOWN, some ⟨1, 1⟩⟩),
   (2, ⟨Runs.zero, Runs.zero, 0, STOP, some ⟨2, 2⟩⟩)]

/-- The elevator A of `fleetAdrift` next to an elevator C at floor 2 going up
with a pending up run at floor 3. -/
def fleetStale : ElevatorMap :=
  [(3, ⟨⟨[0, 0, 0, 1], rfl⟩, Runs.zero, 2, UP, some ⟨3, 3⟩⟩),
   (1, ⟨Runs.zero, Runs.zero, 3, DOWN, some ⟨1, 1⟩⟩)]

/-- The claim that the dispatcher always returns an idle elevator at minimal
distance among the idle ones, for one call and one fleet. -/
def ReturnsNearestIdle (e : Event) (fleet : ElevatorMap) : Prop :=
  ∃ p ∈ fleet, findMostSuitable e fleet = some p.2.Conn ∧ p.2.Dir = STOP
    ∧ ∀ q ∈ fleet, q.2.Dir = STOP →
        |p.2.Current_floor - e.Floor| ≤ |q.2.Current_floor - e.Floor|

/-! ## Indexing and the scans -/

theorem Runs.get?_inRange (a : Runs) {i : Int} (h0 : 0 ≤ i) (h1 : i < 4) :
    ∃ v, a.get? i = some v := by
  unfold Runs.get?
  rw [if_pos h0]
  have h : i.toNat < a.cells.length := by rw [a.size_eq]; omega
  exact ⟨a.cells[i.toNat], List.getElem?_eq_getElem h⟩

theorem Runs.get?_outside (a : Runs) {i : Int} (h : i < 0 ∨ 4 ≤ i) : a.get? i = none := by
  unfold Runs.get?
  rcases h with h | h
  · rw [if_neg (by omega)]
  · split
    · exact List.getElem?_eq_none (by rw [a.size_eq]; omega)
    · rfl

theorem Pending.inRange {r : Runs} {f : Int} (h : Pending r f) : 0 ≤ f ∧ f < 4 := by
  by_contra hc
  have : r.get? f = none := r.get?_outside (by omega)
  simp [Pending, this] at h

theorem scanUp_total (r : Runs) (mf : Int) : ∀ j, j ≤ 4 → ∃ m, scanUp r mf j = some m
  | 0, _ => ⟨mf, rfl⟩
  | j + 1, h => by
    obtain ⟨v, hv⟩ := r.get?_inRange (i := (j : Int)) (by omega) (by omega)
    simp only [scanUp, hv]
    split
    · exact ⟨_, rfl⟩
    · exact scanUp_total r mf j (by omega)

theorem scanDown_total (r : Runs) (mf : Int) : ∀ k j, j + k ≤ 4 → ∃ m, scanDown r mf k j = some m
  | 0, _, _ => ⟨mf, rfl⟩
  | k + 1, j, h => by
    obtain ⟨v, hv⟩ := r.get?_inRange (i := (j : Int)) (by omega) (by omega)
    simp only [scanDown, hv]
    split
    · exact ⟨_, rfl⟩
    · exact scanDown_total r mf k (j + 1) (by omega)

/-- The loop body, when the target floor is in range: the early return under
its guard, and otherwise the update of the three locals. -/
theorem examine_eq (dir ef : Int) (s : Best) (x : ElevatorStruct) (h0 : 0 ≤ ef) (h1 : ef < 4) :
    examine dir ef s x =
      if Suppressed dir ef x then Flow.returnNil
      else if costAt dir ef x s.maxFloor < s.bestDist
          ∨ (costAt dir ef x s.maxFloor = s.bestDist ∧ x.Dir = STOP) then
        Flow.next ⟨costAt dir ef x s.maxFloor, x.Conn, floorAt dir ef x s.maxFloor⟩
      else Flow.next ⟨s.bestDist, s.bestElev, floorAt dir ef x s.maxFloor⟩ := by
  obtain ⟨u, hu⟩ := x.Uprun.get?_inRange h0 h1
  obtain ⟨d, hd⟩ := x.Downrun.get?_inRange h0 h1
  obtain ⟨mu, hmu⟩ := scanUp_total x.Uprun s.maxFloor N_FLOORS (by decide)
  obtain ⟨md, hmd⟩ := scanDown_total x.Downrun s.maxFloor N_FLOORS 0 (by decide)
  unfold examine Suppressed costAt floorAt turnFloor Toward
  simp only [hu, hd, hmu, hmd, Option.getD_some]
  by_cases hs : (u > 0 ∧ dir = UP) ∨ (d > 0 ∧ dir = DOWN)
  · rw [if_pos hs, if_pos hs]
  · rw [if_neg hs, if_neg hs]
    by_cases ht : (dir = x.Dir ∧ dir * x.Current_floor < dir * ef) ∨ x.Dir = STOP
    · simp only [if_pos ht]
    · simp only [if_neg ht]
      have hns : ¬ x.Dir = STOP := fun h => ht (Or.inr h)
      by_cases hU : x.Dir = UP
      · simp only [if_pos hU, hns, and_false, or_false]
      · by_cases hD : x.Dir = DOWN
        · simp only [if_neg hU, if_pos hD, hns, and_false, or_false]
        · simp only [if_neg hU, if_neg hD, hns, and_false, or_false]

/-! ## The loop of the dispatcher -/

theorem rangeLoop_suppressed (dir ef : Int) (h0 : 0 ≤ ef) (h1 : ef < 4) :
    ∀ (xs : List ElevatorStruct) (s : Best), (∃ x ∈ xs, Suppressed dir ef x) →
      rangeLoop dir ef s xs = Flow.returnNil
  | [], _, h => by simp at h
  | x :: rest, s, h => by
    simp only [rangeLoop, examine_eq dir ef s x h0 h1]
    by_cases hs : Suppressed dir ef x
    · simp only [if_pos hs]
    · have hr : ∃ y ∈ rest, Suppressed dir ef y := by
        obtain ⟨y, hy, hsy⟩ := h
        rcases List.mem_cons.1 hy with rfl | hy
        · exact absurd hsy hs
        · exact ⟨y, hy, hsy⟩
      simp only [if_neg hs]
      split_ifs
      · exact rangeLoop_suppressed dir ef h0 h1 rest _ hr
      · exact rangeLoop_suppressed dir ef h0 h1 rest _ hr

theorem rangeLoop_spec (dir ef : Int) (h0 : 0 ≤ ef) (h1 : ef < 4) :
    ∀ (xs : List ElevatorStruct) (s : Best), (∀ x ∈ xs, ¬ Suppressed dir ef x) →
      ∃ s', rangeLoop dir ef s xs = Flow.next s' ∧ Champion s (costed dir ef s.maxFloor xs) s'
  | [], s, _ => ⟨s, rfl, Or.inl ⟨rfl, rfl, by simp [costed]⟩⟩
  | x :: rest, s, h => by
    have hx : ¬ Suppressed dir ef x := h x (List.mem_cons_self _ _)
    have hrest : ∀ y ∈ rest, ¬ Suppressed dir ef y := fun y hy => h y (List.mem_cons_of_mem _ hy)
    simp only [rangeLoop, examine_eq dir ef s x h0 h1, if_neg hx, costed]
    generalize costAt dir ef x s.maxFloor = c
    generalize floorAt dir ef x s.maxFloor = mf
    by_cases hu : c < s.bestDist ∨ (c = s.bestDist ∧ x.Dir = STOP)
    · simp only [if_pos hu]
      obtain ⟨s', hs', hc⟩ := rangeLoop_spec dir ef h0 h1 rest ⟨c, x.Conn, mf⟩ hrest
      refine ⟨s', hs', ?_⟩
      have hcs : c ≤ s.bestDist := by rcases hu with hu | hu <;> omega
      rcases hc with ⟨hd, he, hall⟩ | ⟨p, hp, he, hd, hle, hmin, hidle⟩
      · refine Or.inr ⟨(x, c), List.mem_cons_self _ _, he, hd, hcs, ?_, ?_⟩
        · intro q hq
          rcases List.mem_cons.1 hq with rfl | hq
          · exact le_refl _
          · exact (hall q hq).1
        · intro hns
          refine ⟨?_, ?_⟩
          · rcases hu with hu | hu
            · exact hu
            · exact absurd hu.2 hns
          · intro q hq hqs
            rcases List.mem_cons.1 hq with rfl | hq
            · exact absurd hqs hns
            · exact (hall q hq).2 hqs
      · have hle' : p.2 ≤ c := hle
        refine Or.inr ⟨p, List.mem_cons_of_mem _ hp, he, hd, by omega, ?_, ?_⟩
        · intro q hq
          rcases List.mem_cons.1 hq with rfl | hq
          · exact hle'
          · exact hmin q hq
        · intro hns
          have hlt : p.2 < c := (hidle hns).1
          refine ⟨by omega, ?_⟩
          intro q hq hqs
          rcases List.mem_cons.1 hq with rfl | hq
          · exact hlt
          · exact (hidle hns).2 q hq hqs
    · simp only [if_neg hu]
      obtain ⟨s', hs', hc⟩ := rangeLoop_spec dir ef h0 h1 rest ⟨s.bestDist, s.bestElev, mf⟩ hrest
      refine ⟨s', hs', ?_⟩
      have hxc : s.bestDist ≤ c ∧ (x.Dir = STOP → s.bestDist < c) := by
        constructor
        · by_contra hlt
          exact hu (Or.inl (by omega))
        · intro hst
          by_contra hlt
          rcases lt_or_eq_of_le (not_lt.1 hlt) with h2 | h2
          · exact hu (Or.inl h2)
          · exact hu (Or.inr ⟨h2, hst⟩)
      rcases hc with ⟨hd, he, hall⟩ | ⟨p, hp, he, hd, hle, hmin, hidle⟩
      · refine Or.inl ⟨hd, he, ?_⟩
        intro q hq
        rcases List.mem_cons.1 hq with rfl | hq
        · exact hxc
        · exact hall q hq
      · have hle' : p.2 ≤ s.bestDist := hle
        refine Or.inr ⟨p, List.mem_cons_of_mem _ hp, he, hd, hle', ?_, ?_⟩
        · intro q hq
          rcases List.mem_cons.1 hq with rfl | hq
          · exact le_trans hle' hxc.1
          · exact hmin q hq
        · intro hns
          have hlt : p.2 < s.bestDist := (hidle hns).1
          refine ⟨hlt, ?_⟩
          intro q hq hqs
          rcases List.mem_cons.1 hq with rfl | hq
          · exact lt_of_lt_of_le hlt hxc.1
          · exact (hidle hns).2 q hq hqs

theorem costed_fst (dir ef : Int) :
    ∀ (xs : List ElevatorStruct) (mf : Int), (costed dir ef mf xs).map Prod.fst = xs
  | [], _ => rfl
  | x :: rest, mf => by simp only [costed, List.map_cons, costed_fst dir ef rest]

/-! ## The computed cost against the cost of the specification -/

theorem asks_of_isHallCall {e : Event} (h : IsHallCall e) : Asks e (wantedDir e) := by
  unfold Asks wantedDir
  rcases h with h | h
  · left; simp [h, UP]
  · right; simp [h, DOWN]

theorem findMostSuitable_eq {e : Event} {dir : Int} (h : Asks e dir) (fleet : ElevatorMap) :
    findMostSuitable e fleet =
      match rangeLoop dir e.Floor Best.init (fleet.map Prod.snd) with
      | Flow.next s => some s.bestElev
      | Flow.returnNil => some none
      | Flow.panicked => none := by
  rcases h with ⟨h, rfl⟩ | ⟨h, rfl⟩
  · simp [findMostSuitable, h]
  · simp [findMostSuitable, h]

theorem suppressed_iff {e : Event} {dir : Int} (h : Asks e dir) (x : ElevatorStruct) :
    Suppressed dir e.Floor x ↔ AlreadyAssigned e x := by
  unfold Suppressed AlreadyAssigned Pending
  rcases h with ⟨h, rfl⟩ | ⟨h, rfl⟩
  · simp [h, UP, DOWN]
  · simp [h, UP, DOWN]

theorem toward_iff {e : Event} {dir : Int} (h : Asks e dir) (x : ElevatorStruct) :
    Toward dir e.Floor x ↔ IdleOrApproaching e x := by
  unfold Toward IdleOrApproaching wantedDir STOP
  have e1 : (1 = x.Dir) ↔ (x.Dir = 1) := eq_comm
  have e2 : (-1 = x.Dir) ↔ (x.Dir = -1) := eq_comm
  have e3 : (-1 * x.Current_floor < -1 * e.Floor) ↔ (e.Floor < x.Current_floor) := by
    constructor <;> intro hh <;> omega
  have e4 : ¬ ((1 : Int) = -1) := by decide
  rcases h with ⟨h, rfl⟩ | ⟨h, rfl⟩
  · simp only [h, UP, if_true, e1, e4, one_mul, true_and, false_and, or_false]
    tauto
  · simp only [h, DOWN, if_false, reduceCtorEq, e2, e3, true_and, false_and, false_or]
    tauto

theorem scanUp_found (r : Runs) (mf : Int) :
    ∀ j : Nat, j ≤ 4 → (∃ i : Int, i < j ∧ Pending r i) →
      ∃ m : Int, scanUp r mf j = some m ∧ Pending r m ∧ ∀ i : Int, Pending r i → i < j → i ≤ m
  | 0, _, h => by
    obtain ⟨i, hi, hp⟩ := h
    have := hp.inRange
    omega
  | j + 1, hj, h => by
    obtain ⟨v, hv⟩ := r.get?_inRange (i := (j : Int)) (by omega) (by omega)
    simp only [scanUp, hv]
    by_cases hpos : v > 0
    · rw [if_pos hpos]
      refine ⟨j, rfl, ?_, ?_⟩
      · simp only [Pending, hv, Option.getD_some]; exact hpos
      · intro i _ hi
        push_cast at hi
        omega
    · rw [if_neg hpos]
      have hnp : ¬ Pending r (j : Int) := by
        simp only [Pending, hv, Option.getD_some]; exact hpos
      obtain ⟨i, hi, hp⟩ := h
      have hij : i ≠ (j : Int) := fun hc => hnp (hc ▸ hp)
      push_cast at hi
      obtain ⟨m, hm, hpm, hall⟩ := scanUp_found r mf j (by omega) ⟨i, by omega, hp⟩
      refine ⟨m, hm, hpm, ?_⟩
      intro i' hp' hi'
      have : i' ≠ (j : Int) := fun hc => hnp (hc ▸ hp')
      push_cast at hi'
      exact hall i' hp' (by omega)

theorem scanDown_found (r : Runs) (mf : Int) :
    ∀ k j : Nat, j + k = 4 → (∃ i : Int, (j : Int) ≤ i ∧ Pending r i) →
      ∃ m : Int, scanDown r mf k j = some m ∧ Pending r m ∧ ∀ i : Int, Pending r i → (j : Int) ≤ i → m ≤ i
  | 0, j, hj, h => by
    obtain ⟨i, hi, hp⟩ := h
    have := hp.inRange
    omega
  | k + 1, j, hj, h => by
    obtain ⟨v, hv⟩ := r.get?_inRange (i := (j : Int)) (by omega) (by omega)
    simp only [scanDown, hv]
    by_cases hpos : v > 0
    · rw [if_pos hpos]
      refine ⟨j, rfl, ?_, ?_⟩
      · simp only [Pending, hv, Option.getD_some]; exact hpos
      · intro i _ hi
        exact hi
    · rw [if_neg hpos]
      have hnp : ¬ Pending r (j : Int) := by
        simp only [Pending, hv, Option.getD_some]; exact hpos
      obtain ⟨i, hi, hp⟩ := h
      have hij : i ≠ (j : Int) := fun hc => hnp (hc ▸ hp)
      obtain ⟨m, hm, hpm, hall⟩ :=
        scanDown_found r mf k (j + 1) (by omega) ⟨i, by push_cast; omega, hp⟩
      refine ⟨m, hm, hpm, ?_⟩
      intro i' hp' hi'
      have : i' ≠ (j : Int) := fun hc => hnp (hc ▸ hp')
      exact hall i' hp' (by push_cast; omega)

theorem turnFloor_up {x : ElevatorStruct} (hU : x.Dir = UP) (h : ∃ j, Pending x.Uprun j) (mf : Int) :
    IsHighestUp x (turnFloor x mf) := by
  obtain ⟨j, hj⟩ := h
  obtain ⟨m, hm, hpm, hall⟩ :=
    scanUp_found x.Uprun mf 4 (le_refl _) ⟨j, by have := hj.inRange; omega, hj⟩
  have hm' : scanUp x.Uprun mf N_FLOORS = some m := hm
  simp only [turnFloor, if_pos hU, hm', Option.getD_some]
  exact ⟨hpm, fun i hi => hall i hi (by have := hi.inRange; omega)⟩

theorem turnFloor_down {x : ElevatorStruct} (hU : ¬ x.Dir = UP) (hD : x.Dir = DOWN)
    (h : ∃ j, Pending x.Downrun j) (mf : Int) : IsLowestDown x (turnFloor x mf) := by
  obtain ⟨j, hj⟩ := h
  obtain ⟨m, hm, hpm, hall⟩ :=
    scanDown_found x.Downrun mf 4 0 rfl ⟨j, by have := hj.inRange; omega, hj⟩
  have hm' : scanDown x.Downrun mf N_FLOORS 0 = some m := hm
  simp only [turnFloor, if_neg hU, if_pos hD, hm', Option.getD_some]
  exact ⟨hpm, fun i hi => hall i hi (by have := hi.inRange; omega)⟩

/-- The cost the loop computes for a well-formed elevator is its cost in the
words of the specification, whatever `maxFloor` held before. -/
theorem isCost_costAt {e : Event} {dir : Int} (h : Asks e dir) {x : ElevatorStruct}
    (hw : WellFormed e x) (mf : Int) : IsCost e x (costAt dir e.Floor x mf) := by
  obtain ⟨_, _, _, hrun⟩ := hw
  unfold costAt
  by_cases ht : Toward dir e.Floor x
  · rw [if_pos ht]
    exact Or.inl ⟨(toward_iff h x).1 ht, Int.natCast_natAbs _⟩
  · rw [if_neg ht]
    have hni : ¬ IdleOrApproaching e x := fun hc => ht ((toward_iff h x).2 hc)
    refine Or.inr ⟨hni, turnFloor x mf, ?_, by rw [Int.natCast_natAbs, Int.natCast_natAbs]⟩
    rcases hrun hni with ⟨hU, hp⟩ | ⟨hD, hp⟩
    · exact Or.inl ⟨hU, turnFloor_up hU hp mf⟩
    · have hnU : ¬ x.Dir = UP := by rw [hD]; decide
      exact Or.inr ⟨hD, turnFloor_down hnU hD hp mf⟩

theorem isCost_unique {e : Event} {x : ElevatorStruct} {c d : Int}
    (hc : IsCost e x c) (hd : IsCost e x d) : c = d := by
  rcases hc with ⟨h1, rfl⟩ | ⟨h1, m, hm, rfl⟩ <;> rcases hd with ⟨h2, rfl⟩ | ⟨h2, n, hn, rfl⟩
  · rfl
  · exact absurd h1 h2
  · exact absurd h2 h1
  · have hmn : m = n := by
      rcases hm with ⟨hU, hm1, hm2⟩ | ⟨hD, hm1, hm2⟩ <;> rcases hn with ⟨hU', hn1, hn2⟩ | ⟨hD', hn1, hn2⟩
      · exact le_antisymm (hn2 m hm1) (hm2 n hn1)
      · rw [hU] at hD'; exact absurd hD' (by decide)
      · rw [hD] at hU'; exact absurd hU' (by decide)
      · exact le_antisymm (hm2 n hn1) (hn2 m hm1)
    rw [hmn]

theorem isCost_le {e : Event} {x : ElevatorStruct} {c : Int} (hf : FloorInRange e.Floor)
    (hx : FloorInRange x.Current_floor) (hc : IsCost e x c) : c ≤ 6 := by
  unfold FloorInRange N_FLOORS at hf hx
  rcases hc with ⟨_, rfl⟩ | ⟨_, m, hm, rfl⟩
  · rcases abs_cases (x.Current_floor - e.Floor) with ⟨h, _⟩ | ⟨h, _⟩ <;> omega
  · have hr : 0 ≤ m ∧ m < 4 := by
      rcases hm with ⟨_, hp, _⟩ | ⟨_, hp, _⟩ <;> exact hp.inRange
    rcases abs_cases (m - x.Current_floor) with ⟨h, _⟩ | ⟨h, _⟩ <;>
      rcases abs_cases (m - e.Floor) with ⟨h', _⟩ | ⟨h', _⟩ <;> omega

theorem costed_mem {dir ef : Int} :
    ∀ {xs : List ElevatorStruct} {mf : Int} {p : ElevatorStruct × Int},
      p ∈ costed dir ef mf xs → p.1 ∈ xs ∧ ∃ mf', p.2 = costAt dir ef p.1 mf'
  | [], _, _, h => by simp [costed] at h
  | x :: rest, mf, p, h => by
    simp only [costed, List.mem_cons] at h
    rcases h with rfl | h
    · exact ⟨List.mem_cons_self _ _, mf, rfl⟩
    · obtain ⟨h1, h2⟩ := costed_mem h
      exact ⟨List.mem_cons_of_mem _ h1, h2⟩

theorem costed_of_mem (dir ef : Int) {xs : List ElevatorStruct} (mf : Int) {x : ElevatorStruct}
    (h : x ∈ xs) : ∃ k, (x, k) ∈ costed dir ef mf xs := by
  rw [← costed_fst dir ef xs mf] at h
  obtain ⟨p, hp, rfl⟩ := List.mem_map.1 h
  exact ⟨p.2, hp⟩

/-! ## The dispatcher: its result -/

/-- Without suppression and with the target floor in range the dispatcher
returns what `bestElev` holds after the loop, and the loop went through every
elevator of the visit. -/
theorem findMostSuitable_champion {e : Event} {dir : Int} (h : Asks e dir)
    (hf : FloorInRange e.Floor) (fleet : ElevatorMap)
    (hns : ∀ p ∈ fleet, ¬ AlreadyAssigned e p.2) :
    ∃ s', findMostSuitable e fleet = some s'.bestElev
      ∧ Champion Best.init (costed dir e.Floor (-1) (fleet.map Prod.snd)) s' := by
  have hns' : ∀ x ∈ fleet.map Prod.snd, ¬ Suppressed dir e.Floor x := by
    intro x hx
    obtain ⟨p, hp, rfl⟩ := List.mem_map.1 hx
    exact fun hc => hns p hp ((suppressed_iff h p.2).1 hc)
  obtain ⟨s', hs', hc⟩ := rangeLoop_spec dir e.Floor hf.1 hf.2 (fleet.map Prod.snd) Best.init hns'
  refine ⟨s', ?_, hc⟩
  rw [findMostSuitable_eq h, hs']

theorem costAt_idle (dir ef : Int) {x : ElevatorStruct} (h : x.Dir = STOP) (mf : Int) :
    costAt dir ef x mf = |x.Current_floor - ef| := by
  unfold costAt
  have ht : Toward dir ef x := Or.inr h
  rw [if_pos ht, Int.natCast_natAbs]

theorem dist_le_costAt (dir ef : Int) (x : ElevatorStruct) (mf : Int) :
    |x.Current_floor - ef| ≤ costAt dir ef x mf := by
  unfold costAt
  split
  · rw [Int.natCast_natAbs]
  · rw [← Int.natCast_natAbs (x.Current_floor - ef)]
    omega

/-- The choice of the dispatcher among well-formed elevators: the connection
returned is that of an elevator of minimum cost, and a moving elevator is only
chosen when its cost is strictly below the distance of every idle one. -/
theorem findMostSuitable_choice (e : Event) (fleet order : ElevatorMap)
    (hperm : order.Perm fleet) (hcall : IsHallCall e) (hfloor : FloorInRange e.Floor)
    (hne : fleet ≠ []) (hw : ∀ p ∈ fleet, WellFormed e p.2) :
    ∃ p ∈ fleet, ∃ c, findMostSuitable e order = some p.2.Conn ∧ IsCost e p.2 c
      ∧ (∀ q ∈ fleet, ∀ d, IsCost e q.2 d → c ≤ d)
      ∧ (p.2.Dir ≠ STOP → ∀ q ∈ fleet, q.2.Dir = STOP → c < |q.2.Current_floor - e.Floor|) := by
  have hasks := asks_of_isHallCall hcall
  have hwo : ∀ p ∈ order, WellFormed e p.2 := fun p hp => hw p (hperm.mem_iff.1 hp)
  obtain ⟨s', hres, hch⟩ :=
    findMostSuitable_champion hasks hfloor order (fun p hp => (hwo p hp).2.2.1)
  have hcost : ∀ q ∈ costed (wantedDir e) e.Floor (-1) (order.map Prod.snd),
      ∃ p ∈ fleet, p.2 = q.1 ∧ IsCost e p.2 q.2 := by
    intro q hq
    obtain ⟨h1, mf', h2⟩ := costed_mem hq
    obtain ⟨p, hp, hpq⟩ := List.mem_map.1 h1
    refine ⟨p, hperm.mem_iff.1 hp, hpq, ?_⟩
    rw [h2, ← hpq]
    exact isCost_costAt hasks (hwo p hp) mf'
  rcases hch with ⟨_, _, hall⟩ | ⟨k, hk, he, _, _, hmin, hidle⟩
  · exfalso
    obtain ⟨p0, hp0⟩ := List.exists_mem_of_ne_nil fleet hne
    have hp0' : p0 ∈ order := hperm.mem_iff.2 hp0
    obtain ⟨k, hk⟩ := costed_of_mem (wantedDir e) e.Floor (-1)
      (List.mem_map_of_mem Prod.snd hp0')
    obtain ⟨p, hp, _, hc⟩ := hcost _ hk
    have h6 := isCost_le hfloor (hw p hp).1 hc
    have h9 := (hall _ hk).1
    simp only [Best.init] at h9
    omega
  · obtain ⟨p, hp, hpk, hc⟩ := hcost k hk
    refine ⟨p, hp, k.2, ?_, hc, ?_, ?_⟩
    · rw [hres, he, hpk]
    · intro q hq d hd
      obtain ⟨k', hk'⟩ := costed_of_mem (wantedDir e) e.Floor (-1)
        (List.mem_map_of_mem Prod.snd (hperm.mem_iff.2 hq))
      obtain ⟨p', hp', hpk', hc'⟩ := hcost _ hk'
      have hc'' : IsCost e q.2 k' := by
        have : p'.2 = q.2 := hpk'
        rw [← this]; exact hc'
      rw [isCost_unique hd hc'']
      exact hmin _ hk'
    · intro hns q hq hqs
      obtain ⟨k', hk'⟩ := costed_of_mem (wantedDir e) e.Floor (-1)
        (List.mem_map_of_mem Prod.snd (hperm.mem_iff.2 hq))
      obtain ⟨_, mf', h2⟩ := costed_mem hk'
      have h3 : k' = |q.2.Current_floor - e.Floor| := by
        have h4 : k' = costAt (wantedDir e) e.Floor q.2 mf' := h2
        rw [h4, costAt_idle _ _ hqs]
      rw [← h3]
      exact (hidle (by rw [← hpk]; exact hns)).2 _ hk' hqs

/-- C1: for a hall call with its floor in range and a non-empty fleet of
well-formed elevators (floors in range, a direction among UP, DOWN, STOP, no
pending run at the target in the requested direction, a pending run ahead for
every elevator of the wrong-direction case), `findMostSuitable`, in every order
of the visit, returns the connection of an elevator of the fleet whose cost,
in the words of the specification, is the minimum over the fleet. -/
theorem findMostSuitable_min_cost (e : Event) (fleet order : ElevatorMap)
    (hperm : order.Perm fleet) (hcall : IsHallCall e) (hfloor : FloorInRange e.Floor)
    (hne : fleet ≠ []) (hw : ∀ p ∈ fleet, WellFormed e p.2) :
    ∃ p ∈ fleet, ∃ c, findMostSuitable e order = some p.2.Conn ∧ IsCost e p.2 c
      ∧ ∀ q ∈ fleet, ∀ d, IsCost e q.2 d → c ≤ d := by
  obtain ⟨p, hp, c, h1, h2, h3, _⟩ :=
    findMostSuitable_choice e fleet order hperm hcall hfloor hne hw
  exact ⟨p, hp, c, h1, h2, h3⟩

/-- C2: when some elevator of the fleet has a pending run at the target floor
in the requested direction, `findMostSuitable` returns `nil`, whatever the other
elevators hold and in every order of the visit. -/
theorem findMostSuitable_already_assigned (e : Event) (fleet order : ElevatorMap)
    (hperm : order.Perm fleet) (hcall : IsHallCall e) (hfloor : FloorInRange e.Floor)
    (h : ∃ p ∈ fleet, AlreadyAssigned e p.2) :
    findMostSuitable e order = some none := by
  have hasks := asks_of_isHallCall hcall
  obtain ⟨p, hp, ha⟩ := h
  have hs : ∃ x ∈ order.map Prod.snd, Suppressed (wantedDir e) e.Floor x :=
    ⟨p.2, List.mem_map_of_mem Prod.snd (hperm.mem_iff.2 hp), (suppressed_iff hasks p.2).2 ha⟩
  rw [findMostSuitable_eq hasks,
    rangeLoop_suppressed (wantedDir e) e.Floor hfloor.1 hfloor.2 _ Best.init hs]

/-- C3, as amended: for a hall call with its floor in range and a fleet with
the current floors in range in which no elevator has a pending run at the target
in the requested direction and at least one elevator is idle, `findMostSuitable`
returns the connection of an elevator of the fleet whose distance to the target
is at most that of every idle elevator, and strictly below it when the returned
elevator is not idle. -/
theorem findMostSuitable_idle_bound (e : Event) (fleet order : ElevatorMap)
    (hperm : order.Perm fleet) (hcall : IsHallCall e) (hfloor : FloorInRange e.Floor)
    (hin : ∀ p ∈ fleet, FloorInRange p.2.Current_floor)
    (hns : ∀ p ∈ fleet, ¬ AlreadyAssigned e p.2)
    (hidle : ∃ p ∈ fleet, p.2.Dir = STOP) :
    ∃ p ∈ fleet, findMostSuitable e order = some p.2.Conn
      ∧ (∀ q ∈ fleet, q.2.Dir = STOP →
          |p.2.Current_floor - e.Floor| ≤ |q.2.Current_floor - e.Floor|)
      ∧ (p.2.Dir ≠ STOP → ∀ q ∈ fleet, q.2.Dir = STOP →
          |p.2.Current_floor - e.Floor| < |q.2.Current_floor - e.Floor|) := by
  have hasks := asks_of_isHallCall hcall
  obtain ⟨s', hres, hch⟩ :=
    findMostSuitable_champion hasks hfloor order (fun p hp => hns p (hperm.mem_iff.1 hp))
  have hq : ∀ q ∈ fleet, q.2.Dir = STOP →
      (q.2, |q.2.Current_floor - e.Floor|) ∈ costed (wantedDir e) e.Floor (-1) (order.map Prod.snd) := by
    intro q hq hqs
    obtain ⟨k', hk'⟩ := costed_of_mem (wantedDir e) e.Floor (-1)
      (List.mem_map_of_mem Prod.snd (hperm.mem_iff.2 hq))
    obtain ⟨_, mf', h2⟩ := costed_mem hk'
    have h4 : k' = costAt (wantedDir e) e.Floor q.2 mf' := h2
    rw [h4, costAt_idle _ _ hqs] at hk'
    exact hk'
  rcases hch with ⟨_, _, hall⟩ | ⟨k, hk, he, _, _, hmin, hmov⟩
  · exfalso
    obtain ⟨q, hq0, hqs⟩ := hidle
    have h9 := (hall _ (hq q hq0 hqs)).1
    have hf := hin q hq0
    unfold FloorInRange N_FLOORS at hf hfloor
    simp only [Best.init] at h9
    rcases abs_cases (q.2.Current_floor - e.Floor) with ⟨h, _⟩ | ⟨h, _⟩ <;> omega
  · obtain ⟨h1, mf', h2⟩ := costed_mem hk
    obtain ⟨p, hp, hpk⟩ := List.mem_map.1 h1
    have hle : |p.2.Current_floor - e.Floor| ≤ k.2 := by
      rw [h2, hpk]; exact dist_le_costAt _ _ _ _
    refine ⟨p, hperm.mem_iff.1 hp, ?_, ?_, ?_⟩
    · rw [hres, he, hpk]
    · intro q hq0 hqs
      exact le_trans hle (hmin _ (hq q hq0 hqs))
    · intro hnp q hq0 hqs
      exact lt_of_le_of_lt hle ((hmov (by rw [← hpk]; exact hnp)).2 _ (hq q hq0 hqs) hqs)

/-- C4: under the preconditions of the minimum-cost claim the elevator whose
connection `findMostSuitable` returns has minimum cost `c`; when it is not idle
every idle elevator of the fleet is strictly farther than `c` from the target,
so that an idle elevator attaining the minimum cost makes the returned one idle. -/
theorem findMostSuitable_ties_to_idle (e : Event) (fleet order : ElevatorMap)
    (hperm : order.Perm fleet) (hcall : IsHallCall e) (hfloor : FloorInRange e.Floor)
    (hne : fleet ≠ []) (hw : ∀ p ∈ fleet, WellFormed e p.2) :
    ∃ p ∈ fleet, ∃ c, findMostSuitable e order = some p.2.Conn ∧ IsCost e p.2 c
      ∧ (∀ q ∈ fleet, ∀ d, IsCost e q.2 d → c ≤ d)
      ∧ (p.2.Dir ≠ STOP → ∀ q ∈ fleet, q.2.Dir = STOP → c < |q.2.Current_floor - e.Floor|)
      ∧ ((∃ q ∈ fleet, q.2.Dir = STOP ∧ |q.2.Current_floor - e.Floor| = c) → p.2.Dir = STOP) := by
  obtain ⟨p, hp, c, h1, h2, h3, h4⟩ :=
    findMostSuitable_choice e fleet order hperm hcall hfloor hne hw
  refine ⟨p, hp, c, h1, h2, h3, h4, ?_⟩
  rintro ⟨q, hq, hqs, hqc⟩
  by_contra hnp
  have := h4 hnp q hq hqs
  omega

/-! ## The claims at the scenarios -/

theorem wellFormed_fleetS3 : ∀ p ∈ fleetS3, WellFormed ⟨BUTTON_CALL_UP, 3⟩ p.2 := by
  intro p hp
  simp only [fleetS3, List.mem_cons, List.mem_singleton, List.not_mem_nil, or_false] at hp
  rcases hp with rfl | rfl
  · exact ⟨by decide, by decide, by decide, fun _ => Or.inr ⟨by decide, 0, by decide⟩⟩
  · exact ⟨by decide, by decide, by decide, fun h => absurd (Or.inl rfl) h⟩

theorem findMostSuitable_min_cost_witness :
    ∃ p ∈ fleetS3, ∃ c, findMostSuitable ⟨BUTTON_CALL_UP, 3⟩ fleetS3.reverse = some p.2.Conn
      ∧ IsCost ⟨BUTTON_CALL_UP, 3⟩ p.2 c
      ∧ ∀ q ∈ fleetS3, ∀ d, IsCost ⟨BUTTON_CALL_UP, 3⟩ q.2 d → c ≤ d :=
  findMostSuitable_min_cost ⟨BUTTON_CALL_UP, 3⟩ fleetS3 fleetS3.reverse
    (List.reverse_perm _) (by decide) (by decide) (by decide) wellFormed_fleetS3

theorem findMostSuitable_already_assigned_witness :
    findMostSuitable ⟨BUTTON_CALL_UP, 2⟩ fleetS2.reverse = some none :=
  findMostSuitable_already_assigned ⟨BUTTON_CALL_UP, 2⟩ fleetS2 fleetS2.reverse
    (List.reverse_perm _) (by decide) (by decide) (by decide)

/-- C3, as stated, fails: in scenario S2 an idle elevator is in the fleet and the
dispatcher returns `nil`; in `fleetNear` it returns the moving elevator A, which
is nearer to the target than the idle elevator B. -/
theorem findMostSuitable_not_nearest_idle :
    ¬ (∀ (e : Event) (fleet : ElevatorMap), IsHallCall e → FloorInRange e.Floor → fleet ≠ [] →
        (∀ p ∈ fleet, FloorInRange p.2.Current_floor) → (∃ p ∈ fleet, p.2.Dir = STOP) →
        ReturnsNearestIdle e fleet)
      ∧ ¬ ReturnsNearestIdle ⟨BUTTON_CALL_UP, 2⟩ fleetS2
      ∧ ¬ ReturnsNearestIdle ⟨BUTTON_CALL_UP, 2⟩ fleetNear := by
  have h2 : ¬ ReturnsNearestIdle ⟨BUTTON_CALL_UP, 2⟩ fleetS2 := by
    rintro ⟨p, hp, hres, _, _⟩
    have hev : findMostSuitable ⟨BUTTON_CALL_UP, 2⟩ fleetS2 = some none := by decide
    rw [hev] at hres
    simp only [fleetS2, List.mem_cons, List.mem_singleton, List.not_mem_nil, or_false] at hp
    rcases hp with rfl | rfl <;> simp at hres
  have h3 : ¬ ReturnsNearestIdle ⟨BUTTON_CALL_UP, 2⟩ fleetNear := by
    rintro ⟨p, hp, hres, hidle, _⟩
    have hev : findMostSuitable ⟨BUTTON_CALL_UP, 2⟩ fleetNear = some (some ⟨1, 1⟩) := by decide
    rw [hev] at hres
    simp only [fleetNear, List.mem_cons, List.mem_singleton, List.not_mem_nil, or_false] at hp
    rcases hp with rfl | rfl
    · exact absurd hidle (by decide)
    · simp at hres
  refine ⟨fun h => h2 (h _ _ (by decide) (by decide) (by decide) (by decide) (by decide)), h2, h3⟩

theorem findMostSuitable_idle_bound_witness :
    ∃ p ∈ fleetNear, findMostSuitable ⟨BUTTON_CALL_UP, 2⟩ fleetNear.reverse = some p.2.Conn
      ∧ (∀ q ∈ fleetNear, q.2.Dir = STOP →
          |p.2.Current_floor - 2| ≤ |q.2.Current_floor - 2|)
      ∧ (p.2.Dir ≠ STOP → ∀ q ∈ fleetNear, q.2.Dir = STOP →
          |p.2.Current_floor - 2| < |q.2.Current_floor - 2|) :=
  findMostSuitable_idle_bound ⟨BUTTON_CALL_UP, 2⟩ fleetNear fleetNear.reverse
    (List.reverse_perm _) (by decide) (by decide) (by decide) (by decide) (by decide)

theorem findMostSuitable_ties_to_idle_witness :
    ∃ p ∈ fleetS3, ∃ c, findMostSuitable ⟨BUTTON_CALL_UP, 3⟩ fleetS3 = some p.2.Conn
      ∧ IsCost ⟨BUTTON_CALL_UP, 3⟩ p.2 c
      ∧ (∀ q ∈ fleetS3, ∀ d, IsCost ⟨BUTTON_CALL_UP, 3⟩ q.2 d → c ≤ d)
      ∧ (p.2.Dir ≠ STOP → ∀ q ∈ fleetS3, q.2.Dir = STOP → c < |q.2.Current_floor - 3|)
      ∧ ((∃ q ∈ fleetS3, q.2.Dir = STOP ∧ |q.2.Current_floor - 3| = c) → p.2.Dir = STOP) :=
  findMostSuitable_ties_to_idle ⟨BUTTON_CALL_UP, 3⟩ fleetS3 fleetS3
    (List.Perm.refl _) (by decide) (by decide) (by decide) wellFormed_fleetS3

/-- C5: the code at an elevator of the wrong-direction case without a pending
run in its direction.  In `fleetAdrift` elevator A stands at the target floor 3
(distance 0) and B is three floors away, yet the dispatcher returns B, in both
orders: for A the loop computes `|-1 - 3| + |-1 - 3| = 8` from the entry value
`-1` of `maxFloor`.  In `fleetStale` the cost of A is computed from the value
elevator C left in `maxFloor` when C is visited first, so that the dispatcher
returns A in one order and C in the other. -/
theorem findMostSuitable_adrift :
    findMostSuitable ⟨BUTTON_CALL_UP, 3⟩ fleetAdrift = some (some ⟨2, 2⟩)
      ∧ findMostSuitable ⟨BUTTON_CALL_UP, 3⟩ fleetAdrift.reverse = some (some ⟨2, 2⟩)
      ∧ costed UP 3 (-1) (fleetAdrift.map Prod.snd)
          = [(⟨Runs.zero, Runs.zero, 3, DOWN, some ⟨1, 1⟩⟩, 8), (⟨Runs.zero, Runs.zero, 0, STOP, some ⟨2, 2⟩⟩, 3)]
      ∧ findMostSuitable ⟨BUTTON_CALL_UP, 0⟩ fleetStale = some (some ⟨1, 1⟩)
      ∧ findMostSuitable ⟨BUTTON_CALL_UP, 0⟩ fleetStale.reverse = some (some ⟨3, 3⟩) := by
  decide

/-! ## The dispatcher never panics on a floor in range -/

theorem rangeLoop_ne_panicked (dir ef : Int) (h0 : 0 ≤ ef) (h1 : ef < 4) :
    ∀ (xs : List ElevatorStruct) (s : Best), rangeLoop dir ef s xs ≠ Flow.panicked
  | [], _ => by simp [rangeLoop]
  | x :: rest, s => by
    simp only [rangeLoop, examine_eq dir ef s x h0 h1]
    split_ifs
    · simp
    · exact rangeLoop_ne_panicked dir ef h0 h1 rest _
    · exact rangeLoop_ne_panicked dir ef h0 h1 rest _

theorem findMostSuitable_total (e : Event) (fleet : ElevatorMap) (hf : FloorInRange e.Floor) :
    ∃ r, findMostSuitable e fleet = some r := by
  unfold findMostSuitable
  simp only
  split_ifs
  · have := rangeLoop_ne_panicked UP e.Floor hf.1 hf.2 (fleet.map Prod.snd) Best.init
    cases h : rangeLoop UP e.Floor Best.init (fleet.map Prod.snd) with
    | next s => exact ⟨_, rfl⟩
    | returnNil => exact ⟨_, rfl⟩
    | panicked => exact absurd h this
  · have := rangeLoop_ne_panicked DOWN e.Floor hf.1 hf.2 (fleet.map Prod.snd) Best.init
    cases h : rangeLoop DOWN e.Floor Best.init (fleet.map Prod.snd) with
    | next s => exact ⟨_, rfl⟩
    | returnNil => exact ⟨_, rfl⟩
    | panicked => exact absurd h this
  · exact ⟨_, rfl⟩

theorem redispatch_eq (visit : Event → ElevatorMap → ElevatorMap) (emap : ElevatorMap)
    (job : Event) (hf : FloorInRange job.Floor) :
    redispatch visit emap job = some (redispatched visit emap [job]) := by
  obtain ⟨r, hr⟩ := findMostSuitable_total job (visit job emap) hf
  simp only [redispatch, redispatched, hr, Option.getD_some]

/-! ## `DistributeJobs` -/

theorem redispatched_append (visit : Event → ElevatorMap → ElevatorMap) (emap : ElevatorMap)
    (a b : List Event) :
    redispatched visit emap (a ++ b) = redispatched visit emap a ++ redispatched visit emap b := by
  induction a with
  | nil => rfl
  | cons x a ih => simp [redispatched, ih]

/-- The loop of `DistributeJobs` never panics and dispatches the synthetic events
of the snapshot one after the other. -/
theorem distributeFrom_eq (I : Imports) (visit : Event → ElevatorMap → ElevatorMap)
    (emap : ElevatorMap) (elev : ElevatorStruct) :
    ∀ k i : Nat, i + k ≤ 4 →
      distributeFrom I visit emap elev k i = some (redispatched visit emap (jobsFrom I elev k i))
  | 0, _, _ => rfl
  | k + 1, i, h => by
    obtain ⟨u, hu⟩ := elev.Uprun.get?_inRange (i := (i : Int)) (by omega) (by omega)
    obtain ⟨d, hd⟩ := elev.Downrun.get?_inRange (i := (i : Int)) (by omega) (by omega)
    have hfl : FloorInRange (i : Int) := ⟨by omega, by unfold N_FLOORS; omega⟩
    simp only [distributeFrom, jobsFrom, hu, hd, Option.some.injEq,
      distributeFrom_eq I visit emap elev k (i + 1) (by omega), redispatched_append]
    have hup := redispatch_eq visit emap ⟨BUTTON_CALL_UP, (i : Int)⟩ hfl
    have hdn := redispatch_eq visit emap ⟨BUTTON_CALL_DOWN, (i : Int)⟩ hfl
    by_cases h1 : u = I.CALL <;> by_cases h2 : d = I.CALL <;>
      simp [h1, h2, hup, hdn, redispatched]

theorem DistributeJobs_eq (I : Imports) (visit : Event → ElevatorMap → ElevatorMap)
    (emap : ElevatorMap) (elev : ElevatorStruct) :
    DistributeJobs I visit emap elev
      = some (redispatched visit emap (jobsFrom I elev N_FLOORS 0)) :=
  distributeFrom_eq I visit emap elev 4 0 (by omega)

theorem dispatched_append (a b : List Action) :
    dispatched (a ++ b) = dispatched a ++ dispatched b := by
  induction a with
  | nil => rfl
  | cons x a ih => cases x <;> simp [dispatched, ih]

theorem dispatched_redispatched (visit : Event → ElevatorMap → ElevatorMap) (emap : ElevatorMap) :
    ∀ jobs : List Event, dispatched (redispatched visit emap jobs) = jobs
  | [] => rfl
  | job :: rest => by simp only [redispatched, dispatched, dispatched_redispatched visit emap rest]

theorem dispatched_remakeFrom : ∀ (i : Int) (xs : ElevatorMap), dispatched (remakeFrom i xs) = []
  | _, [] => rfl
  | i, (_, _) :: rest => by simp only [remakeFrom, dispatched, dispatched_remakeFrom (i + 1) rest]

/-- Each synthetic event occurs once among the jobs of a snapshot when the
entry of its floor is `CALL`, and not at all otherwise. -/
theorem jobsFrom_count (I : Imports) (elev : ElevatorStruct) :
    ∀ (k i : Nat) (f : Int),
      ((jobsFrom I elev k i).count ⟨BUTTON_CALL_UP, f⟩
          = if (i : Int) ≤ f ∧ f < (i : Int) + k ∧ elev.Uprun.get? f = some I.CALL then 1 else 0)
        ∧ ((jobsFrom I elev k i).count ⟨BUTTON_CALL_DOWN, f⟩
          = if (i : Int) ≤ f ∧ f < (i : Int) + k ∧ elev.Downrun.get? f = some I.CALL then 1 else 0)
  | 0, i, f => by
    simp only [jobsFrom, List.count_nil]
    constructor <;> rw [if_neg (by omega)]
  | k + 1, i, f => by
    obtain ⟨ih1, ih2⟩ := jobsFrom_count I elev k (i + 1) f
    simp only [jobsFrom, List.count_append, ih1, ih2]
    push_cast
    by_cases hf : f = (i : Int)
    · subst hf
      constructor
      · by_cases hu : elev.Uprun.get? (i : Int) = some I.CALL <;>
          by_cases hd : elev.Downrun.get? (i : Int) = some I.CALL <;>
          simp [hu, hd, List.count_cons]
      · by_cases hu : elev.Uprun.get? (i : Int) = some I.CALL <;>
          by_cases hd : elev.Downrun.get? (i : Int) = some I.CALL <;>
          simp [hu, hd, List.count_cons]
    · have hne1 : ¬ ((⟨BUTTON_CALL_UP, (i : Int)⟩ : Event) = ⟨BUTTON_CALL_UP, f⟩) := by
        intro hc; exact hf (Event.mk.inj hc).2.symm
      have hne2 : ¬ ((⟨BUTTON_CALL_DOWN, (i : Int)⟩ : Event) = ⟨BUTTON_CALL_DOWN, f⟩) := by
        intro hc; exact hf (Event.mk.inj hc).2.symm
      constructor
      · by_cases hu : elev.Uprun.get? (i : Int) = some I.CALL <;>
          by_cases hd : elev.Downrun.get? (i : Int) = some I.CALL <;>
          simp [hu, hd, List.count_cons, hne1] <;>
          (congr 1; apply propext; constructor <;> intro hh <;> refine ⟨by omega, by omega, hh.2.2⟩)
      · by_cases hu : elev.Uprun.get? (i : Int) = some I.CALL <;>
          by_cases hd : elev.Downrun.get? (i : Int) = some I.CALL <;>
          simp [hu, hd, List.count_cons, hne2] <;>
          (congr 1; apply propext; constructor <;> intro hh <;> refine ⟨by omega, by omega, hh.2.2⟩)

/-! ## The Go map -/

theorem mapFind_mapDelete_self (emap : ElevatorMap) (a : Nat) :
    mapFind (mapDelete emap a) a = none := by
  unfold mapFind mapDelete
  rw [List.find?_filter, Option.map_eq_none', List.find?_eq_none]
  intro x _
  by_cases hx : x.1 = a <;> simp [hx]

theorem mapFind_mapDelete_other (emap : ElevatorMap) {a b : Nat} (hb : b ≠ a) :
    mapFind (mapDelete emap a) b = mapFind emap b := by
  unfold mapFind mapDelete
  rw [List.find?_filter]
  have hfun : (fun x : Nat × ElevatorStruct =>
        decide (decide (x.1 ≠ a) = true ∧ decide (x.1 = b) = true))
      = (fun x => decide (x.1 = b)) := by
    funext x
    by_cases hx : x.1 = b
    · have hxa : x.1 ≠ a := by rw [hx]; exact hb
      simp [hx, hxa, hb]
    · simp [hx]
  rw [hfun]

theorem mapFind_mapAssign_self (emap : ElevatorMap) (a : Nat) (v : ElevatorStruct) :
    mapFind (mapAssign emap a v) a = some v := by
  have h := mapFind_mapDelete_self emap a
  simp only [mapFind, Option.map_eq_none'] at h
  simp [mapFind, mapAssign, List.find?_append, h]

theorem mapFind_mapAssign_other (emap : ElevatorMap) {a b : Nat} (v : ElevatorStruct) (hb : b ≠ a) :
    mapFind (mapAssign emap a v) b = mapFind emap b := by
  have h := mapFind_mapDelete_other emap hb
  have hab : ¬ a = b := fun hc => hb hc.symm
  simp only [mapFind] at h ⊢
  rw [← h]
  simp only [mapAssign, List.find?_append]
  cases hfind : List.find? (fun p => decide (p.1 = b)) (mapDelete emap a) with
  | some q => simp
  | none => simp [List.find?_cons, hab]

theorem mapIndex_of_mapFind {emap : ElevatorMap} {a : Nat} {v : ElevatorStruct}
    (h : mapFind emap a = some v) : mapIndex emap a = v := by
  simp [mapIndex, h]

theorem keys_mapDelete (emap : ElevatorMap) (a : Nat) (h : (emap.map Prod.fst).Nodup) :
    ((mapDelete emap a).map Prod.fst).Nodup := by
  unfold mapDelete
  exact (List.filter_sublist emap).map Prod.fst |>.nodup h

theorem not_mem_keys_mapDelete (emap : ElevatorMap) (a : Nat) :
    a ∉ (mapDelete emap a).map Prod.fst := by
  simp [mapDelete, List.mem_filter]

theorem keys_mapAssign (emap : ElevatorMap) (a : Nat) (v : ElevatorStruct)
    (h : (emap.map Prod.fst).Nodup) : ((mapAssign emap a v).map Prod.fst).Nodup := by
  unfold mapAssign
  rw [List.map_append, List.nodup_append]
  refine ⟨keys_mapDelete emap a h, by simp, ?_⟩
  intro x hx hx'
  simp only [List.map_cons, List.map_nil, List.mem_singleton] at hx'
  subst hx'
  exact not_mem_keys_mapDelete emap x hx

/-! ## The lost-connection transition -/

/-- The lost-connection transition never panics; with peers left it redistributes
the jobs of the removed snapshot and renumbers the queue, and otherwise it
stashes the snapshot. -/
theorem lostConnection_eq (I : Imports) (V : Visits) (st : State) (lostConn : TCPConn) :
    lostConnection I V st lostConn =
      if mapDelete st.emap lostConn.ip = [] then
        some ({ st with emap := mapDelete st.emap lostConn.ip, DistributeBU := true,
                        BUelev := mapIndex st.emap lostConn.ip }, [])
      else
        some ({ st with emap := mapDelete st.emap lostConn.ip },
          redispatched V.dispatch (mapDelete st.emap lostConn.ip)
              (jobsFrom I (mapIndex st.emap lostConn.ip) N_FLOORS 0)
            ++ RemakeQueue V.queue (mapDelete st.emap lostConn.ip)) := by
  unfold lostConnection
  simp only [DistributeJobs_eq, List.length_eq_zero]

/-- C6, as amended: after the lost-connection transition for a peer of the
registry its key is gone and the other entries are unchanged; when peers are
left the dispatcher was called exactly once with the synthetic up call (resp.
down call) at every floor where the removed snapshot had `CALL`, and with
nothing else; when no peer is left the dispatcher was not called, nothing was
sent and the snapshot is stashed under the flag `DistributeBU`. -/
theorem lostConnection_redistributes (I : Imports) (V : Visits) (st : State)
    (lostConn : TCPConn) (s : ElevatorStruct) (hp : mapFind st.emap lostConn.ip = some s) :
    ∃ st' acts, lostConnection I V st lostConn = some (st', acts)
      ∧ mapFind st'.emap lostConn.ip = none
      ∧ (∀ a, a ≠ lostConn.ip → mapFind st'.emap a = mapFind st.emap a)
      ∧ (st'.emap ≠ [] → ∀ f,
          (s.Uprun.get? f = some I.CALL → (dispatched acts).count ⟨BUTTON_CALL_UP, f⟩ = 1)
          ∧ (s.Downrun.get? f = some I.CALL → (dispatched acts).count ⟨BUTTON_CALL_DOWN, f⟩ = 1)
          ∧ (s.Uprun.get? f ≠ some I.CALL → (dispatched acts).count ⟨BUTTON_CALL_UP, f⟩ = 0)
          ∧ (s.Downrun.get? f ≠ some I.CALL → (dispatched acts).count ⟨BUTTON_CALL_DOWN, f⟩ = 0))
      ∧ (st'.emap ≠ [] → ∀ e ∈ dispatched acts, IsHallCall e)
      ∧ (st'.emap = [] → acts = [] ∧ st'.DistributeBU = true ∧ st'.BUelev = s) := by
  rw [lostConnection_eq, mapIndex_of_mapFind hp]
  by_cases hempty : mapDelete st.emap lostConn.ip = []
  · rw [if_pos hempty]
    refine ⟨_, _, rfl, mapFind_mapDelete_self _ _, fun a ha => mapFind_mapDelete_other _ ha,
      fun h => absurd hempty h, fun h => absurd hempty h, fun _ => ⟨rfl, rfl, rfl⟩⟩
  · rw [if_neg hempty]
    have hd : dispatched (redispatched V.dispatch (mapDelete st.emap lostConn.ip)
        (jobsFrom I s N_FLOORS 0) ++ RemakeQueue V.queue (mapDelete st.emap lostConn.ip))
        = jobsFrom I s N_FLOORS 0 := by
      rw [dispatched_append, dispatched_redispatched, RemakeQueue, dispatched_remakeFrom,
        List.append_nil]
    refine ⟨_, _, rfl, mapFind_mapDelete_self _ _, fun a ha => mapFind_mapDelete_other _ ha,
      ?_, ?_, fun h => absurd h hempty⟩
    · intro _ f
      simp only [hd]
      obtain ⟨h1, h2⟩ := jobsFrom_count I s N_FLOORS 0 f
      rw [h1, h2]
      have hup : ∀ {r : Runs}, r.get? f = some I.CALL →
          ((0 : Nat) : Int) ≤ f ∧ f < ((0 : Nat) : Int) + (N_FLOORS : Nat) := by
        intro r hr
        by_contra hc
        have : r.get? f = none := r.get?_outside (by unfold N_FLOORS at hc; omega)
        rw [this] at hr
        exact absurd hr (by simp)
      refine ⟨fun h => ?_, fun h => ?_, fun h => ?_, fun h => ?_⟩
      · rw [if_pos ⟨(hup h).1, (hup h).2, h⟩]
      · rw [if_pos ⟨(hup h).1, (hup h).2, h⟩]
      · rw [if_neg (fun hc => h hc.2.2)]
      · rw [if_neg (fun hc => h hc.2.2)]
    · intro _ e he
      simp only [hd] at he
      by_contra hcall
      have hz : (jobsFrom I s N_FLOORS 0).count e = 0 := by
        have key : ∀ k i, e ∉ jobsFrom I s k i := by
          intro k
          induction k with
          | zero => intro i; simp [jobsFrom]
          | succ k ih =>
            intro i hmem
            simp only [jobsFrom, List.mem_append] at hmem
            rcases hmem with (hmem | hmem) | hmem
            · split at hmem
              · simp only [List.mem_singleton] at hmem
                exact hcall (Or.inl (by rw [hmem]))
              · simp at hmem
            · split at hmem
              · simp only [List.mem_singleton] at hmem
                exact hcall (Or.inr (by rw [hmem]))
              · simp at hmem
            · exact ih _ hmem
        exact List.count_eq_zero_of_not_mem (key _ _)
      exact absurd he (List.count_eq_zero.1 hz)

/-- C6, as stated, fails: when the lost peer was the only one, the dispatcher is
not called during the transition although the removed snapshot holds a `CALL`. -/
theorem lostConnection_last_peer_not_dispatched :
    ¬ (∀ (I : Imports) (V : Visits) (st : State) (lostConn : TCPConn) (s : ElevatorStruct),
        mapFind st.emap lostConn.ip = some s →
        ∃ st' acts, lostConnection I V st lostConn = some (st', acts)
          ∧ mapFind st'.emap lostConn.ip = none
          ∧ ∀ f, (s.Uprun.get? f = some I.CALL →
                (dispatched acts).count ⟨BUTTON_CALL_UP, f⟩ = 1)
              ∧ (s.Downrun.get? f = some I.CALL →
                (dispatched acts).count ⟨BUTTON_CALL_DOWN, f⟩ = 1)) := by
  intro h
  obtain ⟨st', acts, hrun, _, hall⟩ :=
    h Imports.sample Visits.stable stateS6 ⟨1, 1⟩ ⟨⟨[1, 0, 0, 0], rfl⟩, Runs.zero, 0, STOP, some ⟨1, 1⟩⟩ rfl
  have hev : lostConnection Imports.sample Visits.stable stateS6 ⟨1, 1⟩
      = some ((⟨[], [], false, true,
                ⟨⟨[1, 0, 0, 0], rfl⟩, Runs.zero, 0, STOP, some ⟨1, 1⟩⟩⟩ : State), []) := by
    decide
  rw [hev] at hrun
  have hacts : acts = [] := by
    injection hrun with hrun
    exact (Prod.mk.inj hrun).2.symm
  have h1 := (hall 0).1 (by decide)
  rw [hacts] at h1
  simp [dispatched] at h1

theorem lostConnection_redistributes_witness :
    ∃ st' acts, lostConnection Imports.sample Visits.stable stateS4 ⟨2, 2⟩ = some (st', acts)
      ∧ mapFind st'.emap 2 = none
      ∧ (∀ a, a ≠ 2 → mapFind st'.emap a = mapFind stateS4.emap a)
      ∧ (st'.emap ≠ [] → ∀ f,
          ((⟨[0, 0, 1, 0], rfl⟩ : Runs).get? f = some 1 →
            (dispatched acts).count ⟨BUTTON_CALL_UP, f⟩ = 1)
          ∧ (Runs.zero.get? f = some 1 → (dispatched acts).count ⟨BUTTON_CALL_DOWN, f⟩ = 1)
          ∧ ((⟨[0, 0, 1, 0], rfl⟩ : Runs).get? f ≠ some 1 →
            (dispatched acts).count ⟨BUTTON_CALL_UP, f⟩ = 0)
          ∧ (Runs.zero.get? f ≠ some 1 → (dispatched acts).count ⟨BUTTON_CALL_DOWN, f⟩ = 0))
      ∧ (st'.emap ≠ [] → ∀ e ∈ dispatched acts, IsHallCall e)
      ∧ (st'.emap = [] → acts = [] ∧ st'.DistributeBU = true
          ∧ st'.BUelev = ⟨⟨[0, 0, 1, 0], rfl⟩, Runs.zero, 3, STOP, some ⟨2, 2⟩⟩) :=
  lostConnection_redistributes Imports.sample Visits.stable stateS4 ⟨2, 2⟩
    ⟨⟨[0, 0, 1, 0], rfl⟩, Runs.zero, 3, STOP, some ⟨2, 2⟩⟩ rfl

/-! ## `RemakeQueue` -/

theorem intsSent_append (a b : List Action) : intsSent (a ++ b) = intsSent a ++ intsSent b := by
  induction a with
  | nil => rfl
  | cons x a ih =>
    cases x with
    | dispatch e v => simp [intsSent, ih]
    | send c v => cases v <;> simp [intsSent, ih]

theorem intsSent_redispatched (visit : Event → ElevatorMap → ElevatorMap) (emap : ElevatorMap) :
    ∀ jobs : List Event, intsSent (redispatched visit emap jobs) = []
  | [] => rfl
  | job :: rest => by simp only [redispatched, intsSent, intsSent_redispatched visit emap rest]

theorem intsSent_remakeFrom_fst :
    ∀ (xs : ElevatorMap) (i : Int), (intsSent (remakeFrom i xs)).map Prod.fst = xs.map (fun p => p.2.Conn)
  | [], _ => rfl
  | (_, _) :: rest, i => by
    simp only [remakeFrom, intsSent, List.map_cons, intsSent_remakeFrom_fst rest (i + 1)]

theorem intsSent_remakeFrom_snd :
    ∀ (xs : ElevatorMap) (n : Nat),
      (intsSent (remakeFrom (n : Int) xs)).map Prod.snd
        = (List.range' n xs.length).map (fun k : Nat => (k : Int))
  | [], _ => rfl
  | (_, _) :: rest, n => by
    have ih := intsSent_remakeFrom_snd rest (n + 1)
    have hn : ((n : Int) + 1) = ((n + 1 : Nat) : Int) := by push_cast; rfl
    simp only [remakeFrom, intsSent, List.map_cons, List.length_cons, List.range'_succ, hn, ih]

/-- C7: a lost-connection transition that leaves peers in the registry sends,
through `RemakeQueue`, one queue number to the connection of each remaining
peer, and the numbers sent, in the order of the visit, are 1, 2, ..., n for the
n remaining peers. -/
theorem lostConnection_dense_queue (I : Imports) (V : Visits) (st : State) (lostConn : TCPConn)
    (hV : V.Valid) (hne : mapDelete st.emap lostConn.ip ≠ []) :
    ∃ st' acts, lostConnection I V st lostConn = some (st', acts)
      ∧ st'.emap = mapDelete st.emap lostConn.ip
      ∧ (V.queue st'.emap).Perm st'.emap
      ∧ (intsSent acts).map Prod.fst = (V.queue st'.emap).map (fun p => p.2.Conn)
      ∧ (intsSent acts).map Prod.snd = (List.range' 1 st'.emap.length).map (fun k : Nat => (k : Int))
      ∧ intsSent (RemakeQueue V.queue st'.emap) = intsSent acts := by
  rw [lostConnection_eq, if_neg hne]
  have hq := hV.2.2.2.1 (mapDelete st.emap lostConn.ip)
  refine ⟨_, _, rfl, rfl, hq, ?_, ?_, ?_⟩
  · simp only [intsSent_append, intsSent_redispatched, List.nil_append, RemakeQueue]
    exact intsSent_remakeFrom_fst _ 1
  · simp only [intsSent_append, intsSent_redispatched, List.nil_append, RemakeQueue]
    have := intsSent_remakeFrom_snd (V.queue (mapDelete st.emap lostConn.ip)) 1
    rw [hq.length_eq] at this
    exact this
  · simp only [intsSent_append, intsSent_redispatched, List.nil_append]

theorem visits_stable_valid : Visits.stable.Valid :=
  ⟨fun _ m => List.Perm.refl m, fun m => List.Perm.refl m, fun m => List.Perm.refl m,
    fun m => List.Perm.refl m, fun m => List.Perm.refl m, fun _ _ m => List.Perm.refl m⟩

theorem lostConnection_dense_queue_witness :
    ∃ st' acts, lostConnection Imports.sample Visits.stable stateS4 ⟨2, 2⟩ = some (st', acts)
      ∧ st'.emap = mapDelete stateS4.emap 2
      ∧ (Visits.stable.queue st'.emap).Perm st'.emap
      ∧ (intsSent acts).map Prod.fst = (Visits.stable.queue st'.emap).map (fun p => p.2.Conn)
      ∧ (intsSent acts).map Prod.snd = (List.range' 1 st'.emap.length).map (fun k : Nat => (k : Int))
      ∧ intsSent (RemakeQueue Visits.stable.queue st'.emap) = intsSent acts :=
  lostConnection_dense_queue Imports.sample Visits.stable stateS4 ⟨2, 2⟩ visits_stable_valid
    (by decide)

/-! ## `handleMessages` and the backup -/

theorem handleMessage_backup_first (I : Imports) (V : Visits) (hd : I.TagsDistinct) (st : State)
    (m : Message) (hm : isBackup I m = true) (hst : st.receivedBackup = false) :
    handleMessage I V st m
      = some ({ st with backup := I.DecodeElevatorMap m.Msg.tail, receivedBackup := true }, []) := by
  obtain ⟨h1, h2, h3, h4, h5, h6⟩ := hd
  unfold isBackup at hm
  unfold handleMessage
  cases hmsg : m.Msg with
  | nil => rw [hmsg] at hm; simp at hm
  | cons b body =>
    rw [hmsg] at hm
    have hb : atoiByte b = I.BACKUP := by simpa using hm
    simp only [hb, if_neg (Ne.symm h3), if_neg (Ne.symm h5), if_neg (Ne.symm h6), if_true, hst,
      Bool.not_false, List.tail_cons]

theorem handleMessage_backup_later (I : Imports) (V : Visits) (hd : I.TagsDistinct) (st : State)
    (m : Message) (hm : isBackup I m = true) (hst : st.receivedBackup = true) :
    handleMessage I V st m = some (st, []) := by
  obtain ⟨h1, h2, h3, h4, h5, h6⟩ := hd
  unfold isBackup at hm
  unfold handleMessage
  cases hmsg : m.Msg with
  | nil => rw [hmsg] at hm; simp at hm
  | cons b body =>
    rw [hmsg] at hm
    have hb : atoiByte b = I.BACKUP := by simpa using hm
    simp [hb, if_neg (Ne.symm h3), if_neg (Ne.symm h5), if_neg (Ne.symm h6), hst]

theorem handleMessage_backup_kept (I : Imports) (V : Visits) (st : State) (m : Message)
    (st' : State) (acts : List Action) (hrun : handleMessage I V st m = some (st', acts))
    (hkeep : isBackup I m = false ∨ st.receivedBackup = true) :
    st'.receivedBackup = st.receivedBackup ∧ st'.backup = st.backup := by
  unfold isBackup at hkeep
  unfold handleMessage at hrun
  cases hmsg : m.Msg with
  | nil => rw [hmsg] at hrun; simp at hrun
  | cons b body =>
    rw [hmsg] at hrun hkeep
    simp only at hrun
    split_ifs at hrun with c1 c2 c3 c4 c5
    · injection hrun with hrun; rw [← (Prod.mk.inj hrun).1]; exact ⟨rfl, rfl⟩
    · cases hev : handleEvent V st (I.DecodeEvent body) with
      | none => rw [hev] at hrun; simp at hrun
      | some a =>
        rw [hev] at hrun
        injection hrun with hrun; rw [← (Prod.mk.inj hrun).1]; exact ⟨rfl, rfl⟩
    · injection hrun with hrun; rw [← (Prod.mk.inj hrun).1]; exact ⟨rfl, rfl⟩
    · exfalso
      rcases hkeep with hk | hk
      · simp [c4] at hk
      · rw [hk] at c5; simp at c5
    · injection hrun with hrun; rw [← (Prod.mk.inj hrun).1]; exact ⟨rfl, rfl⟩
    · injection hrun with hrun; rw [← (Prod.mk.inj hrun).1]; exact ⟨rfl, rfl⟩

theorem handleMessages_backup_kept (I : Imports) (V : Visits) :
    ∀ (msgs : List Message) (st st' : State) (acts : List Action),
      handleMessages I V st msgs = some (st', acts) → st.receivedBackup = true →
      st'.receivedBackup = true ∧ st'.backup = st.backup
  | [], st, st', acts, hrun, hst => by
    simp only [handleMessages, Option.some.injEq, Prod.mk.injEq] at hrun
    rw [← hrun.1]; exact ⟨hst, rfl⟩
  | m :: rest, st, st', acts, hrun, hst => by
    simp only [handleMessages] at hrun
    cases h1 : handleMessage I V st m with
    | none => rw [h1] at hrun; simp at hrun
    | some r1 =>
      obtain ⟨s1, a1⟩ := r1
      rw [h1] at hrun
      simp only at hrun
      cases h2 : handleMessages I V s1 rest with
      | none => rw [h2] at hrun; simp at hrun
      | some r2 =>
        obtain ⟨s2, a2⟩ := r2
        rw [h2] at hrun
        simp only [Option.some.injEq, Prod.mk.injEq] at hrun
        obtain ⟨k1, k2⟩ := handleMessage_backup_kept I V st m s1 a1 h1 (Or.inr hst)
        obtain ⟨k3, k4⟩ := handleMessages_backup_kept I V rest s1 s2 a2 h2 (by rw [k1, hst])
        rw [← hrun.1]
        exact ⟨k3, by rw [k4, k2]⟩

theorem handleMessages_first_backup (I : Imports) (V : Visits) (hd : I.TagsDistinct) :
    ∀ (msgs : List Message) (st st' : State) (acts : List Action),
      handleMessages I V st msgs = some (st', acts) → st.receivedBackup = false →
      match msgs.find? (isBackup I) with
      | none => st'.receivedBackup = false ∧ st'.backup = st.backup
      | some m => st'.receivedBackup = true ∧ st'.backup = I.DecodeElevatorMap m.Msg.tail
  | [], st, st', acts, hrun, hst => by
    simp only [handleMessages, Option.some.injEq, Prod.mk.injEq] at hrun
    simp only [List.find?_nil]
    rw [← hrun.1]; exact ⟨hst, rfl⟩
  | m :: rest, st, st', acts, hrun, hst => by
    simp only [handleMessages] at hrun
    cases h1 : handleMessage I V st m with
    | none => rw [h1] at hrun; simp at hrun
    | some r1 =>
      obtain ⟨s1, a1⟩ := r1
      rw [h1] at hrun
      simp only at hrun
      cases h2 : handleMessages I V s1 rest with
      | none => rw [h2] at hrun; simp at hrun
      | some r2 =>
        obtain ⟨s2, a2⟩ := r2
        rw [h2] at hrun
        simp only [Option.some.injEq, Prod.mk.injEq] at hrun
        rw [← hrun.1]
        cases hb : isBackup I m with
        | true =>
          simp only [List.find?_cons, hb]
          rw [handleMessage_backup_first I V hd st m hb hst] at h1
          simp only [Option.some.injEq, Prod.mk.injEq] at h1
          obtain ⟨k3, k4⟩ := handleMessages_backup_kept I V rest s1 s2 a2 h2 (by rw [← h1.1])
          exact ⟨k3, by rw [k4, ← h1.1]⟩
        | false =>
          simp only [List.find?_cons, hb]
          obtain ⟨k1, k2⟩ := handleMessage_backup_kept I V st m s1 a1 h1 (Or.inl hb)
          have := handleMessages_first_backup I V hd rest s1 s2 a2 h2 (by rw [k1, hst])
          rw [k2] at this
          exact this

/-- C8: along every run of `handleMessages` that starts with `receivedBackup`
false, the stored backup stays as it was until the first `BACKUP` message and is
from then on the decoding of the body of that message, with `receivedBackup`
true; once the flag is set a `BACKUP` message leaves the whole state unchanged
and sends nothing, and no further message changes the flag or the stored backup. -/
theorem backup_consumed_once (I : Imports) (V : Visits) (hd : I.TagsDistinct) (st st' : State)
    (msgs : List Message) (acts : List Action) (hst : st.receivedBackup = false)
    (hrun : handleMessages I V st msgs = some (st', acts)) :
    (match msgs.find? (isBackup I) with
      | none => st'.receivedBackup = false ∧ st'.backup = st.backup
      | some m => st'.receivedBackup = true ∧ st'.backup = I.DecodeElevatorMap m.Msg.tail)
    ∧ (∀ m, isBackup I m = true → st'.receivedBackup = false →
        handleMessage I V st' m
          = some ({ st' with backup := I.DecodeElevatorMap m.Msg.tail, receivedBackup := true }, []))
    ∧ (∀ m, isBackup I m = true → st'.receivedBackup = true →
        handleMessage I V st' m = some (st', []))
    ∧ (∀ more st'' acts'', st'.receivedBackup = true →
        handleMessages I V st' more = some (st'', acts'') →
        st''.receivedBackup = true ∧ st''.backup = st'.backup) :=
  ⟨handleMessages_first_backup I V hd msgs st st' acts hrun hst,
    fun m hm h => handleMessage_backup_first I V hd st' m hm h,
    fun m hm h => handleMessage_backup_later I V hd st' m hm h,
    fun more st'' acts'' h hmore => handleMessages_backup_kept I V more st' st'' acts'' hmore h⟩

theorem backup_consumed_once_witness :
    stateAfterDemo.receivedBackup = true
      ∧ stateAfterDemo.backup = Imports.sample.DecodeElevatorMap [7, 8] :=
  (backup_consumed_once Imports.sample Visits.stable (by decide) State.init stateAfterDemo msgsDemo
    [Action.send (some ⟨2, 2⟩)
      (Value.elevatorMap [(2, ⟨Runs.zero, Runs.zero, 2, 0, some ⟨2, 2⟩⟩)])]
    rfl (by decide)).1

/-! ## `sendLights` and the new-connection transition -/

theorem lightsFrom_eq (I : Imports) (newConn : Option TCPConn) (elev : ElevatorStruct) :
    ∀ k i : Nat, i + k ≤ 4 → lightsFrom I newConn elev k i = some (lampsFrom I newConn elev k i)
  | 0, _, _ => rfl
  | k + 1, i, h => by
    obtain ⟨u, hu⟩ := elev.Uprun.get?_inRange (i := (i : Int)) (by omega) (by omega)
    obtain ⟨d, hd⟩ := elev.Downrun.get?_inRange (i := (i : Int)) (by omega) (by omega)
    simp only [lightsFrom, lampsFrom, hu, hd, Option.some.injEq,
      lightsFrom_eq I newConn elev k (i + 1) (by omega)]

theorem lightsOver_eq (I : Imports) (newConn : Option TCPConn) :
    ∀ xs : ElevatorMap, lightsOver I newConn xs = some (lampsOver I newConn xs)
  | [] => rfl
  | (_, elev) :: rest => by
    simp only [lightsOver, lampsOver, lightsFrom_eq I newConn elev N_FLOORS 0 (by decide),
      lightsOver_eq I newConn rest]

theorem sendLights_eq (I : Imports) (visit : ElevatorMap → ElevatorMap) (emap : ElevatorMap)
    (newConn : Option TCPConn) :
    sendLights I visit emap newConn = some (lampsOver I newConn (visit emap)) :=
  lightsOver_eq I newConn (visit emap)

/-- A light message occurs once among the lamps of one elevator when the entry
of its floor is `CALL`, and not at all otherwise. -/
theorem lampsFrom_count (I : Imports) (c : Option TCPConn) (elev : ElevatorStruct) :
    ∀ (k i : Nat) (f : Int),
      ((lampsFrom I c elev k i).count (Action.send c (Value.event ⟨TURN_ON_UP_LIGHT, f⟩))
          = if (i : Int) ≤ f ∧ f < (i : Int) + k ∧ elev.Uprun.get? f = some I.CALL then 1 else 0)
        ∧ ((lampsFrom I c elev k i).count (Action.send c (Value.event ⟨TURN_ON_DOWN_LIGHT, f⟩))
          = if (i : Int) ≤ f ∧ f < (i : Int) + k ∧ elev.Downrun.get? f = some I.CALL then 1 else 0)
  | 0, i, f => by
    simp only [lampsFrom, List.count_nil]
    constructor <;> rw [if_neg (by omega)]
  | k + 1, i, f => by
    obtain ⟨ih1, ih2⟩ := lampsFrom_count I c elev k (i + 1) f
    simp only [lampsFrom, List.count_append, ih1, ih2]
    push_cast
    by_cases hf : f = (i : Int)
    · subst hf
      constructor
      · by_cases hu : elev.Uprun.get? (i : Int) = some I.CALL <;>
          by_cases hd : elev.Downrun.get? (i : Int) = some I.CALL <;>
          simp [hu, hd, List.count_cons]
      · by_cases hu : elev.Uprun.get? (i : Int) = some I.CALL <;>
          by_cases hd : elev.Downrun.get? (i : Int) = some I.CALL <;>
          simp [hu, hd, List.count_cons]
    · have hne : ¬ ((i : Int) = f) := fun hc => hf hc.symm
      constructor
      · by_cases hu : elev.Uprun.get? (i : Int) = some I.CALL <;>
          by_cases hd : elev.Downrun.get? (i : Int) = some I.CALL <;>
          simp [hu, hd, List.count_cons, hne] <;>
          (congr 1; apply propext; constructor <;> intro hh <;> refine ⟨by omega, by omega, hh.2.2⟩)
      · by_cases hu : elev.Uprun.get? (i : Int) = some I.CALL <;>
          by_cases hd : elev.Downrun.get? (i : Int) = some I.CALL <;>
          simp [hu, hd, List.count_cons, hne] <;>
          (congr 1; apply propext; constructor <;> intro hh <;> refine ⟨by omega, by omega, hh.2.2⟩)

theorem get?_call_inRange {r : Runs} {f v : Int} (h : r.get? f = some v) :
    ((0 : Nat) : Int) ≤ f ∧ f < ((0 : Nat) : Int) + (N_FLOORS : Nat) := by
  by_contra hc
  have : r.get? f = none := r.get?_outside (by unfold N_FLOORS at hc; omega)
  rw [this] at h
  exact absurd h (by simp)

theorem lampsOver_count (I : Imports) (c : Option TCPConn) (f : Int) :
    ∀ xs : ElevatorMap,
      ((lampsOver I c xs).count (Action.send c (Value.event ⟨TURN_ON_UP_LIGHT, f⟩))
          = xs.countP (fun p => decide (p.2.Uprun.get? f = some I.CALL)))
        ∧ ((lampsOver I c xs).count (Action.send c (Value.event ⟨TURN_ON_DOWN_LIGHT, f⟩))
          = xs.countP (fun p => decide (p.2.Downrun.get? f = some I.CALL)))
  | [] => ⟨rfl, rfl⟩
  | (a, elev) :: rest => by
    obtain ⟨ih1, ih2⟩ := lampsOver_count I c f rest
    obtain ⟨h1, h2⟩ := lampsFrom_count I c elev N_FLOORS 0 f
    simp only [lampsOver, List.count_append, ih1, ih2, h1, h2, List.countP_cons]
    constructor
    · by_cases hu : elev.Uprun.get? f = some I.CALL
      · have hr := get?_call_inRange hu
        rw [if_pos ⟨hr.1, hr.2, hu⟩]
        simp [hu, Nat.add_comm]
      · simp [hu]
    · by_cases hu : elev.Downrun.get? f = some I.CALL
      · have hr := get?_call_inRange hu
        rw [if_pos ⟨hr.1, hr.2, hu⟩]
        simp [hu, Nat.add_comm]
      · simp [hu]

theorem jobsFrom_hallCall (I : Imports) (elev : ElevatorStruct) {e : Event} :
    ∀ (k i : Nat), e ∈ jobsFrom I elev k i → IsHallCall e
  | 0, _, h => by simp [jobsFrom] at h
  | k + 1, i, h => by
    simp only [jobsFrom, List.mem_append] at h
    rcases h with (h | h) | h
    · split at h
      · simp only [List.mem_singleton] at h
        exact Or.inl (by rw [h])
      · simp at h
    · split at h
      · simp only [List.mem_singleton] at h
        exact Or.inr (by rw [h])
      · simp at h
    · exact jobsFrom_hallCall I elev k (i + 1) h

theorem mem_redispatched {visit : Event → ElevatorMap → ElevatorMap} {emap : ElevatorMap}
    {conn : Option TCPConn} {e : Event} :
    ∀ {jobs : List Event}, Action.send conn (Value.event e) ∈ redispatched visit emap jobs → e ∈ jobs
  | [], h => by simp [redispatched] at h
  | job :: rest, h => by
    simp only [redispatched, List.mem_cons, reduceCtorEq, false_or, Action.send.injEq,
      Value.event.injEq] at h
    rcases h with ⟨_, h⟩ | h
    · rw [h]; exact List.mem_cons_self _ _
    · exact List.mem_cons_of_mem _ (mem_redispatched h)

theorem mem_lampsFrom {I : Imports} {c : Option TCPConn} {elev : ElevatorStruct} {a : Action} :
    ∀ (k i : Nat), a ∈ lampsFrom I c elev k i →
      ∃ f : Int, (a = Action.send c (Value.event ⟨TURN_ON_UP_LIGHT, f⟩)
            ∧ elev.Uprun.get? f = some I.CALL)
        ∨ (a = Action.send c (Value.event ⟨TURN_ON_DOWN_LIGHT, f⟩)
            ∧ elev.Downrun.get? f = some I.CALL)
  | 0, _, h => by simp [lampsFrom] at h
  | k + 1, i, h => by
    simp only [lampsFrom, List.mem_append] at h
    rcases h with (h | h) | h
    · split at h
      · simp only [List.mem_singleton] at h
        exact ⟨i, Or.inl ⟨h, by assumption⟩⟩
      · simp at h
    · split at h
      · simp only [List.mem_singleton] at h
        exact ⟨i, Or.inr ⟨h, by assumption⟩⟩
      · simp at h
    · exact mem_lampsFrom k (i + 1) h

theorem mem_lampsOver {I : Imports} {c : Option TCPConn} {a : Action} :
    ∀ {xs : ElevatorMap}, a ∈ lampsOver I c xs →
      ∃ p ∈ xs, ∃ f : Int, (a = Action.send c (Value.event ⟨TURN_ON_UP_LIGHT, f⟩)
            ∧ p.2.Uprun.get? f = some I.CALL)
        ∨ (a = Action.send c (Value.event ⟨TURN_ON_DOWN_LIGHT, f⟩)
            ∧ p.2.Downrun.get? f = some I.CALL)
  | [], h => by simp [lampsOver] at h
  | (k, elev) :: rest, h => by
    simp only [lampsOver, List.mem_append] at h
    rcases h with h | h
    · obtain ⟨f, hf⟩ := mem_lampsFrom _ _ h
      exact ⟨(k, elev), List.mem_cons_self _ _, f, hf⟩
    · obtain ⟨p, hp, hf⟩ := mem_lampsOver h
      exact ⟨p, List.mem_cons_of_mem _ hp, hf⟩

/-- The new-connection transition never panics: it stores a fresh entry, sends the
queue number and the lights, and redistributes the stashed snapshot if there is one. -/
theorem newConnection_eq (I : Imports) (V : Visits) (st : State) (newConn : TCPConn) :
    newConnection I V st newConn =
      some ({ st with
              emap := mapAssign st.emap newConn.ip ⟨Runs.zero, Runs.zero, 0, 0, some newConn⟩,
              DistributeBU := false },
        Action.send (some newConn)
            (Value.int ((mapAssign st.emap newConn.ip
              ⟨Runs.zero, Runs.zero, 0, 0, some newConn⟩).length : Int))
          :: lampsOver I (some newConn) (V.lights (mapAssign st.emap newConn.ip
              ⟨Runs.zero, Runs.zero, 0, 0, some newConn⟩))
          ++ (if st.DistributeBU then
                redispatched V.dispatch (mapAssign st.emap newConn.ip
                  ⟨Runs.zero, Runs.zero, 0, 0, some newConn⟩) (jobsFrom I st.BUelev N_FLOORS 0)
              else [])) := by
  unfold newConnection
  simp only [sendLights_eq, DistributeJobs_eq]
  cases hb : st.DistributeBU with
  | true => simp
  | false =>
    simp only [Bool.false_eq_true, if_false, List.append_nil, Option.some.injEq, Prod.mk.injEq,
      and_true]

/-- C9, as amended: at a new connection the joining peer is sent, for every floor
`f`, one `TURN_ON_UP_LIGHT` at `f` per entry of the registry (the fresh entry of
the peer included) with `Uprun[f] == CALL` and one `TURN_ON_DOWN_LIGHT` at `f`
per entry with `Downrun[f] == CALL`: at least one exactly when some entry holds
the call.  Every other event sent during the transition is a redistributed hall
call, and every light message goes to the joining peer. -/
theorem newConnection_lights (I : Imports) (V : Visits) (st : State) (newConn : TCPConn)
    (hV : V.Valid) :
    ∃ st' acts, newConnection I V st newConn = some (st', acts)
      ∧ st'.emap = mapAssign st.emap newConn.ip ⟨Runs.zero, Runs.zero, 0, 0, some newConn⟩
      ∧ (∀ f, acts.count (Action.send (some newConn) (Value.event ⟨TURN_ON_UP_LIGHT, f⟩))
            = st'.emap.countP (fun p => decide (p.2.Uprun.get? f = some I.CALL)))
      ∧ (∀ f, acts.count (Action.send (some newConn) (Value.event ⟨TURN_ON_DOWN_LIGHT, f⟩))
            = st'.emap.countP (fun p => decide (p.2.Downrun.get? f = some I.CALL)))
      ∧ (∀ conn e, Action.send conn (Value.event e) ∈ acts → ¬ IsHallCall e →
          conn = some newConn ∧ ∃ p ∈ st'.emap,
            (e.EventType = TURN_ON_UP_LIGHT ∧ p.2.Uprun.get? e.Floor = some I.CALL)
              ∨ (e.EventType = TURN_ON_DOWN_LIGHT ∧ p.2.Downrun.get? e.Floor = some I.CALL)) := by
  rw [newConnection_eq]
  generalize mapAssign st.emap newConn.ip ⟨Runs.zero, Runs.zero, 0, 0, some newConn⟩ = emap'
  have hperm := hV.2.1 emap'
  have hjobs : ∀ (c : Option TCPConn) (e : Event), ¬ IsHallCall e →
      Action.send c (Value.event e) ∉
        (if st.DistributeBU then redispatched V.dispatch emap' (jobsFrom I st.BUelev N_FLOORS 0)
          else []) := by
    intro c e he hmem
    split at hmem
    · exact he (jobsFrom_hallCall I st.BUelev _ _ (mem_redispatched hmem))
    · simp at hmem
  have hup : ∀ f : Int, ¬ IsHallCall ⟨TURN_ON_UP_LIGHT, f⟩ := by
    intro f hc; rcases hc with hc | hc <;> simp at hc
  have hdown : ∀ f : Int, ¬ IsHallCall ⟨TURN_ON_DOWN_LIGHT, f⟩ := by
    intro f hc; rcases hc with hc | hc <;> simp at hc
  refine ⟨_, _, rfl, rfl, ?_, ?_, ?_⟩
  · intro f
    rw [List.count_append, List.count_cons, (lampsOver_count I (some newConn) f _).1,
      List.count_eq_zero_of_not_mem (hjobs _ _ (hup f)), hperm.countP_eq]
    simp
  · intro f
    rw [List.count_append, List.count_cons, (lampsOver_count I (some newConn) f _).2,
      List.count_eq_zero_of_not_mem (hjobs _ _ (hdown f)), hperm.countP_eq]
    simp
  · intro conn e hmem he
    simp only [List.mem_cons, reduceCtorEq, Action.send.injEq, and_false, false_or,
      List.mem_append] at hmem
    rcases hmem with hmem | hmem
    · obtain ⟨p, hp, f, hf⟩ := mem_lampsOver hmem
      rcases hf with ⟨h1, h2⟩ | ⟨h1, h2⟩
      · simp only [Action.send.injEq, Value.event.injEq] at h1
        obtain ⟨hc, rfl⟩ := h1
        exact ⟨hc, p, hperm.mem_iff.1 hp, Or.inl ⟨rfl, h2⟩⟩
      · simp only [Action.send.injEq, Value.event.injEq] at h1
        obtain ⟨hc, rfl⟩ := h1
        exact ⟨hc, p, hperm.mem_iff.1 hp, Or.inr ⟨rfl, h2⟩⟩
    · exact absurd hmem (hjobs conn e he)

/-- C9, as stated, fails: when two entries of the registry hold an up call at
floor 1, the joining peer is sent `TURN_ON_UP_LIGHT` at floor 1 twice. -/
theorem newConnection_lights_repeated :
    ¬ (∀ (I : Imports) (V : Visits) (st : State) (newConn : TCPConn), V.Valid →
        ∃ st' acts, newConnection I V st newConn = some (st', acts)
          ∧ ∀ f, (∃ p ∈ st'.emap, p.2.Uprun.get? f = some I.CALL) →
              acts.count (Action.send (some newConn) (Value.event ⟨TURN_ON_UP_LIGHT, f⟩)) = 1) := by
  intro h
  obtain ⟨st', acts, hrun, hall⟩ :=
    h Imports.sample Visits.stable stateTwoCalls ⟨3, 3⟩ visits_stable_valid
  have hev : newConnection Imports.sample Visits.stable stateTwoCalls ⟨3, 3⟩
      = some ((⟨[(1, ⟨⟨[0, 1, 0, 0], rfl⟩, Runs.zero, 1, STOP, some ⟨1, 1⟩⟩),
                 (2, ⟨⟨[0, 1, 0, 0], rfl⟩, Runs.zero, 3, STOP, some ⟨2, 2⟩⟩),
                 (3, ⟨Runs.zero, Runs.zero, 0, 0, some ⟨3, 3⟩⟩)],
                [], false, false, ElevatorStruct.zero⟩ : State),
          [Action.send (some ⟨3, 3⟩) (Value.int 3),
           Action.send (some ⟨3, 3⟩) (Value.event ⟨TURN_ON_UP_LIGHT, 1⟩),
           Action.send (some ⟨3, 3⟩) (Value.event ⟨TURN_ON_UP_LIGHT, 1⟩)]) := by
    decide
  rw [hev] at hrun
  simp only [Option.some.injEq, Prod.mk.injEq] at hrun
  obtain ⟨h1, h2⟩ := hrun
  subst h1 h2
  have h3 := hall 1 ⟨(1, ⟨⟨[0, 1, 0, 0], rfl⟩, Runs.zero, 1, STOP, some ⟨1, 1⟩⟩),
    List.mem_cons_self _ _, by decide⟩
  revert h3
  decide

theorem newConnection_lights_witness :
    ∃ st' acts, newConnection Imports.sample Visits.stable stateTwoCalls ⟨3, 3⟩ = some (st', acts)
      ∧ st'.emap = mapAssign stateTwoCalls.emap 3 ⟨Runs.zero, Runs.zero, 0, 0, some ⟨3, 3⟩⟩
      ∧ (∀ f, acts.count (Action.send (some ⟨3, 3⟩) (Value.event ⟨TURN_ON_UP_LIGHT, f⟩))
            = st'.emap.countP (fun p => decide (p.2.Uprun.get? f = some Imports.sample.CALL)))
      ∧ (∀ f, acts.count (Action.send (some ⟨3, 3⟩) (Value.event ⟨TURN_ON_DOWN_LIGHT, f⟩))
            = st'.emap.countP (fun p => decide (p.2.Downrun.get? f = some Imports.sample.CALL)))
      ∧ (∀ conn e, Action.send conn (Value.event e) ∈ acts → ¬ IsHallCall e →
          conn = some ⟨3, 3⟩ ∧ ∃ p ∈ st'.emap,
            (e.EventType = TURN_ON_UP_LIGHT ∧ p.2.Uprun.get? e.Floor = some Imports.sample.CALL)
              ∨ (e.EventType = TURN_ON_DOWN_LIGHT
                  ∧ p.2.Downrun.get? e.Floor = some Imports.sample.CALL)) :=
  newConnection_lights Imports.sample Visits.stable stateTwoCalls ⟨3, 3⟩ visits_stable_valid

/-! ## The `case ELEV_INFO` of `handleMessages` -/

theorem sendBackups_eq (emap : ElevatorMap) :
    ∀ xs : ElevatorMap,
      sendBackups emap xs = xs.map (fun p => Action.send p.2.Conn (Value.elevatorMap emap))
  | [] => rfl
  | (_, _) :: rest => by simp only [sendBackups, List.map_cons, sendBackups_eq emap rest]

/-- C10: an `ELEV_INFO` message from a session with IP `p` carrying the snapshot
`s` leaves the registry with `s`, its `Conn` rebound to the sender, under the
key `p` and with every other entry unchanged; one message carrying the updated
registry is sent to the connection of every entry of the updated registry, and
nothing else is sent. -/
theorem elevInfo_stored_and_broadcast (I : Imports) (V : Visits) (hV : V.Valid)
    (hd : I.TagsDistinct) (st : State) (m : Message) (b : Nat) (body : List Nat)
    (hm : m.Msg = b :: body) (htag : atoiByte b = I.ELEV_INFO) :
    ∃ st' acts, handleMessage I V st m = some (st', acts)
      ∧ mapFind st'.emap m.Sender.ip
          = some { I.DecodeElevatorStruct body with Conn := some m.Sender }
      ∧ (∀ a, a ≠ m.Sender.ip → mapFind st'.emap a = mapFind st.emap a)
      ∧ ((st.emap.map Prod.fst).Nodup → (st'.emap.map Prod.fst).Nodup)
      ∧ acts = (V.backups st'.emap).map
          (fun p => Action.send p.2.Conn (Value.elevatorMap st'.emap))
      ∧ acts.Perm (st'.emap.map (fun p => Action.send p.2.Conn (Value.elevatorMap st'.emap)))
      ∧ st'.backup = st.backup ∧ st'.receivedBackup = st.receivedBackup
      ∧ st'.DistributeBU = st.DistributeBU ∧ st'.BUelev = st.BUelev := by
  obtain ⟨h1, h2, _, h4, _, _⟩ := hd
  have hrun : handleMessage I V st m
      = some ((⟨mapAssign st.emap m.Sender.ip
                  { I.DecodeElevatorStruct body with Conn := some m.Sender },
                st.backup, st.receivedBackup, st.DistributeBU, st.BUelev⟩ : State),
          sendBackups (mapAssign st.emap m.Sender.ip
              { I.DecodeElevatorStruct body with Conn := some m.Sender })
            (V.backups (mapAssign st.emap m.Sender.ip
              { I.DecodeElevatorStruct body with Conn := some m.Sender }))) := by
    unfold handleMessage
    rw [hm]
    simp only [htag, if_neg (Ne.symm h2), if_neg (Ne.symm h4), if_true]
  refine ⟨_, _, hrun, mapFind_mapAssign_self _ _ _, fun a ha => mapFind_mapAssign_other _ _ ha,
    fun hn => keys_mapAssign _ _ _ hn, sendBackups_eq _ _, ?_, rfl, rfl, rfl, rfl⟩
  rw [sendBackups_eq]
  exact (hV.2.2.1 _).map _

theorem elevInfo_stored_and_broadcast_witness :
    ∃ st' acts, handleMessage Imports.sample Visits.stable stateS4 ⟨⟨5, 2⟩, [50, 2]⟩ = some (st', acts)
      ∧ mapFind st'.emap 2
          = some { Imports.sample.DecodeElevatorStruct [2] with Conn := some ⟨5, 2⟩ }
      ∧ (∀ a, a ≠ 2 → mapFind st'.emap a = mapFind stateS4.emap a)
      ∧ ((stateS4.emap.map Prod.fst).Nodup → (st'.emap.map Prod.fst).Nodup)
      ∧ acts = (Visits.stable.backups st'.emap).map
          (fun p => Action.send p.2.Conn (Value.elevatorMap st'.emap))
      ∧ acts.Perm (st'.emap.map (fun p => Action.send p.2.Conn (Value.elevatorMap st'.emap)))
      ∧ st'.backup = stateS4.backup ∧ st'.receivedBackup = stateS4.receivedBackup
      ∧ st'.DistributeBU = stateS4.DistributeBU ∧ st'.BUelev = stateS4.BUelev :=
  elevInfo_stored_and_broadcast Imports.sample Visits.stable visits_stable_valid (by decide)
    stateS4 ⟨⟨5, 2⟩, [50, 2]⟩ 50 [2] rfl (by decide)

/-! ## Scenarios S1, S2 and S3 of the specification, evaluated -/

theorem scenarios_evaluated :
    findMostSuitable ⟨BUTTON_CALL_UP, 1⟩
        [(1, ⟨Runs.zero, Runs.zero, 0, STOP, some ⟨1, 1⟩⟩),
         (2, ⟨Runs.zero, Runs.zero, 3, STOP, some ⟨2, 2⟩⟩)] = some (some ⟨1, 1⟩)
      ∧ findMostSuitable ⟨BUTTON_CALL_UP, 2⟩ fleetS2 = some none
      ∧ rangeLoop UP 3 Best.init [⟨Runs.zero, ⟨[1, 0, 0, 0], rfl⟩, 2, DOWN, some ⟨1, 1⟩⟩]
          = Flow.next ⟨5, some ⟨1, 1⟩, 0⟩ := by
  decide

/-! ## The dispatcher: when it assigns -/

theorem scanUp_range (r : Runs) (mf : Int) :
    ∀ (j : Nat) (m : Int), scanUp r mf j = some m → m = mf ∨ (0 ≤ m ∧ m < j)
  | 0, m, h => by
    simp only [scanUp, Option.some.injEq] at h
    exact Or.inl h.symm
  | j + 1, m, h => by
    simp only [scanUp] at h
    cases hv : r.get? (j : Int) with
    | none => rw [hv] at h; simp at h
    | some v =>
      rw [hv] at h
      simp only at h
      split at h
      · simp only [Option.some.injEq] at h
        right; push_cast; omega
      · rcases scanUp_range r mf j m h with h1 | h1
        · exact Or.inl h1
        · right; push_cast; omega

theorem scanDown_range (r : Runs) (mf : Int) :
    ∀ (k j : Nat) (m : Int), scanDown r mf k j = some m → m = mf ∨ ((j : Int) ≤ m ∧ m < j + k)
  | 0, _, m, h => by
    simp only [scanDown, Option.some.injEq] at h
    exact Or.inl h.symm
  | k + 1, j, m, h => by
    simp only [scanDown] at h
    cases hv : r.get? (j : Int) with
    | none => rw [hv] at h; simp at h
    | some v =>
      rw [hv] at h
      simp only at h
      split at h
      · simp only [Option.some.injEq] at h
        right; push_cast; omega
      · rcases scanDown_range r mf k (j + 1) m h with h1 | h1
        · exact Or.inl h1
        · right; push_cast at h1 ⊢; omega

theorem turnFloor_range (x : ElevatorStruct) {mf : Int} (h : -1 ≤ mf ∧ mf ≤ 3) :
    -1 ≤ turnFloor x mf ∧ turnFloor x mf ≤ 3 := by
  obtain ⟨mu, hmu⟩ := scanUp_total x.Uprun mf N_FLOORS (by decide)
  obtain ⟨md, hmd⟩ := scanDown_total x.Downrun mf N_FLOORS 0 (by decide)
  have h1 := scanUp_range x.Uprun mf N_FLOORS mu hmu
  have h2 := scanDown_range x.Downrun mf N_FLOORS 0 md hmd
  unfold N_FLOORS at h1 h2
  unfold turnFloor
  simp only [hmu, hmd, Option.getD_some]
  split_ifs <;> omega

/-- With the floors in range every cost the loop computes is at most 8, far
below the entry value 99999 of `bestDist`. -/
theorem costed_bound (dir ef : Int) (hf : FloorInRange ef) :
    ∀ (xs : List ElevatorStruct) (mf : Int), -1 ≤ mf ∧ mf ≤ 3 →
      (∀ x ∈ xs, FloorInRange x.Current_floor) →
      ∀ q ∈ costed dir ef mf xs, q.2 ≤ 8
  | [], _, _, _, q, hq => by simp [costed] at hq
  | x :: rest, mf, hmf, hin, q, hq => by
    have hx := hin x (List.mem_cons_self _ _)
    have ht := turnFloor_range x hmf
    unfold FloorInRange N_FLOORS at hx hf
    simp only [costed, List.mem_cons] at hq
    rcases hq with rfl | hq
    · simp only [costAt]
      split <;> omega
    · refine costed_bound dir ef hf rest (floorAt dir ef x mf) ?_
        (fun y hy => hin y (List.mem_cons_of_mem _ hy)) q hq
      unfold floorAt
      split <;> omega

/-- C19: for an event with its floor in range and a fleet with the current floors
in range, in every order of the visit: `findMostSuitable` returns `nil` when the
event is no hall call, when the fleet is empty and when some elevator has a
pending run at the target in the requested direction; in every other case it
returns the `Conn` of an elevator of the fleet, every cost computed being at
most 8 and so below the entry bound 99999.  For a fleet whose elevators all have
a connection the result is `nil` exactly in the three cases. -/
theorem findMostSuitable_nil_iff (e : Event) (fleet order : ElevatorMap)
    (hperm : order.Perm fleet) (hfloor : FloorInRange e.Floor)
    (hin : ∀ p ∈ fleet, FloorInRange p.2.Current_floor) :
    ((¬ IsHallCall e ∨ fleet = [] ∨ ∃ p ∈ fleet, AlreadyAssigned e p.2) →
        findMostSuitable e order = some none)
      ∧ (¬ (¬ IsHallCall e ∨ fleet = [] ∨ ∃ p ∈ fleet, AlreadyAssigned e p.2) →
        ∃ p ∈ fleet, findMostSuitable e order = some p.2.Conn)
      ∧ ((∀ p ∈ fleet, p.2.Conn ≠ none) →
        (findMostSuitable e order = some none ↔
          (¬ IsHallCall e ∨ fleet = [] ∨ ∃ p ∈ fleet, AlreadyAssigned e p.2)))
      ∧ (∀ q ∈ costed (wantedDir e) e.Floor (-1) (order.map Prod.snd), q.2 < 99999) := by
  have hbound : ∀ q ∈ costed (wantedDir e) e.Floor (-1) (order.map Prod.snd), q.2 ≤ 8 := by
    refine costed_bound (wantedDir e) e.Floor hfloor _ (-1) (by omega) ?_
    intro x hx
    obtain ⟨p, hp, rfl⟩ := List.mem_map.1 hx
    exact hin p (hperm.mem_iff.1 hp)
  have hnil : (¬ IsHallCall e ∨ fleet = [] ∨ ∃ p ∈ fleet, AlreadyAssigned e p.2) →
      findMostSuitable e order = some none := by
    rintro (h | h | h)
    · have h1 : ¬ e.EventType = BUTTON_CALL_UP := fun hc => h (Or.inl hc)
      have h2 : ¬ e.EventType = BUTTON_CALL_DOWN := fun hc => h (Or.inr hc)
      simp [findMostSuitable, h1, h2]
    · subst h
      have ho : order = [] := List.Perm.eq_nil hperm
      subst ho
      unfold findMostSuitable
      simp only [List.map_nil, rangeLoop, Best.init]
      split_ifs <;> rfl
    · by_cases hcall : IsHallCall e
      · have hasks := asks_of_isHallCall hcall
        obtain ⟨p, hp, ha⟩ := h
        have hs : ∃ x ∈ order.map Prod.snd, Suppressed (wantedDir e) e.Floor x :=
          ⟨p.2, List.mem_map_of_mem Prod.snd (hperm.mem_iff.2 hp), (suppressed_iff hasks p.2).2 ha⟩
        rw [findMostSuitable_eq hasks,
          rangeLoop_suppressed (wantedDir e) e.Floor hfloor.1 hfloor.2 _ Best.init hs]
      · have h1 : ¬ e.EventType = BUTTON_CALL_UP := fun hc => hcall (Or.inl hc)
        have h2 : ¬ e.EventType = BUTTON_CALL_DOWN := fun hc => hcall (Or.inr hc)
        simp [findMostSuitable, h1, h2]
  have hsome : ¬ (¬ IsHallCall e ∨ fleet = [] ∨ ∃ p ∈ fleet, AlreadyAssigned e p.2) →
      ∃ p ∈ fleet, findMostSuitable e order = some p.2.Conn := by
    intro h
    have hcall : IsHallCall e := by
      by_contra hc; exact h (Or.inl hc)
    have hne : fleet ≠ [] := fun hc => h (Or.inr (Or.inl hc))
    have hns : ∀ p ∈ order, ¬ AlreadyAssigned e p.2 :=
      fun p hp hc => h (Or.inr (Or.inr ⟨p, hperm.mem_iff.1 hp, hc⟩))
    have hasks := asks_of_isHallCall hcall
    obtain ⟨s', hres, hch⟩ := findMostSuitable_champion hasks hfloor order hns
    rcases hch with ⟨_, _, hall⟩ | ⟨k, hk, he, _, _, _, _⟩
    · exfalso
      obtain ⟨p0, hp0⟩ := List.exists_mem_of_ne_nil fleet hne
      obtain ⟨k, hk⟩ := costed_of_mem (wantedDir e) e.Floor (-1)
        (List.mem_map_of_mem Prod.snd (hperm.mem_iff.2 hp0))
      have h8 := hbound _ hk
      have h9 := (hall _ hk).1
      simp only [Best.init] at h9
      omega
    · obtain ⟨h1, _⟩ := costed_mem hk
      obtain ⟨p, hp, hpk⟩ := List.mem_map.1 h1
      exact ⟨p, hperm.mem_iff.1 hp, by rw [hres, he, hpk]⟩
  refine ⟨hnil, hsome, ?_, fun q hq => by have := hbound q hq; omega⟩
  intro hconn
  constructor
  · intro hres
    by_contra hc
    obtain ⟨p, hp, hp'⟩ := hsome hc
    rw [hres] at hp'
    exact hconn p hp (Option.some.inj hp').symm
  · exact hnil

theorem findMostSuitable_nil_iff_witness :
    ((¬ IsHallCall ⟨BUTTON_CALL_UP, 2⟩ ∨ fleetS2 = []
          ∨ ∃ p ∈ fleetS2, AlreadyAssigned ⟨BUTTON_CALL_UP, 2⟩ p.2) →
        findMostSuitable ⟨BUTTON_CALL_UP, 2⟩ fleetS2.reverse = some none)
      ∧ (¬ (¬ IsHallCall ⟨BUTTON_CALL_UP, 2⟩ ∨ fleetS2 = []
          ∨ ∃ p ∈ fleetS2, AlreadyAssigned ⟨BUTTON_CALL_UP, 2⟩ p.2) →
        ∃ p ∈ fleetS2, findMostSuitable ⟨BUTTON_CALL_UP, 2⟩ fleetS2.reverse = some p.2.Conn)
      ∧ ((∀ p ∈ fleetS2, p.2.Conn ≠ none) →
        (findMostSuitable ⟨BUTTON_CALL_UP, 2⟩ fleetS2.reverse = some none ↔
          (¬ IsHallCall ⟨BUTTON_CALL_UP, 2⟩ ∨ fleetS2 = []
            ∨ ∃ p ∈ fleetS2, AlreadyAssigned ⟨BUTTON_CALL_UP, 2⟩ p.2)))
      ∧ (∀ q ∈ costed (wantedDir ⟨BUTTON_CALL_UP, 2⟩) 2 (-1) (fleetS2.reverse.map Prod.snd),
          q.2 < 99999) :=
  findMostSuitable_nil_iff ⟨BUTTON_CALL_UP, 2⟩ fleetS2 fleetS2.reverse (List.reverse_perm _)
    (by decide) (by decide)

/-- C20: the cost computed for one elevator depends on the elevators visited
before it.  In `fleetStale`, for an up call at floor 0, elevator A (going down
with no pending down run) is costed 3 when it is visited after C, from the value
3 that C left in `maxFloor`, and 5 when it is visited first, from the entry
value -1; the loop ends with `bestDist` 3 and the connection of A in one order,
and with `bestDist` 4 and the connection of C in the other. -/
theorem rangeLoop_order_dependent :
    costed UP 0 (-1) (fleetStale.map Prod.snd)
        = [(⟨⟨[0, 0, 0, 1], rfl⟩, Runs.zero, 2, UP, some ⟨3, 3⟩⟩, 4),
           (⟨Runs.zero, Runs.zero, 3, DOWN, some ⟨1, 1⟩⟩, 3)]
      ∧ costed UP 0 (-1) (fleetStale.reverse.map Prod.snd)
        = [(⟨Runs.zero, Runs.zero, 3, DOWN, some ⟨1, 1⟩⟩, 5),
           (⟨⟨[0, 0, 0, 1], rfl⟩, Runs.zero, 2, UP, some ⟨3, 3⟩⟩, 4)]
      ∧ rangeLoop UP 0 Best.init (fleetStale.map Prod.snd) = Flow.next ⟨3, some ⟨1, 1⟩, 3⟩
      ∧ rangeLoop UP 0 Best.init (fleetStale.reverse.map Prod.snd) = Flow.next ⟨4, some ⟨3, 3⟩, 3⟩
      ∧ fleetStale.reverse.Perm fleetStale := by
  refine ⟨by decide, by decide, by decide, by decide, List.reverse_perm _⟩

/-! ## The `case EVENT` of `handleMessages` for a hall call -/

theorem sendsOf_append (a b : List Action) : sendsOf (a ++ b) = sendsOf a ++ sendsOf b := by
  induction a with
  | nil => rfl
  | cons x a ih => cases x <;> simp [sendsOf, ih]

theorem sendsOf_lightOn {e : Event} (h : IsHallCall e) :
    ∀ xs : ElevatorMap,
      sendsOf (lightOn e xs) = xs.map (fun p => (p.2.Conn, Value.event (lightFor e)))
  | [] => rfl
  | (_, x) :: rest => by
    have ih := sendsOf_lightOn h rest
    rcases h with h | h
    · simp [lightOn, lightFor, h, sendsOf, ih]
    · simp [lightOn, lightFor, h, sendsOf, ih]

theorem dispatched_lightOn (e : Event) : ∀ xs : ElevatorMap, dispatched (lightOn e xs) = []
  | [] => rfl
  | (_, x) :: rest => by
    have ih := dispatched_lightOn e rest
    simp only [lightOn]
    split_ifs <;> simp [dispatched, ih]

theorem handleEvent_hallCall (V : Visits) (st : State) (e : Event) (hcall : IsHallCall e)
    (r : Option TCPConn) (hr : findMostSuitable e (V.dispatch e st.emap) = some r) :
    handleEvent V st e = some (hallCallActs V st e r) := by
  have hcall' : e.EventType = BUTTON_CALL_UP ∨ e.EventType = BUTTON_CALL_DOWN := hcall
  have hnd : ¬ e.EventType = JOB_DONE := by
    rcases hcall with h | h <;> rw [h] <;> decide
  unfold handleEvent
  rw [if_pos hcall', hr, if_neg hnd]
  cases r <;> simp [hallCallActs]

/-- C11: an `EVENT` message that carries a hall call `e` with its floor in range
leaves the registry, and the whole state, unchanged and calls the dispatcher
once; when the dispatcher returns a peer `c` the messages sent are `e` to `c`
followed by the light-on event of `e` to the connection of every entry of the
registry, one per entry; when it returns `nil` no message is sent. -/
theorem hallCall_assigned_and_lit (I : Imports) (V : Visits) (hV : V.Valid)
    (hd : I.TagsDistinct) (st : State) (m : Message) (b : Nat) (body : List Nat)
    (hm : m.Msg = b :: body) (htag : atoiByte b = I.EVENT)
    (hcall : IsHallCall (I.DecodeEvent body)) (hfloor : FloorInRange (I.DecodeEvent body).Floor) :
    ∃ acts, handleMessage I V st m = some (st, acts)
      ∧ dispatched acts = [I.DecodeEvent body]
      ∧ (V.lights st.emap).Perm st.emap
      ∧ (∀ c, findMostSuitable (I.DecodeEvent body) (V.dispatch (I.DecodeEvent body) st.emap)
            = some (some c) →
          sendsOf acts = (some c, Value.event (I.DecodeEvent body))
            :: (V.lights st.emap).map
                (fun p => (p.2.Conn, Value.event (lightFor (I.DecodeEvent body)))))
      ∧ (findMostSuitable (I.DecodeEvent body) (V.dispatch (I.DecodeEvent body) st.emap)
            = some none → sendsOf acts = []) := by
  obtain ⟨h1, _, _, _, _, _⟩ := hd
  obtain ⟨r, hr⟩ := findMostSuitable_total (I.DecodeEvent body)
    (V.dispatch (I.DecodeEvent body) st.emap) hfloor
  have hrun : handleMessage I V st m
      = some (st, hallCallActs V st (I.DecodeEvent body) r) := by
    unfold handleMessage
    rw [hm]
    simp only [htag, if_neg (Ne.symm h1), if_true, handleEvent_hallCall V st _ hcall r hr]
  refine ⟨_, hrun, ?_, hV.2.1 _, ?_, ?_⟩
  · cases r with
    | none => rfl
    | some c => simp [hallCallActs, dispatched, dispatched_lightOn]
  · intro c hc
    rw [hr] at hc
    have hrc : r = some c := Option.some.inj hc
    subst hrc
    simp only [hallCallActs, sendsOf, sendsOf_lightOn hcall]
  · intro hc
    rw [hr] at hc
    have hrc : r = none := Option.some.inj hc
    subst hrc
    rfl

theorem hallCall_assigned_and_lit_witness :
    ∃ acts, handleMessage Imports.sample Visits.stable stateS4 ⟨⟨1, 1⟩, [49, 0, 2]⟩
          = some (stateS4, acts)
      ∧ dispatched acts = [Imports.sample.DecodeEvent [0, 2]]
      ∧ (Visits.stable.lights stateS4.emap).Perm stateS4.emap
      ∧ (∀ c, findMostSuitable (Imports.sample.DecodeEvent [0, 2])
              (Visits.stable.dispatch (Imports.sample.DecodeEvent [0, 2]) stateS4.emap)
            = some (some c) →
          sendsOf acts = (some c, Value.event (Imports.sample.DecodeEvent [0, 2]))
            :: (Visits.stable.lights stateS4.emap).map
                (fun p => (p.2.Conn, Value.event (lightFor (Imports.sample.DecodeEvent [0, 2])))))
      ∧ (findMostSuitable (Imports.sample.DecodeEvent [0, 2])
              (Visits.stable.dispatch (Imports.sample.DecodeEvent [0, 2]) stateS4.emap)
            = some none → sendsOf acts = []) :=
  hallCall_assigned_and_lit Imports.sample Visits.stable visits_stable_valid (by decide)
    stateS4 ⟨⟨1, 1⟩, [49, 0, 2]⟩ 49 [0, 2] rfl (by decide) (by decide) (by decide)

/-! ## The messages of a redistribution -/

/-- C12: the code in scenario S4.  When B, holding an up call at floor 2, is lost,
the dispatcher assigns the call to the remaining peer A, and the transition
sends A the order and its queue number and nothing else: no `TURN_ON_UP_LIGHT`
at floor 2 goes to A, the only remaining peer.  The same hall call arriving as
an `EVENT` message at the remaining fleet is sent to A followed by the light-on
event to A. -/
theorem lostConnection_sends_no_light :
    lostConnection Imports.sample Visits.stable stateS4 ⟨2, 2⟩
        = some ((⟨[(1, ⟨Runs.zero, Runs.zero, 1, STOP, some ⟨1, 1⟩⟩)], [], false, false,
                  ElevatorStruct.zero⟩ : State),
            [Action.dispatch ⟨BUTTON_CALL_UP, 2⟩
                [(1, ⟨Runs.zero, Runs.zero, 1, STOP, some ⟨1, 1⟩⟩)],
             Action.send (some ⟨1, 1⟩) (Value.event ⟨BUTTON_CALL_UP, 2⟩),
             Action.send (some ⟨1, 1⟩) (Value.int 1)])
      ∧ findMostSuitable ⟨BUTTON_CALL_UP, 2⟩ [(1, ⟨Runs.zero, Runs.zero, 1, STOP, some ⟨1, 1⟩⟩)]
          = some (some ⟨1, 1⟩)
      ∧ (handleMessage Imports.sample Visits.stable
            (⟨[(1, ⟨Runs.zero, Runs.zero, 1, STOP, some ⟨1, 1⟩⟩)], [], false, false,
              ElevatorStruct.zero⟩ : State) ⟨⟨1, 1⟩, [49, 0, 2]⟩).map (fun r => sendsOf r.2)
          = some [(some ⟨1, 1⟩, Value.event ⟨BUTTON_CALL_UP, 2⟩),
                  (some ⟨1, 1⟩, Value.event ⟨TURN_ON_UP_LIGHT, 2⟩)] := by
  decide

/-- C13: `DistributeJobs` calls `SendMessage` with the `nil` the dispatcher
returned.  With an empty registry (a backup was received and nobody connected)
the up call at floor 0 of the missing peer 7 is sent to `nil`, from
`DistributeJobs` as from `checkForBackup`; and when B is lost while A already
heads for floor 2, the up call of B at floor 2 is sent to `nil` before the queue
number goes to A. -/
theorem DistributeJobs_sends_to_nil :
    DistributeJobs Imports.sample Visits.stable.dispatch []
        ⟨⟨[1, 0, 0, 0], rfl⟩, Runs.zero, 0, STOP, none⟩
        = some [Action.dispatch ⟨BUTTON_CALL_UP, 0⟩ [],
                Action.send none (Value.event ⟨BUTTON_CALL_UP, 0⟩)]
      ∧ checkForBackup Imports.sample Visits.stable stateAlone
        = some [Action.dispatch ⟨BUTTON_CALL_UP, 0⟩ [],
                Action.send none (Value.event ⟨BUTTON_CALL_UP, 0⟩)]
      ∧ (lostConnection Imports.sample Visits.stable stateHeading ⟨2, 2⟩).map Prod.snd
        = some [Action.dispatch ⟨BUTTON_CALL_UP, 2⟩
                  [(1, ⟨⟨[0, 0, 1, 0], rfl⟩, Runs.zero, 0, UP, some ⟨1, 1⟩⟩)],
                Action.send none (Value.event ⟨BUTTON_CALL_UP, 2⟩),
                Action.send (some ⟨1, 1⟩) (Value.int 1)] := by
  decide

/-! ## Messages without a recognised tag -/

theorem handleMessage_unrecognised (I : Imports) (V : Visits) (st : State) (sender : TCPConn)
    (b : Nat) (body : List Nat) (h1 : atoiByte b ≠ I.HANDSHAKE) (h2 : atoiByte b ≠ I.EVENT)
    (h3 : atoiByte b ≠ I.ELEV_INFO) (h4 : atoiByte b ≠ I.BACKUP) :
    handleMessage I V st ⟨sender, b :: body⟩ = some (st, []) := by
  simp only [handleMessage, if_neg h1, if_neg h2, if_neg h3, if_neg h4]

theorem atoiByte_not_digit (b : Nat) (h : b < 48 ∨ 57 < b) : atoiByte b = 0 := by
  unfold atoiByte
  rw [if_neg (by omega)]

/-- C16: a message with an empty payload makes `handleMessages` index `m.Msg[0]`
out of range: the iteration panics, whatever the state. -/
theorem handleMessage_empty_payload (I : Imports) (V : Visits) (st : State) (sender : TCPConn) :
    handleMessage I V st ⟨sender, []⟩ = none ∧ handleMessages I V st [⟨sender, []⟩] = none :=
  ⟨rfl, rfl⟩

/-! ## The loss of the whole fleet and the next connection -/

theorem zero_not_pending (f : Int) : ¬ Pending Runs.zero f := by
  by_cases h : 0 ≤ f ∧ f < 4
  · obtain ⟨h0, h1⟩ := h
    interval_cases f <;> decide
  · have : Runs.zero.get? f = none := Runs.zero.get?_outside (by omega)
    simp [Pending, this]

/-- For a fleet of one idle elevator at floor 0 without runs the dispatcher
returns its connection. -/
theorem findMostSuitable_fresh (job : Event) (hcall : IsHallCall job)
    (hfloor : FloorInRange job.Floor) (k : Nat) (conn : Option TCPConn) :
    findMostSuitable job [(k, ⟨Runs.zero, Runs.zero, 0, 0, conn⟩)] = some conn := by
  have hasks := asks_of_isHallCall hcall
  have hns : ∀ p ∈ [(k, (⟨Runs.zero, Runs.zero, 0, 0, conn⟩ : ElevatorStruct))],
      ¬ AlreadyAssigned job p.2 := by
    intro p hp
    simp only [List.mem_singleton] at hp
    subst hp
    rintro (⟨_, h⟩ | ⟨_, h⟩) <;> exact zero_not_pending _ h
  obtain ⟨s', hres, hch⟩ := findMostSuitable_champion hasks hfloor _ hns
  have hbound := costed_bound (wantedDir job) job.Floor hfloor
    [(⟨Runs.zero, Runs.zero, 0, 0, conn⟩ : ElevatorStruct)] (-1) (by omega)
    (by intro x hx
        simp only [List.mem_singleton] at hx
        subst hx
        exact ⟨le_refl _, by simp [N_FLOORS]⟩)
  simp only [List.map_cons, List.map_nil] at hch
  rcases hch with ⟨_, _, hall⟩ | ⟨p, hp, he, _, _, _, _⟩
  · exfalso
    simp only [costed] at hall hbound
    have h8 := hbound _ (List.mem_singleton.2 rfl)
    have h9 := (hall _ (List.mem_singleton.2 rfl)).1
    simp only [Best.init] at h9
    omega
  · simp only [costed, List.mem_singleton] at hp
    rw [hres, he, hp]

theorem ordersSent_append (a b : List Action) :
    ordersSent (a ++ b) = ordersSent a ++ ordersSent b := by
  induction a with
  | nil => rfl
  | cons x a ih =>
    cases x with
    | dispatch e v => simp [ordersSent, ih]
    | send c v =>
      cases v with
      | event e =>
        by_cases h : IsHallCall e <;> simp [ordersSent, ih, h]
      | int n => simp [ordersSent, ih]
      | elevatorMap m => simp [ordersSent, ih]

theorem ordersSent_lamps (a : List Action)
    (h : ∀ conn e, Action.send conn (Value.event e) ∈ a → ¬ IsHallCall e) : ordersSent a = [] := by
  induction a with
  | nil => rfl
  | cons x a ih =>
    have ih' := ih (fun conn e hm => h conn e (List.mem_cons_of_mem _ hm))
    cases x with
    | dispatch e v => simp [ordersSent, ih']
    | send c v =>
      cases v with
      | event e =>
        have hn := h c e (List.mem_cons_self _ _)
        simp [ordersSent, ih', hn]
      | int n => simp [ordersSent, ih']
      | elevatorMap m => simp [ordersSent, ih']

theorem ordersSent_lampsOver (I : Imports) (c : Option TCPConn) (xs : ElevatorMap) :
    ordersSent (lampsOver I c xs) = [] := by
  apply ordersSent_lamps
  intro conn e hmem hcall
  obtain ⟨p, _, f, hf⟩ := mem_lampsOver hmem
  rcases hf with ⟨h1, _⟩ | ⟨h1, _⟩
  · simp only [Action.send.injEq, Value.event.injEq] at h1
    rw [h1.2] at hcall
    rcases hcall with hc | hc <;> simp at hc
  · simp only [Action.send.injEq, Value.event.injEq] at h1
    rw [h1.2] at hcall
    rcases hcall with hc | hc <;> simp at hc

theorem ordersSent_redispatched (visit : Event → ElevatorMap → ElevatorMap) (emap : ElevatorMap) :
    ∀ jobs : List Event, (∀ job ∈ jobs, IsHallCall job) →
      ordersSent (redispatched visit emap jobs)
        = jobs.map (fun job => ((findMostSuitable job (visit job emap)).getD none, job))
  | [], _ => rfl
  | job :: rest, h => by
    have ih := ordersSent_redispatched visit emap rest
      (fun j hj => h j (List.mem_cons_of_mem _ hj))
    have hj := h job (List.mem_cons_self _ _)
    simp [redispatched, ordersSent, hj, ih]

theorem jobsFrom_floor (I : Imports) (elev : ElevatorStruct) {e : Event} :
    ∀ (k i : Nat), e ∈ jobsFrom I elev k i → (i : Int) ≤ e.Floor ∧ e.Floor < (i : Int) + k
  | 0, _, h => by simp [jobsFrom] at h
  | k + 1, i, h => by
    simp only [jobsFrom, List.mem_append] at h
    rcases h with (h | h) | h
    · split at h
      · simp only [List.mem_singleton] at h
        rw [h]; push_cast; constructor <;> simp
      · simp at h
    · split at h
      · simp only [List.mem_singleton] at h
        rw [h]; push_cast; constructor <;> simp
      · simp at h
    · have := jobsFrom_floor I elev k (i + 1) h
      push_cast at this ⊢
      omega

theorem count_pair_map (c : Option TCPConn) (b : Event) :
    ∀ l : List Event, (l.map (fun x => (c, x))).count (c, b) = l.count b
  | [] => rfl
  | x :: rest => by
    have ih := count_pair_map c b rest
    by_cases h : x = b
    · simp [List.count_cons, ih, h]
    · simp [List.count_cons, ih, h]

theorem dispatched_of_sends (a : List Action) (h : ∀ e v, Action.dispatch e v ∉ a) :
    dispatched a = [] := by
  induction a with
  | nil => rfl
  | cons x a ih =>
    have ih' := ih (fun e v hm => h e v (List.mem_cons_of_mem _ hm))
    cases x with
    | dispatch e v => exact absurd (List.mem_cons_self _ _) (h e v)
    | send c v => simp [dispatched, ih']

theorem dispatched_lampsOver (I : Imports) (c : Option TCPConn) (xs : ElevatorMap) :
    dispatched (lampsOver I c xs) = [] := by
  apply dispatched_of_sends
  intro e v hmem
  obtain ⟨p, _, f, hf⟩ := mem_lampsOver hmem
  rcases hf with ⟨h1, _⟩ | ⟨h1, _⟩ <;> simp at h1

/-- C14: when the only peer of the fleet, holding the snapshot `s`, is lost, the
transition sends nothing, empties the registry, sets `DistributeBU` and stashes
`s`.  At the next new connection the joining peer is first sent its queue number
1 and then, as the only orders, one `BUTTON_CALL_UP` at `f` for every floor with
`s.Uprun[f] == CALL` and one `BUTTON_CALL_DOWN` at `f` for every floor with
`s.Downrun[f] == CALL`; the flag is cleared, and a further new connection calls
the dispatcher for nothing and sends no order. -/
theorem fullLoss_then_rejoin (I : Imports) (V V' : Visits) (hV : V'.Valid) (st : State)
    (lostConn newConn : TCPConn) (s : ElevatorStruct) (hone : st.emap = [(lostConn.ip, s)]) :
    ∃ st1, lostConnection I V st lostConn = some (st1, [])
      ∧ st1.emap = [] ∧ st1.DistributeBU = true ∧ st1.BUelev = s
      ∧ ∃ st2 acts, newConnection I V' st1 newConn = some (st2, acts)
        ∧ acts.head? = some (Action.send (some newConn) (Value.int 1))
        ∧ ordersSent acts = (jobsFrom I s N_FLOORS 0).map (fun job => (some newConn, job))
        ∧ (∀ f,
            (s.Uprun.get? f = some I.CALL →
              (ordersSent acts).count (some newConn, ⟨BUTTON_CALL_UP, f⟩) = 1)
            ∧ (s.Downrun.get? f = some I.CALL →
              (ordersSent acts).count (some newConn, ⟨BUTTON_CALL_DOWN, f⟩) = 1)
            ∧ (s.Uprun.get? f ≠ some I.CALL →
              (ordersSent acts).count (some newConn, ⟨BUTTON_CALL_UP, f⟩) = 0)
            ∧ (s.Downrun.get? f ≠ some I.CALL →
              (ordersSent acts).count (some newConn, ⟨BUTTON_CALL_DOWN, f⟩) = 0))
        ∧ (∀ conn e, (conn, e) ∈ ordersSent acts → conn = some newConn ∧ IsHallCall e)
        ∧ st2.DistributeBU = false
        ∧ ∀ (W : Visits) (next : TCPConn), ∃ st3 acts3,
            newConnection I W st2 next = some (st3, acts3)
              ∧ dispatched acts3 = [] ∧ ordersSent acts3 = [] := by
  have hdel : mapDelete st.emap lostConn.ip = [] := by simp [hone, mapDelete]
  have hidx : mapIndex st.emap lostConn.ip = s := by simp [hone, mapIndex, mapFind]
  have hl : lostConnection I V st lostConn
      = some ((⟨[], st.backup, st.receivedBackup, true, s⟩ : State), []) := by
    rw [lostConnection_eq, if_pos hdel, hdel, hidx]
  refine ⟨_, hl, rfl, rfl, rfl, ?_⟩
  have hfresh : ∀ job ∈ jobsFrom I s N_FLOORS 0,
      (findMostSuitable job (V'.dispatch job
          [(newConn.ip, ⟨Runs.zero, Runs.zero, 0, 0, some newConn⟩)])).getD none
        = some newConn := by
    intro job hjob
    have hp := hV.1 job [(newConn.ip, ⟨Runs.zero, Runs.zero, 0, 0, some newConn⟩)]
    rw [List.perm_singleton.1 hp]
    have hfl := jobsFrom_floor I s _ _ hjob
    rw [findMostSuitable_fresh job (jobsFrom_hallCall I s _ _ hjob)
      ⟨by omega, by unfold N_FLOORS at hfl ⊢; omega⟩]
    rfl
  have horders : ordersSent
      ((Action.send (some newConn) (Value.int 1)
          :: lampsOver I (some newConn)
              (V'.lights [(newConn.ip, ⟨Runs.zero, Runs.zero, 0, 0, some newConn⟩)]))
        ++ redispatched V'.dispatch [(newConn.ip, ⟨Runs.zero, Runs.zero, 0, 0, some newConn⟩)]
            (jobsFrom I s N_FLOORS 0))
      = (jobsFrom I s N_FLOORS 0).map (fun job => (some newConn, job)) := by
    rw [ordersSent_append, ordersSent_redispatched _ _ _ (fun j hj => jobsFrom_hallCall I s _ _ hj)]
    simp only [ordersSent, ordersSent_lampsOver, List.nil_append]
    exact List.map_congr_left (fun job hjob => by rw [hfresh job hjob])
  refine ⟨_, _, newConnection_eq I V' _ newConn, ?_, ?_, ?_, ?_, rfl, ?_⟩
  · simp [mapAssign, mapDelete]
  · simpa [mapAssign, mapDelete] using horders
  · intro f
    have hcount : ∀ ev : Event,
        (ordersSent ((Action.send (some newConn) (Value.int 1)
            :: lampsOver I (some newConn)
                (V'.lights [(newConn.ip, ⟨Runs.zero, Runs.zero, 0, 0, some newConn⟩)]))
          ++ redispatched V'.dispatch
              [(newConn.ip, ⟨Runs.zero, Runs.zero, 0, 0, some newConn⟩)]
              (jobsFrom I s N_FLOORS 0))).count (some newConn, ev)
          = (jobsFrom I s N_FLOORS 0).count ev := by
      intro ev
      rw [horders]
      exact count_pair_map (some newConn) ev _
    obtain ⟨h1, h2⟩ := jobsFrom_count I s N_FLOORS 0 f
    simp only [mapAssign, mapDelete, List.filter_nil, List.nil_append, List.length_singleton,
      Nat.cast_one, if_true, hcount, h1, h2]
    refine ⟨fun h => ?_, fun h => ?_, fun h => ?_, fun h => ?_⟩
    · rw [if_pos ⟨(get?_call_inRange h).1, (get?_call_inRange h).2, h⟩]
    · rw [if_pos ⟨(get?_call_inRange h).1, (get?_call_inRange h).2, h⟩]
    · rw [if_neg (fun hc => h hc.2.2)]
    · rw [if_neg (fun hc => h hc.2.2)]
  · intro conn e hmem
    simp only [mapAssign, mapDelete, List.filter_nil, List.nil_append, List.length_singleton,
      Nat.cast_one, if_true, horders, List.mem_map, Prod.mk.injEq] at hmem
    obtain ⟨job, hjob, hc, rfl⟩ := hmem
    exact ⟨hc.symm, jobsFrom_hallCall I s _ _ hjob⟩
  · intro W next
    refine ⟨_, _, newConnection_eq I W _ next, ?_, ?_⟩
    · simp [dispatched_append, dispatched, dispatched_lampsOver]
    · simp [ordersSent_append, ordersSent, ordersSent_lampsOver]

theorem fullLoss_then_rejoin_witness :
    ∃ st1, lostConnection Imports.sample Visits.stable stateS6 ⟨1, 1⟩ = some (st1, [])
      ∧ st1.emap = [] ∧ st1.DistributeBU = true
      ∧ st1.BUelev = ⟨⟨[1, 0, 0, 0], rfl⟩, Runs.zero, 0, STOP, some ⟨1, 1⟩⟩
      ∧ ∃ st2 acts, newConnection Imports.sample Visits.stable st1 ⟨2, 2⟩ = some (st2, acts)
        ∧ acts.head? = some (Action.send (some ⟨2, 2⟩) (Value.int 1))
        ∧ ordersSent acts
            = (jobsFrom Imports.sample ⟨⟨[1, 0, 0, 0], rfl⟩, Runs.zero, 0, STOP, some ⟨1, 1⟩⟩
                N_FLOORS 0).map (fun job => (some ⟨2, 2⟩, job))
        ∧ (∀ f,
            ((⟨[1, 0, 0, 0], rfl⟩ : Runs).get? f = some Imports.sample.CALL →
              (ordersSent acts).count (some ⟨2, 2⟩, ⟨BUTTON_CALL_UP, f⟩) = 1)
            ∧ (Runs.zero.get? f = some Imports.sample.CALL →
              (ordersSent acts).count (some ⟨2, 2⟩, ⟨BUTTON_CALL_DOWN, f⟩) = 1)
            ∧ ((⟨[1, 0, 0, 0], rfl⟩ : Runs).get? f ≠ some Imports.sample.CALL →
              (ordersSent acts).count (some ⟨2, 2⟩, ⟨BUTTON_CALL_UP, f⟩) = 0)
            ∧ (Runs.zero.get? f ≠ some Imports.sample.CALL →
              (ordersSent acts).count (some ⟨2, 2⟩, ⟨BUTTON_CALL_DOWN, f⟩) = 0))
        ∧ (∀ conn e, (conn, e) ∈ ordersSent acts → conn = some ⟨2, 2⟩ ∧ IsHallCall e)
        ∧ st2.DistributeBU = false
        ∧ ∀ (W : Visits) (next : TCPConn), ∃ st3 acts3,
            newConnection Imports.sample W st2 next = some (st3, acts3)
              ∧ dispatched acts3 = [] ∧ ordersSent acts3 = [] :=
  fullLoss_then_rejoin Imports.sample Visits.stable Visits.stable visits_stable_valid stateS6
    ⟨1, 1⟩ ⟨2, 2⟩ ⟨⟨[1, 0, 0, 0], rfl⟩, Runs.zero, 0, STOP, some ⟨1, 1⟩⟩ rfl

/-! ## `checkForBackup` -/

theorem reconcileOver_eq (I : Imports) (V : Visits) (emap : ElevatorMap) :
    ∀ xs : ElevatorMap, reconcileOver I V emap xs = some (reconciled I V emap xs)
  | [] => rfl
  | (addr, elev) :: rest => by
    simp only [reconcileOver, reconciled, reconcileOver_eq I V emap rest, DistributeJobs_eq]
    by_cases h : (mapFind emap addr).isSome = true
    · simp only [if_pos h]
    · simp only [if_neg h]

theorem dispatched_reconciled (I : Imports) (V : Visits) (emap : ElevatorMap) :
    ∀ xs : ElevatorMap,
      dispatched (reconciled I V emap xs) = (orphanJobs I emap xs).map Prod.snd
  | [] => rfl
  | (addr, elev) :: rest => by
    simp only [reconciled, orphanJobs, dispatched_append, List.map_append,
      dispatched_reconciled I V emap rest]
    split
    · rfl
    · simp [dispatched_redispatched, Function.comp_def]

theorem mem_orphanJobs (I : Imports) (emap : ElevatorMap) {addr : Nat} {e : Event} :
    ∀ {xs : ElevatorMap}, (addr, e) ∈ orphanJobs I emap xs →
      mapFind emap addr = none ∧ ∃ elev, (addr, elev) ∈ xs ∧ e ∈ jobsFrom I elev N_FLOORS 0
  | [], h => by simp [orphanJobs] at h
  | (a, x) :: rest, h => by
    simp only [orphanJobs, List.mem_append] at h
    rcases h with h | h
    · split at h
      · simp at h
      · rename_i hn
        simp only [List.mem_map, Prod.mk.injEq] at h
        obtain ⟨job, hjob, rfl, rfl⟩ := h
        refine ⟨?_, x, List.mem_cons_self _ _, hjob⟩
        cases hf : mapFind emap a with
        | none => rfl
        | some v => rw [hf] at hn; simp at hn
    · obtain ⟨h1, elev, h2, h3⟩ := mem_orphanJobs I emap h
      exact ⟨h1, elev, List.mem_cons_of_mem _ h2, h3⟩

theorem count_key_map (a addr : Nat) (e : Event) (h : a ≠ addr) :
    ∀ l : List Event, (l.map (fun x => (a, x))).count (addr, e) = 0
  | [] => rfl
  | x :: rest => by
    have ih := count_key_map a addr e h rest
    simp [List.count_cons, ih, h]

theorem count_same_key_map (a : Nat) (e : Event) :
    ∀ l : List Event, (l.map (fun x => (a, x))).count (a, e) = l.count e
  | [] => rfl
  | x :: rest => by
    have ih := count_same_key_map a e rest
    by_cases h : x = e
    · simp [List.count_cons, ih, h]
    · simp [List.count_cons, ih, h]

/-- With the keys of the backup pairwise different, the dispatcher is called for
an entry that is missing from the live registry as often as the event occurs
among the jobs of that entry. -/
theorem orphanJobs_count (I : Imports) (emap : ElevatorMap) (addr : Nat) (elev : ElevatorStruct)
    (e : Event) (hmiss : mapFind emap addr = none) :
    ∀ xs : ElevatorMap, (xs.map Prod.fst).Nodup → (addr, elev) ∈ xs →
      (orphanJobs I emap xs).count (addr, e) = (jobsFrom I elev N_FLOORS 0).count e
  | [], _, h => by simp at h
  | (a, x) :: rest, hnd, h => by
    simp only [List.map_cons, List.nodup_cons] at hnd
    simp only [orphanJobs, List.count_append]
    rcases List.mem_cons.1 h with heq | hin
    · simp only [Prod.mk.injEq] at heq
      obtain ⟨rfl, rfl⟩ := heq
      have hrest : (orphanJobs I emap rest).count (addr, e) = 0 := by
        apply List.count_eq_zero_of_not_mem
        intro hc
        obtain ⟨_, el, hel, _⟩ := mem_orphanJobs I emap hc
        exact hnd.1 (List.mem_map.2 ⟨(addr, el), hel, rfl⟩)
      simp [hmiss, hrest, count_same_key_map]
    · have hne : a ≠ addr := by
        intro hc
        subst hc
        exact hnd.1 (List.mem_map.2 ⟨(a, elev), hin, rfl⟩)
      rw [orphanJobs_count I emap addr elev e hmiss rest hnd.2 hin]
      split
      · simp
      · simp [count_key_map a addr e hne]

theorem mem_redispatched_visit {visit : Event → ElevatorMap → ElevatorMap} {emap : ElevatorMap}
    {e : Event} {visited : ElevatorMap} :
    ∀ {jobs : List Event}, Action.dispatch e visited ∈ redispatched visit emap jobs →
      visited = visit e emap
  | [], h => by simp [redispatched] at h
  | job :: rest, h => by
    simp only [redispatched, List.mem_cons, Action.dispatch.injEq, reduceCtorEq, false_or] at h
    rcases h with ⟨rfl, h⟩ | h
    · exact h
    · exact mem_redispatched_visit h

theorem mem_reconciled_visit (I : Imports) (V : Visits) (hV : V.Valid) (emap : ElevatorMap)
    {e : Event} {visited : ElevatorMap} :
    ∀ {xs : ElevatorMap}, Action.dispatch e visited ∈ reconciled I V emap xs →
      visited.Perm emap
  | [], h => by simp [reconciled] at h
  | (a, x) :: rest, h => by
    simp only [reconciled, List.mem_append] at h
    rcases h with h | h
    · split at h
      · simp at h
      · rw [mem_redispatched_visit h]
        exact hV.2.2.2.2.2 a e emap
    · exact mem_reconciled_visit I V hV emap h

theorem mem_jobsFrom (I : Imports) (elev : ElevatorStruct) {e : Event}
    (h : e ∈ jobsFrom I elev N_FLOORS 0) :
    (e.EventType = BUTTON_CALL_UP ∧ elev.Uprun.get? e.Floor = some I.CALL)
      ∨ (e.EventType = BUTTON_CALL_DOWN ∧ elev.Downrun.get? e.Floor = some I.CALL) := by
  have hpos : 0 < (jobsFrom I elev N_FLOORS 0).count e := List.count_pos_iff.2 h
  obtain ⟨h1, h2⟩ := jobsFrom_count I elev N_FLOORS 0 e.Floor
  rcases jobsFrom_hallCall I elev _ _ h with hc | hc
  · left
    refine ⟨hc, ?_⟩
    have he : e = ⟨BUTTON_CALL_UP, e.Floor⟩ := by cases e; simp_all
    rw [he, h1] at hpos
    by_contra hn
    rw [if_neg (fun hx => hn hx.2.2)] at hpos
    exact absurd hpos (by decide)
  · right
    refine ⟨hc, ?_⟩
    have he : e = ⟨BUTTON_CALL_DOWN, e.Floor⟩ := by cases e; simp_all
    rw [he, h2] at hpos
    by_contra hn
    rw [if_neg (fun hx => hn hx.2.2)] at hpos
    exact absurd hpos (by decide)

/-- C15: when no backup was received `checkForBackup` calls the dispatcher for
nothing and sends nothing.  Otherwise the dispatcher is called, each time on a
visit of the live registry, once for every entry of `orphanJobs`: exactly once
for each key of the backup that is not a key of the live registry and each floor
and direction where its backup snapshot holds `CALL`, and for no key present in
the live registry and no entry that is not `CALL`.  The function returns no new
state: the registry is as it was. -/
theorem checkForBackup_reconciles (I : Imports) (V : Visits) (hV : V.Valid) (st : State)
    (hkeys : (st.backup.map Prod.fst).Nodup) :
    (st.receivedBackup = false → checkForBackup I V st = some [])
      ∧ (st.receivedBackup = true → ∃ acts, checkForBackup I V st = some acts
          ∧ dispatched acts = (orphanJobs I st.emap (V.stored st.backup)).map Prod.snd
          ∧ (∀ addr elev f, (addr, elev) ∈ st.backup → mapFind st.emap addr = none →
              (elev.Uprun.get? f = some I.CALL →
                (orphanJobs I st.emap (V.stored st.backup)).count (addr, ⟨BUTTON_CALL_UP, f⟩) = 1)
              ∧ (elev.Downrun.get? f = some I.CALL →
                (orphanJobs I st.emap (V.stored st.backup)).count (addr, ⟨BUTTON_CALL_DOWN, f⟩) = 1)
              ∧ (elev.Uprun.get? f ≠ some I.CALL →
                (orphanJobs I st.emap (V.stored st.backup)).count (addr, ⟨BUTTON_CALL_UP, f⟩) = 0)
              ∧ (elev.Downrun.get? f ≠ some I.CALL →
                (orphanJobs I st.emap (V.stored st.backup)).count (addr, ⟨BUTTON_CALL_DOWN, f⟩) = 0))
          ∧ (∀ addr e, (addr, e) ∈ orphanJobs I st.emap (V.stored st.backup) →
              mapFind st.emap addr = none ∧ ∃ elev, (addr, elev) ∈ st.backup
                ∧ ((e.EventType = BUTTON_CALL_UP ∧ elev.Uprun.get? e.Floor = some I.CALL)
                  ∨ (e.EventType = BUTTON_CALL_DOWN ∧ elev.Downrun.get? e.Floor = some I.CALL)))
          ∧ (∀ e visited, Action.dispatch e visited ∈ acts → visited.Perm st.emap)) := by
  have hperm := hV.2.2.2.2.1 st.backup
  have hnd : ((V.stored st.backup).map Prod.fst).Nodup := ((hperm.map Prod.fst).nodup_iff).2 hkeys
  constructor
  · intro h
    simp [checkForBackup, h]
  · intro h
    refine ⟨reconciled I V st.emap (V.stored st.backup), ?_, dispatched_reconciled _ _ _ _,
      ?_, ?_, ?_⟩
    · simp [checkForBackup, h, reconcileOver_eq]
    · intro addr elev f hmem hmiss
      have hc := fun e => orphanJobs_count I st.emap addr elev e hmiss (V.stored st.backup) hnd
        (hperm.mem_iff.2 hmem)
      obtain ⟨h1, h2⟩ := jobsFrom_count I elev N_FLOORS 0 f
      rw [hc, hc, h1, h2]
      refine ⟨fun h => ?_, fun h => ?_, fun h => ?_, fun h => ?_⟩
      · rw [if_pos ⟨(get?_call_inRange h).1, (get?_call_inRange h).2, h⟩]
      · rw [if_pos ⟨(get?_call_inRange h).1, (get?_call_inRange h).2, h⟩]
      · rw [if_neg (fun hc => h hc.2.2)]
      · rw [if_neg (fun hc => h hc.2.2)]
    · intro addr e hmem
      obtain ⟨h1, elev, h2, h3⟩ := mem_orphanJobs I st.emap hmem
      exact ⟨h1, elev, hperm.mem_iff.1 h2, mem_jobsFrom I elev h3⟩
    · intro e visited hmem
      exact mem_reconciled_visit I V hV st.emap hmem

theorem checkForBackup_reconciles_witness :
    (stateS5.receivedBackup = false → checkForBackup Imports.sample Visits.stable stateS5 = some [])
      ∧ (stateS5.receivedBackup = true →
          ∃ acts, checkForBackup Imports.sample Visits.stable stateS5 = some acts
          ∧ dispatched acts
              = (orphanJobs Imports.sample stateS5.emap
                  (Visits.stable.stored stateS5.backup)).map Prod.snd
          ∧ (∀ addr elev f, (addr, elev) ∈ stateS5.backup → mapFind stateS5.emap addr = none →
              (elev.Uprun.get? f = some Imports.sample.CALL →
                (orphanJobs Imports.sample stateS5.emap
                  (Visits.stable.stored stateS5.backup)).count (addr, ⟨BUTTON_CALL_UP, f⟩) = 1)
              ∧ (elev.Downrun.get? f = some Imports.sample.CALL →
                (orphanJobs Imports.sample stateS5.emap
                  (Visits.stable.stored stateS5.backup)).count (addr, ⟨BUTTON_CALL_DOWN, f⟩) = 1)
              ∧ (elev.Uprun.get? f ≠ some Imports.sample.CALL →
                (orphanJobs Imports.sample stateS5.emap
                  (Visits.stable.stored stateS5.backup)).count (addr, ⟨BUTTON_CALL_UP, f⟩) = 0)
              ∧ (elev.Downrun.get? f ≠ some Imports.sample.CALL →
                (orphanJobs Imports.sample stateS5.emap
                  (Visits.stable.stored stateS5.backup)).count (addr, ⟨BUTTON_CALL_DOWN, f⟩) = 0))
          ∧ (∀ addr e, (addr, e) ∈ orphanJobs Imports.sample stateS5.emap
                (Visits.stable.stored stateS5.backup) →
              mapFind stateS5.emap addr = none ∧ ∃ elev, (addr, elev) ∈ stateS5.backup
                ∧ ((e.EventType = BUTTON_CALL_UP
                      ∧ elev.Uprun.get? e.Floor = some Imports.sample.CALL)
                  ∨ (e.EventType = BUTTON_CALL_DOWN
                      ∧ elev.Downrun.get? e.Floor = some Imports.sample.CALL)))
          ∧ (∀ e visited, Action.dispatch e visited ∈ acts → visited.Perm stateS5.emap)) :=
  checkForBackup_reconciles Imports.sample Visits.stable visits_stable_valid stateS5
    (by decide)

/-! ## The keys of the registry and the open sessions -/

theorem mem_mapDelete {emap : ElevatorMap} {a : Nat} {p : Nat × ElevatorStruct} :
    p ∈ mapDelete emap a ↔ p ∈ emap ∧ p.1 ≠ a := by
  simp [mapDelete, List.mem_filter]

theorem mem_mapAssign {emap : ElevatorMap} {a : Nat} {v : ElevatorStruct}
    {p : Nat × ElevatorStruct} :
    p ∈ mapAssign emap a v ↔ (p ∈ emap ∧ p.1 ≠ a) ∨ p = (a, v) := by
  simp [mapAssign, mem_mapDelete]

theorem tracks_mapAssign {emap : ElevatorMap} {sessions later : List TCPConn}
    (h : Tracks emap sessions) (hsub : ∀ c ∈ sessions, c ∈ later) (c : TCPConn)
    (hc : c ∈ later) (x : ElevatorStruct) (hx : x.Conn = some c) :
    Tracks (mapAssign emap c.ip x) later := by
  refine ⟨keys_mapAssign _ _ _ h.1, ?_⟩
  intro p hp
  rcases mem_mapAssign.1 hp with ⟨hp, _⟩ | rfl
  · obtain ⟨d, hd1, hd2, hd3⟩ := h.2 p hp
    exact ⟨d, hd1, hsub d hd2, hd3⟩
  · exact ⟨c, hx, hc, rfl⟩

theorem tracks_mapDelete {emap : ElevatorMap} {sessions : List TCPConn}
    (h : Tracks emap sessions) (c : TCPConn) :
    Tracks (mapDelete emap c.ip) (sessions.filter (fun x => decide (x ≠ c))) := by
  refine ⟨keys_mapDelete _ _ h.1, ?_⟩
  intro p hp
  obtain ⟨hp, hne⟩ := mem_mapDelete.1 hp
  obtain ⟨d, hd1, hd2, hd3⟩ := h.2 p hp
  refine ⟨d, hd1, ?_, hd3⟩
  rw [List.mem_filter]
  refine ⟨hd2, ?_⟩
  have : d ≠ c := by
    intro hdc
    rw [hdc] at hd3
    exact hne hd3.symm
  simpa using this

/-- A message leaves the registry as it is, unless it reaches the `case
ELEV_INFO`, which stores a snapshot bound to the sender under the IP of the sender. -/
theorem handleMessage_emap (I : Imports) (V : Visits) (st st' : State) (m : Message)
    (acts : List Action) (hrun : handleMessage I V st m = some (st', acts)) :
    st'.emap = st.emap
      ∨ (isElevInfo I m = true
          ∧ ∃ x, x.Conn = some m.Sender ∧ st'.emap = mapAssign st.emap m.Sender.ip x) := by
  unfold handleMessage at hrun
  unfold isElevInfo
  cases hmsg : m.Msg with
  | nil => rw [hmsg] at hrun; simp at hrun
  | cons b body =>
    rw [hmsg] at hrun
    simp only at hrun
    split_ifs at hrun with c1 c2 c3 c4 c5
    · injection hrun with hrun; rw [← (Prod.mk.inj hrun).1]; exact Or.inl rfl
    · cases hev : handleEvent V st (I.DecodeEvent body) with
      | none => rw [hev] at hrun; simp at hrun
      | some a =>
        rw [hev] at hrun
        injection hrun with hrun; rw [← (Prod.mk.inj hrun).1]; exact Or.inl rfl
    · injection hrun with hrun
      rw [← (Prod.mk.inj hrun).1]
      exact Or.inr ⟨by simpa using c3, _, rfl, rfl⟩
    · injection hrun with hrun; rw [← (Prod.mk.inj hrun).1]; exact Or.inl rfl
    · injection hrun with hrun; rw [← (Prod.mk.inj hrun).1]; exact Or.inl rfl
    · injection hrun with hrun; rw [← (Prod.mk.inj hrun).1]; exact Or.inl rfl

theorem run_tracks (I : Imports) :
    ∀ (inputs : List (Visits × Input)) (sys sys' : System),
      Tracks sys.st.emap sys.sessions → Admissible I sys.sessions inputs →
      run I sys inputs = some sys' → Tracks sys'.st.emap sys'.sessions
  | [], sys, sys', h, _, hrun => by
    simp only [run, Option.some.injEq] at hrun
    rw [← hrun]; exact h
  | (V, Input.newConn c) :: rest, sys, sys', h, hadm, hrun => by
    simp only [run, step, newConnection_eq] at hrun
    have hadm' : Admissible I (c :: sys.sessions) rest := hadm
    refine run_tracks I rest _ sys' ?_ hadm' hrun
    exact tracks_mapAssign h (fun d hd => List.mem_cons_of_mem _ hd) c (List.mem_cons_self _ _)
      ⟨Runs.zero, Runs.zero, 0, 0, some c⟩ rfl
  | (V, Input.lostConn c) :: rest, sys, sys', h, hadm, hrun => by
    simp only [run, step, lostConnection_eq] at hrun
    have hadm' : Admissible I (sys.sessions.filter (fun x => decide (x ≠ c))) rest := hadm
    by_cases hempty : mapDelete sys.st.emap c.ip = []
    · rw [if_pos hempty] at hrun
      refine run_tracks I rest _ sys' ?_ hadm' hrun
      exact tracks_mapDelete h c
    · rw [if_neg hempty] at hrun
      refine run_tracks I rest _ sys' ?_ hadm' hrun
      exact tracks_mapDelete h c
  | (V, Input.message m) :: rest, sys, sys', h, hadm, hrun => by
    simp only [run, step] at hrun
    have hadm' : (isElevInfo I m = true → m.Sender ∈ sys.sessions)
        ∧ Admissible I sys.sessions rest := hadm
    cases hm : handleMessage I V sys.st m with
    | none => rw [hm] at hrun; simp at hrun
    | some r =>
      obtain ⟨st1, acts⟩ := r
      rw [hm] at hrun
      simp only at hrun
      refine run_tracks I rest ⟨st1, sys.sessions⟩ sys' ?_ hadm'.2 hrun
      show Tracks st1.emap sys.sessions
      rcases handleMessage_emap I V sys.st st1 m acts hm with he | ⟨hinfo, x, hx, he⟩
      · rw [he]; exact h
      · rw [he]
        exact tracks_mapAssign h (fun d hd => hd) m.Sender (hadm'.1 hinfo) x hx

/-- C17: starting from the empty registry with no session open, after every
sequence of new-connection, lost-connection and message transitions in which
each `ELEV_INFO` message comes from a session that is open when it is handled,
the registry has at most one entry per IP and the `Conn` of every entry is an
open session whose remote IP is the key of the entry. -/
theorem registry_tracks_sessions (I : Imports) (inputs : List (Visits × Input)) (sys : System)
    (hadm : Admissible I [] inputs) (hrun : run I ⟨State.init, []⟩ inputs = some sys) :
    (sys.st.emap.map Prod.fst).Nodup
      ∧ ∀ p ∈ sys.st.emap, ∃ c, p.2.Conn = some c ∧ c ∈ sys.sessions ∧ c.ip = p.1 :=
  run_tracks I inputs ⟨State.init, []⟩ sys ⟨List.nodup_nil, by simp [State.init]⟩ hadm hrun

theorem registry_tracks_sessions_witness :
    ∃ sys, run Imports.sample ⟨State.init, []⟩ inputsDemo = some sys
      ∧ sys.sessions = [⟨2, 1⟩]
      ∧ (sys.st.emap.map Prod.fst).Nodup
      ∧ ∀ p ∈ sys.st.emap, ∃ c, p.2.Conn = some c ∧ c ∈ sys.sessions ∧ c.ip = p.1 :=
  ⟨_, rfl, rfl,
    registry_tracks_sessions Imports.sample inputsDemo _
      ⟨by decide, by decide, trivial⟩ rfl⟩

/-! ## The guard of the registry -/

theorem guarded_touches (tail : List GuardOp) :
    ∀ l : List GuardOp, (∀ op ∈ l, op = GuardOp.touch) →
      guarded true (l ++ tail) = guarded true tail
  | [], _ => rfl
  | op :: rest, h => by
    have hop := h op (List.mem_cons_self _ _)
    subst hop
    simp only [List.cons_append, guarded, Bool.true_and]
    exact guarded_touches tail rest (fun o ho => h o (List.mem_cons_of_mem _ ho))

theorem guardOpsDistribute_touch (I : Imports) (elev : ElevatorStruct) :
    ∀ op ∈ guardOpsDistribute I elev, op = GuardOp.touch := by
  intro op hop
  simp only [guardOpsDistribute, List.mem_map] at hop
  obtain ⟨_, _, h⟩ := hop
  exact h.symm

theorem guardOpsReconcile_touch (I : Imports) (emap : ElevatorMap) :
    ∀ (xs : ElevatorMap), ∀ op ∈ guardOpsReconcile I emap xs, op = GuardOp.touch
  | [], op, h => by simp [guardOpsReconcile] at h
  | (a, x) :: rest, op, h => by
    simp only [guardOpsReconcile, List.cons_append, List.mem_cons, List.mem_append] at h
    rcases h with h | h | h
    · exact h
    · split at h
      · simp at h
      · exact guardOpsDistribute_touch I x op h
    · exact guardOpsReconcile_touch I emap rest op h

/-- C18: the `case EVENT` of `handleMessages` reads `emap` without holding the
guard, for `JOB_DONE` as for a hall call, while the `case ELEV_INFO`,
`checkForBackup` and the two connection cases of `main` read and write it
between taking and giving the guard. -/
theorem event_case_unguarded (I : Imports) (V : Visits) (st : State) (floor : Int)
    (lostConn : TCPConn) :
    guarded false (guardOpsEvent V st ⟨JOB_DONE, floor⟩) = false
      ∧ guarded false (guardOpsEvent V st ⟨BUTTON_CALL_UP, floor⟩) = false
      ∧ guarded false (guardOpsEvent V st ⟨BUTTON_CALL_DOWN, floor⟩) = false
      ∧ guarded false (guardOpsMessage Imports.sample Visits.stable stateS4 ⟨⟨1, 1⟩, [49, 0, 2]⟩)
          = false
      ∧ guarded false (guardOpsMessage Imports.sample Visits.stable stateS4 ⟨⟨1, 1⟩, [50, 2]⟩)
          = true
      ∧ guarded false (guardOpsCheckForBackup I V st) = true
      ∧ guarded false (guardOpsNewConnection I st) = true
      ∧ guarded false (guardOpsLostConnection I st lostConn) = true := by
  refine ⟨by simp [guardOpsEvent, guarded], by simp [guardOpsEvent, guarded],
    by simp [guardOpsEvent, guarded], by decide, by decide, ?_, ?_, ?_⟩
  · unfold guardOpsCheckForBackup
    by_cases h : st.receivedBackup = true
    · rw [if_pos h]
      show guarded true (guardOpsReconcile I st.emap (V.stored st.backup) ++ [GuardOp.give]) = true
      rw [guarded_touches _ _ (guardOpsReconcile_touch I st.emap _)]
      rfl
    · rw [if_neg h]
      rfl
  · unfold guardOpsNewConnection
    by_cases h : st.DistributeBU = true
    · rw [if_pos h]
      show guarded true (guardOpsDistribute I st.BUelev ++ [GuardOp.give]) = true
      rw [guarded_touches _ _ (guardOpsDistribute_touch I _)]
      rfl
    · rw [if_neg h]
      rfl
  · unfold guardOpsLostConnection
    by_cases h : (mapDelete st.emap lostConn.ip).length = 0
    · rw [if_pos h]
      rfl
    · rw [if_neg h]
      show guarded true ((guardOpsDistribute I (mapIndex st.emap lostConn.ip)
        ++ [GuardOp.touch]) ++ [GuardOp.give]) = true
      rw [List.append_assoc, guarded_touches _ _ (guardOpsDistribute_touch I _)]
      rfl

end Master
